import Mathlib

/-!
# herbstluftwm: the stack and the client list

A shallow embedding of `src/stack.cpp` (the layered Z-order stack) and of the
client functions of `src/clientlist.cpp` that the stated properties are about:
size hints, fullscreen and pseudotile, adoption, the layout rectangles, focus
and urgency.

Pointers are natural numbers looked up in a `Heap`; a method of `Stack` takes
the stack it is called on as the value `this` and returns the new value.
C `int` is modelled by `Int`, the X type `Window` (an unsigned id) by `Nat`;
`applysizehints_int32` is the size-hints method with the arithmetic of a
32-bit `int`, on which the properties that depend on the range of `int` are
stated.
Behaviour the C++ standard leaves undefined, a failed `assert` and a traversal
that runs out of fuel are all the result `none`.
-/

set_option autoImplicit false

namespace Herbstluft

/-! ## Data model -/

abbrev Window := Nat
abbrev SlicePtr := Nat
abbrev ClientPtr := Nat
abbrev MonitorPtr := Nat
abbrev TagPtr := Nat
abbrev StackPtr := Nat

/-- The enum `HSLayer` without its last enumerator `LAYER_COUNT`, which is
`LAYER_COUNT` below; the order of the constructors is the order of the enum,
top layer first. -/
inductive HSLayer where
  | LAYER_FOCUS
  | LAYER_FULLSCREEN
  | LAYER_NORMAL
  | LAYER_FRAMES
  deriving DecidableEq, Repr, Fintype

/-- The enumerator that ends `HSLayer`: the number of layers. -/
def LAYER_COUNT : Nat := 4

/-- The integer value of an enumerator. -/
def HSLayer.toNat : HSLayer → Nat
  | .LAYER_FOCUS => 0
  | .LAYER_FULLSCREEN => 1
  | .LAYER_NORMAL => 2
  | .LAYER_FRAMES => 3

/-- The loop `for (int i = 0; i < LAYER_COUNT; i++)`. -/
def all_layers : List HSLayer :=
  [.LAYER_FOCUS, .LAYER_FULLSCREEN, .LAYER_NORMAL, .LAYER_FRAMES]

/-- The member `std::set<HSLayer> layers` of a slice: one bit per layer. -/
structure LayerSet where
  focus : Bool
  fullscreen : Bool
  normal : Bool
  frames : Bool
  deriving DecidableEq, Repr

namespace LayerSet

/-- The call `layers.count(l) != 0`. -/
def count (s : LayerSet) : HSLayer → Bool
  | .LAYER_FOCUS => s.focus
  | .LAYER_FULLSCREEN => s.fullscreen
  | .LAYER_NORMAL => s.normal
  | .LAYER_FRAMES => s.frames

/-- The call `layers.insert(l)`. -/
def insert (s : LayerSet) : HSLayer → LayerSet
  | .LAYER_FOCUS => { s with focus := true }
  | .LAYER_FULLSCREEN => { s with fullscreen := true }
  | .LAYER_NORMAL => { s with normal := true }
  | .LAYER_FRAMES => { s with frames := true }

/-- The call `layers.erase(l)`. -/
def erase (s : LayerSet) : HSLayer → LayerSet
  | .LAYER_FOCUS => { s with focus := false }
  | .LAYER_FULLSCREEN => { s with fullscreen := false }
  | .LAYER_NORMAL => { s with normal := false }
  | .LAYER_FRAMES => { s with frames := false }

/-- Iteration `for (auto layer : layers)`: a `std::set` is visited in
ascending order. -/
def toList (s : LayerSet) : List HSLayer :=
  (if s.focus then [HSLayer.LAYER_FOCUS] else []) ++
  (if s.fullscreen then [HSLayer.LAYER_FULLSCREEN] else []) ++
  (if s.normal then [HSLayer.LAYER_NORMAL] else []) ++
  (if s.frames then [HSLayer.LAYER_FRAMES] else [])

end LayerSet

/-- The tagged union of a slice: `type` together with the member of `data`
that the type selects. -/
inductive SliceData where
  | client (c : ClientPtr)
  | window (w : Window)
  | monitor (m : MonitorPtr)
  deriving DecidableEq, Repr

/-- The enum of the member `type` of a slice. -/
inductive SliceType where
  | SLICE_CLIENT
  | SLICE_WINDOW
  | SLICE_MONITOR
  deriving DecidableEq, Repr

/-- The member `type` of the tagged union. -/
def SliceData.type : SliceData → SliceType
  | .client _ => .SLICE_CLIENT
  | .window _ => .SLICE_WINDOW
  | .monitor _ => .SLICE_MONITOR

structure Slice where
  data : SliceData
  layers : LayerSet
  deriving DecidableEq, Repr

structure Rectangle where
  x : Int := 0
  y : Int := 0
  width : Int := 0
  height : Int := 0
  deriving DecidableEq, Repr

/-- The fields of `HSTag` (tag.h) that the modelled code reads. -/
structure HSTag where
  floating : Bool := false
  flags : Int := 0
  stack : StackPtr := 0
  deriving DecidableEq, Repr

/-- The fields of `HSMonitor` that the modelled code reads. -/
structure HSMonitor where
  tag : TagPtr := 0
  stacking_window : Window := 0
  rect : Rectangle := {}
  pad_up : Int := 0
  pad_right : Int := 0
  pad_down : Int := 0
  pad_left : Int := 0
  deriving DecidableEq, Repr

/-- The data members of `HSClient`; the defaults are the values the
constructor `HSClient::HSClient()` assigns (0 where it assigns nothing).
`decwin` is `dec.decwin`; the aspect bounds `mina`, `maxa` are C floats and
are held as rationals. -/
structure HSClient where
  window : Window := 0
  decwin : Window := 0
  float_size : Rectangle := { width := 100, height := 100 }
  last_size : Rectangle := {}
  urgent : Bool := false
  fullscreen : Bool := false
  ewmhfullscreen : Bool := false
  pseudotile : Bool := false
  ewmhrequests : Bool := true
  ewmhnotify : Bool := true
  sizehints_floating : Bool := true
  sizehints_tiling : Bool := false
  visible : Bool := false
  tag_ : Option TagPtr := none
  slice : Option SlicePtr := none
  dragged : Bool := false
  neverfocus : Bool := false
  ignore_unmaps : Int := 0
  basew : Int := 0
  baseh : Int := 0
  incw : Int := 0
  inch : Int := 0
  maxw : Int := 0
  maxh : Int := 0
  minw : Int := 0
  minh : Int := 0
  mina : ℚ := 0
  maxa : ℚ := 0
  title : String := ""
  window_str : Option String := none
  keymask : Option String := none
  pid : Int := 0

/-- The class `Stack`: `top[LAYER_COUNT]`, one vector of slice pointers per
layer with the top slice first, and the `dirty` bit. -/
structure Stack where
  focus : List SlicePtr := []
  fullscreen : List SlicePtr := []
  normal : List SlicePtr := []
  frames : List SlicePtr := []
  dirty : Bool := false
  deriving DecidableEq, Repr

namespace Stack

/-- Read access `top[layer]`. -/
def top (st : Stack) : HSLayer → List SlicePtr
  | .LAYER_FOCUS => st.focus
  | .LAYER_FULLSCREEN => st.fullscreen
  | .LAYER_NORMAL => st.normal
  | .LAYER_FRAMES => st.frames

/-- Assignment to the vector `top[layer]`. -/
def setTop (st : Stack) (layer : HSLayer) (v : List SlicePtr) : Stack :=
  match layer with
  | .LAYER_FOCUS => { st with focus := v }
  | .LAYER_FULLSCREEN => { st with fullscreen := v }
  | .LAYER_NORMAL => { st with normal := v }
  | .LAYER_FRAMES => { st with frames := v }

end Stack

/-- The objects that pointers refer to. -/
structure Heap where
  slices : SlicePtr → Slice
  clients : ClientPtr → HSClient
  monitors : MonitorPtr → HSMonitor
  tags : TagPtr → HSTag
  tagstacks : StackPtr → Stack

/-- The stack `monitor->tag->stack` of a monitor. -/
def Heap.monitor_stack (h : Heap) (m : MonitorPtr) : Stack :=
  h.tagstacks (h.tags (h.monitors m).tag).stack

/-- Assignment to `slice->layers`. -/
def Heap.set_layers (h : Heap) (slice : SlicePtr) (ls : LayerSet) : Heap :=
  { h with slices := fun p => if p = slice then { h.slices p with layers := ls } else h.slices p }

/-! ## stack.cpp -/

/-- The function `slice_highest_layer`: the first element of the ordered set
`layers`, or `LAYER_COUNT` for an empty set. -/
def slice_highest_layer (s : Slice) : Nat :=
  match s.layers.toList with
  | [] => LAYER_COUNT
  | l :: _ => l.toNat

/-- Method `Stack::insert_slice`. -/
def insert_slice (h : Heap) (this : Stack) (elem : SlicePtr) : Stack :=
  let st := (h.slices elem).layers.toList.foldl
    (fun st layer => st.setTop layer (elem :: st.top layer)) this
  { st with dirty := true }

/-- The statement `v.erase(std::remove(v.begin(), v.end(), x))`.
`std::remove` moves the elements different from `x` to the front, keeps the
positions behind them as they were and returns the position behind the kept
elements; the one-argument `erase` removes the single element at that
position. When `x` does not occur, that position is `v.end()`, which `erase`
must not be given: the behaviour is undefined. -/
def erase_remove (v : List SlicePtr) (x : SlicePtr) : Option (List SlicePtr) :=
  let kept := v.filter (fun y => y ≠ x)
  if kept.length = v.length then none
  else some (kept ++ v.drop (kept.length + 1))

/-- Method `Stack::remove_slice`. -/
def remove_slice (h : Heap) (this : Stack) (elem : SlicePtr) : Option Stack := do
  let st ← (h.slices elem).layers.toList.foldlM
    (fun st layer => do
      let v ← erase_remove (st.top layer) elem
      pure (st.setTop layer v)) this
  pure { st with dirty := true }

/-- What a stack operation sends to the X server and to the EWMH bridge. -/
inductive Effect where
  | XRestackWindows (buf : List Window) (count : Int)
  | ewmh_update_client_list_stacking
  deriving DecidableEq, Repr

/-- The struct `s2wb`. The pointer `buf` only ever advances over the entries
written through it, so it is held as the list of the entries written so far,
first written first. -/
structure s2wb where
  len : Int
  buf : List Window
  missing : Int
  real_clients : Bool
  layer : Nat
  deriving DecidableEq, Repr

/-- The block that occurs three times in `slice_to_window_buf`:
`if (data->len) { data->buf[0] = w; data->buf++; data->len--; }
else { data->missing++; }`. -/
def s2wb.put (data : s2wb) (w : Window) : s2wb :=
  if data.len ≠ 0 then { data with buf := data.buf ++ [w], len := data.len - 1 }
  else { data with missing := data.missing + 1 }

/-- The function `slice_to_window_buf`; `nested` is the recursive call
`tag->stack->to_window_buf(data->buf, data->len, data->real_clients, &remain_len)`
and yields the entries it wrote and `remain_len`. -/
def slice_to_window_buf (nested : Stack → Int → Bool → Option (List Window × Int))
    (h : Heap) (s : SlicePtr) (data : s2wb) : Option s2wb :=
  if slice_highest_layer (h.slices s) ≠ data.layer then some data
  else match (h.slices s).data with
    | .client c =>
      some (data.put (if data.real_clients then (h.clients c).window else (h.clients c).decwin))
    | .window w =>
      if !data.real_clients then some (data.put w) else some data
    | .monitor m => do
      let data := if !data.real_clients then data.put (h.monitors m).stacking_window else data
      let (written, remain_len) ← nested (h.monitor_stack m) data.len data.real_clients
      if remain_len ≥ 0 then
        some { data with buf := data.buf ++ written, len := remain_len }
      else
        some { data with buf := data.buf ++ written, len := 0,
                         missing := data.missing + (-remain_len) }

/-- The loop `for (auto slice : top[i]) slice_to_window_buf(slice, &data)`. -/
def layer_to_window_buf (nested : Stack → Int → Bool → Option (List Window × Int))
    (h : Heap) (v : List SlicePtr) (data : s2wb) : Option s2wb :=
  v.foldlM (fun d slice => slice_to_window_buf nested h slice d) data

/-- Method `Stack::to_window_buf`: the entries written to `buf`, first to
last, and the value stored through `remain_len`. The recursion through
monitor slices is bounded by the fuel. -/
def to_window_buf : Nat → Heap → Stack → Int → Bool → Option (List Window × Int)
  | 0, _, _, _, _ => none
  | fuel + 1, h, this, len, real_clients => do
    let data ← all_layers.foldlM
      (fun data i =>
        layer_to_window_buf (to_window_buf fuel h) h (this.top i) { data with layer := i.toNat })
      { len := len, buf := [], missing := 0, real_clients := real_clients, layer := 0 }
    some (data.buf, if data.missing = 0 then data.len else -data.missing)

/-- Method `Stack::window_count`. -/
def window_count (fuel : Nat) (h : Heap) (this : Stack) (real_clients : Bool) : Option Int := do
  let (_, counter) ← to_window_buf fuel h this 0 real_clients
  some (-counter)

/-- Method `Stack::restack`. The buffer is `g_new0(Window, count)`: `count`
zero entries, of which `to_window_buf` overwrites the first ones. -/
def restack (fuel : Nat) (h : Heap) (this : Stack) : Option (Stack × List Effect) :=
  if !this.dirty then some (this, [])
  else do
    let count ← window_count fuel h this false
    let (written, _) ← to_window_buf fuel h this count false
    let buf := written ++ List.replicate (count.toNat - written.length) 0
    some ({ this with dirty := false },
      [Effect.XRestackWindows buf count, Effect.ewmh_update_client_list_stacking])

/-- The body of the loop of `raise_slide`: `std::find`, the assertion that
the slice was found, and `std::rotate(v.begin(), it, it + 1)`, which makes
the found element the first and moves those before it one place down. -/
def rotate_to_front (v : List SlicePtr) (slice : SlicePtr) : Option (List SlicePtr) :=
  if slice ∈ v then some (slice :: v.erase slice) else none

/-- Method `Stack::raise_slide`. -/
def raise_slide (fuel : Nat) (h : Heap) (this : Stack) (slice : SlicePtr) :
    Option (Stack × List Effect) := do
  let st ← (h.slices slice).layers.toList.foldlM
    (fun st layer => do
      let v ← rotate_to_front (st.top layer) slice
      pure (st.setTop layer v)) this
  restack fuel h { st with dirty := true }

/-- Method `Stack::mark_dirty`. -/
def mark_dirty (this : Stack) : Stack := { this with dirty := true }

/-- Method `Stack::slice_add_layer`. -/
def slice_add_layer (h : Heap) (this : Stack) (slice : SlicePtr) (layer : HSLayer) :
    Heap × Stack :=
  if (h.slices slice).layers.count layer then (h, this)
  else
    (h.set_layers slice ((h.slices slice).layers.insert layer),
     { this.setTop layer (slice :: this.top layer) with dirty := true })

/-- Method `Stack::slice_remove_layer`. The `HSDebug` line of the early
return writes a diagnostic only and is not part of the state. -/
def slice_remove_layer (h : Heap) (this : Stack) (slice : SlicePtr) (layer : HSLayer) :
    Option (Heap × Stack) := do
  let v ← erase_remove (this.top layer) slice
  let st := { this.setTop layer v with dirty := true }
  if !(h.slices slice).layers.count layer then some (h, st)
  else some (h.set_layers slice ((h.slices slice).layers.erase layer), st)

/-- The window `w` that the `switch` of `lowest_window` assigns for a slice;
`nested` is the recursive call `monitor->tag->stack->lowest_window()`. -/
def slice_lowest_window (nested : Stack → Option Window) (h : Heap) (slice : SlicePtr) :
    Option Window :=
  match (h.slices slice).data with
  | .client c => some (h.clients c).decwin
  | .window w => some w
  | .monitor m => nested (h.monitor_stack m)

/-- The inner loop of `lowest_window` over the slices still to visit, given
bottom first: the first window that is not 0, or 0 when there is none. -/
def lowest_in_layer (nested : Stack → Option Window) (h : Heap) :
    List SlicePtr → Option Window
  | [] => some 0
  | slice :: rest => do
    let w ← slice_lowest_window nested h slice
    if w ≠ 0 then some w else lowest_in_layer nested h rest

/-- The outer loop of `lowest_window` over the layers still to visit. -/
def lowest_in_layers (nested : Stack → Option Window) (h : Heap) (this : Stack) :
    List HSLayer → Option Window
  | [] => some 0
  | i :: rest => do
    let w ← lowest_in_layer nested h (this.top i).reverse
    if w ≠ 0 then some w else lowest_in_layers nested h this rest

/-- Method `Stack::lowest_window`: the layers are visited from
`LAYER_COUNT - 1` down to 0 and each vector from its last element to its
first. The recursion through monitor slices is bounded by the fuel. -/
def lowest_window : Nat → Heap → Stack → Option Window
  | 0, _, _ => none
  | fuel + 1, h, this => lowest_in_layers (lowest_window fuel h) h this all_layers.reverse

/-- Method `Stack::is_layer_empty`. -/
def is_layer_empty (this : Stack) (layer : HSLayer) : Bool :=
  (this.top layer).isEmpty

/-! ## clientlist.cpp -/

/-- Method `HSClient::ignore_unmapnotify`: the value returned and the client
afterwards. -/
def ignore_unmapnotify (c : HSClient) : Bool × HSClient :=
  if c.ignore_unmaps > 0 then (true, { c with ignore_unmaps := c.ignore_unmaps - 1 })
  else (false, c)

/-- Method `HSClient::is_client_floated`, `tag()->floating`; a null `tag_`
cannot be followed. -/
def is_client_floated (hp : Heap) (c : HSClient) : Option Bool :=
  c.tag_.map (fun t => (hp.tags t).floating)

/-- Conversion of a floating-point value to `int` in an assignment: the
fraction is dropped. -/
def float_to_int (q : ℚ) : Int := Int.tdiv q.num q.den

/-- Method `HSClient::applysizehints`: the value returned and the values left
in `*w` and `*h`. `WINDOW_MIN_WIDTH` and `WINDOW_MIN_HEIGHT` are constants of
globals.h. The arithmetic is that of the integers (all values are taken to be
within the range of `int`), the operator `%` is `Int.tmod`, and the aspect
arithmetic, done in `float` by the source, is done in the rationals.
`applysizehints_int32` below is the same method with the arithmetic of a 32-bit
`int` and with the `float` expressions as parameters; for a client without an
aspect hint the two agree wherever no operation leaves the range of `int`
(`applysizehints_int32_eq`). -/
def applysizehints (WINDOW_MIN_WIDTH WINDOW_MIN_HEIGHT : Int) (hp : Heap) (c : HSClient)
    (w h : Int) : Option (Bool × Int × Int) := do
  /- set minimum possible -/
  let w := max 1 w
  let h := max 1 h
  let h := if h < WINDOW_MIN_HEIGHT then WINDOW_MIN_HEIGHT else h
  let w := if w < WINDOW_MIN_WIDTH then WINDOW_MIN_WIDTH else w
  let floated ← is_client_floated hp c
  let sizehints := if floated || c.pseudotile then c.sizehints_floating else c.sizehints_tiling
  if sizehints then
    let baseismin := decide (c.basew = c.minw) && decide (c.baseh = c.minh)
    /- temporarily remove base dimensions -/
    let w := if !baseismin then w - c.basew else w
    let h := if !baseismin then h - c.baseh else h
    /- adjust for aspect limits -/
    let aspect := decide (c.mina > 0) && decide (c.maxa > 0)
    let too_wide := decide (c.maxa < (w : ℚ) / (h : ℚ))
    let too_high := decide (c.mina < (h : ℚ) / (w : ℚ))
    let w' := if aspect && too_wide then float_to_int ((h : ℚ) * c.maxa + 1 / 2) else w
    let h' := if aspect && !too_wide && too_high then float_to_int ((w : ℚ) * c.mina + 1 / 2) else h
    /- increment calculation requires this -/
    let w := if baseismin then w' - c.basew else w'
    let h := if baseismin then h' - c.baseh else h'
    /- adjust for increment value -/
    let w := if c.incw ≠ 0 then w - Int.tmod w c.incw else w
    let h := if c.inch ≠ 0 then h - Int.tmod h c.inch else h
    /- restore base dimensions -/
    let w := w + c.basew
    let h := h + c.baseh
    let w := max w c.minw
    let h := max h c.minh
    let w := if c.maxw ≠ 0 then min w c.maxw else w
    let h := if c.maxh ≠ 0 then min h c.maxh else h
    some (decide (w ≠ c.last_size.width) || decide (h ≠ c.last_size.height), w, h)
  else
    some (decide (w ≠ c.last_size.width) || decide (h ≠ c.last_size.height), w, h)

/-- The constant `INT_MIN` for the 32-bit `int` of the platforms at hand. -/
def INT_MIN : Int := -2147483648

/-- The constant `INT_MAX` for the 32-bit `int` of the platforms at hand. -/
def INT_MAX : Int := 2147483647

/-- The values of type `int`. -/
def in_int (x : Int) : Prop := INT_MIN ≤ x ∧ x ≤ INT_MAX

instance (x : Int) : Decidable (in_int x) := by
  unfold in_int; infer_instance

/-- The `int` left by `+`, `-`, `+=` or `-=` when the exact result is `x`:
the value of type `int` congruent to `x` modulo `2 ^ 32`. An overflow of
`int` is undefined in C; the compiled code wraps around, and that is what is
modelled. -/
def wrap_int (x : Int) : Int := (x - INT_MIN) % 4294967296 + INT_MIN

/-- The operator `%` on `int`, for a divisor that is not 0: the remainder of
the division that rounds towards zero. `INT_MIN % -1` overflows in the
division; it is undefined and traps on x86. -/
def rem_int (a b : Int) : Option Int :=
  if a = INT_MIN ∧ b = -1 then none else some (Int.tmod a b)

/-- The four `float` expressions of `applysizehints`, as functions of the
aspect bound and of the values of `*w` and `*h` at that point. The arithmetic
of `float` (rounding, infinities, division by zero, the conversion back to
`int`) is not modelled; the results are parameters. -/
structure AspectArith where
  /-- The test `this->maxa < (float)*w / *h`. -/
  too_wide : ℚ → Int → Int → Bool
  /-- The `int` assigned by `*w = *h * this->maxa + 0.5`. -/
  aspect_width : ℚ → Int → Int
  /-- The test `this->mina < (float)*h / *w`. -/
  too_high : ℚ → Int → Int → Bool
  /-- The `int` assigned by `*h = *w * this->mina + 0.5`. -/
  aspect_height : ℚ → Int → Int

/-- Method `HSClient::applysizehints` with the arithmetic of `int`: the value
returned and the values left in `*w` and `*h`. Every `+=` and `-=` leaves the
result wrapped into the range of `int`, `%` is `rem_int`, and the `float`
expressions of the aspect branch are those of `fa`. -/
def applysizehints_int32 (fa : AspectArith) (WINDOW_MIN_WIDTH WINDOW_MIN_HEIGHT : Int)
    (hp : Heap) (c : HSClient) (w h : Int) : Option (Bool × Int × Int) := do
  /- set minimum possible -/
  let w := max 1 w
  let h := max 1 h
  let h := if h < WINDOW_MIN_HEIGHT then WINDOW_MIN_HEIGHT else h
  let w := if w < WINDOW_MIN_WIDTH then WINDOW_MIN_WIDTH else w
  let floated ← is_client_floated hp c
  let sizehints := if floated || c.pseudotile then c.sizehints_floating else c.sizehints_tiling
  if sizehints then
    let baseismin := decide (c.basew = c.minw) && decide (c.baseh = c.minh)
    /- temporarily remove base dimensions -/
    let w := if !baseismin then wrap_int (w - c.basew) else w
    let h := if !baseismin then wrap_int (h - c.baseh) else h
    /- adjust for aspect limits -/
    let aspect := decide (c.mina > 0) && decide (c.maxa > 0)
    let too_wide := fa.too_wide c.maxa w h
    let w1 := if aspect && too_wide then fa.aspect_width c.maxa h else w
    let h1 := if aspect && !too_wide && fa.too_high c.mina w h then fa.aspect_height c.mina w
      else h
    /- increment calculation requires this -/
    let w := if baseismin then wrap_int (w1 - c.basew) else w1
    let h := if baseismin then wrap_int (h1 - c.baseh) else h1
    /- adjust for increment value -/
    let w ← if c.incw ≠ 0 then (rem_int w c.incw).map (fun r => wrap_int (w - r)) else some w
    let h ← if c.inch ≠ 0 then (rem_int h c.inch).map (fun r => wrap_int (h - r)) else some h
    /- restore base dimensions -/
    let w := wrap_int (w + c.basew)
    let h := wrap_int (h + c.baseh)
    let w := max w c.minw
    let h := max h c.minh
    let w := if c.maxw ≠ 0 then min w c.maxw else w
    let h := if c.maxh ≠ 0 then min h c.maxh else h
    some (decide (w ≠ c.last_size.width) || decide (h ≠ c.last_size.height), w, h)
  else
    some (decide (w ≠ c.last_size.width) || decide (h ≠ c.last_size.height), w, h)

/-! ## Notions used to state the properties -/

/-- The window a slice stands for in the stacking order: the decoration
window of a client, the window of a bare-window slice, the stacking anchor of
a monitor. -/
def slice_window (h : Heap) (p : SlicePtr) : Window :=
  match (h.slices p).data with
  | .client c => (h.clients c).decwin
  | .window w => w
  | .monitor m => (h.monitors m).stacking_window

/-- The slices of the sequence of layer `l` whose highest layer membership is
`l`, in the order of the sequence. -/
def shown_in_layer (h : Heap) (st : Stack) (l : HSLayer) : List SlicePtr :=
  (st.top l).filter (fun p => slice_highest_layer (h.slices p) = l.toNat)

/-- The slices shown in their highest layer, over the layers Focus,
Fullscreen, Normal, Frames. -/
def shown_slices (h : Heap) (st : Stack) : List SlicePtr :=
  shown_in_layer h st .LAYER_FOCUS ++ shown_in_layer h st .LAYER_FULLSCREEN ++
  shown_in_layer h st .LAYER_NORMAL ++ shown_in_layer h st .LAYER_FRAMES

/-- All entries of the four sequences, over the layers Focus, Fullscreen,
Normal, Frames. -/
def all_entries (st : Stack) : List SlicePtr :=
  st.focus ++ st.fullscreen ++ st.normal ++ st.frames

/-- Monitor slices are nested at most `n - 1` deep below the stack: the stack
of the tag of every monitor slice of the stack is nested within `n - 1`. -/
def nested_within (h : Heap) : Nat → Stack → Bool
  | 0, _ => false
  | n + 1, st =>
    (all_entries st).all (fun p =>
      match (h.slices p).data with
      | .monitor m => nested_within h n (h.monitor_stack m)
      | _ => true)

/-- The client after `k` calls of `ignore_unmapnotify`. -/
def after_unmapnotify (k : Nat) (c : HSClient) : HSClient :=
  (fun c => (ignore_unmapnotify c).2)^[k] c

/-- A heap for the concrete examples: slice 1 is a client slice in the
Fullscreen and Normal layers, slice 2 a frame window, slice 3 a monitor slice,
every other slice a client slice in the Normal layer; every tag is tiling and
its stack holds the client slices 5 and 6. -/
def example_heap : Heap :=
  { slices := fun p =>
      if p = 1 then ⟨.client 1, ⟨false, true, true, false⟩⟩
      else if p = 2 then ⟨.window 22, ⟨false, false, false, true⟩⟩
      else if p = 3 then ⟨.monitor 0, ⟨false, false, true, false⟩⟩
      else ⟨.client p, ⟨false, false, true, false⟩⟩,
    clients := fun c => { window := 100 + c, decwin := 200 + c },
    monitors := fun _ => { tag := 0, stacking_window := 999 },
    tags := fun _ => { floating := false, stack := 0 },
    tagstacks := fun _ => { normal := [5, 6] } }

/-- The stack after the loop of `raise_slide` for a slice with layers `L`. -/
def raised (L : LayerSet) (st : Stack) (s : SlicePtr) : Stack :=
  { focus := if L.focus then s :: st.focus.erase s else st.focus,
    fullscreen := if L.fullscreen then s :: st.fullscreen.erase s else st.fullscreen,
    normal := if L.normal then s :: st.normal.erase s else st.normal,
    frames := if L.frames then s :: st.frames.erase s else st.frames,
    dirty := st.dirty }


/-- The first four statements of `applysizehints` on one dimension: the
floor at 1 and at the window minimum `m`. -/
def size_floor (m x : Int) : Int :=
  if max 1 x < m then m else max 1 x

/-- What `applysizehints` does to one dimension when the size hints apply and
the client has no aspect hint: the floor, the snap to the increment grid that
starts at the base size, and the clamp to the minimum and maximum hints. -/
def size_axis (m base inc mn mx x : Int) : Int :=
  let y := size_floor m x - base
  let y := if inc ≠ 0 then y - Int.tmod y inc else y
  let z := max (y + base) mn
  if mx ≠ 0 then min z mx else z

/-- The flag that `applysizehints` selects: `sizehints_floating` when the tag
of the client is floating or the client is pseudotile, else
`sizehints_tiling`. -/
def effective_sizehints (hp : Heap) (c : HSClient) : Option Bool :=
  (is_client_floated hp c).map
    (fun floated => if floated || c.pseudotile then c.sizehints_floating else c.sizehints_tiling)

/-- The client with `last_size` holding the width `w` and the height `h`. -/
def with_last_size (c : HSClient) (w h : Int) : HSClient :=
  { c with last_size := { c.last_size with width := w, height := h } }

/-- A tiled client with the size hints on, increments of 7 and a maximum
size of 50. -/
def inc_max_client : HSClient :=
  { tag_ := some 0, sizehints_tiling := true, incw := 7, inch := 7, maxw := 50, maxh := 50 }

/-- The tiled client with the size hints on, base size 4 by 4, minimum size
10 by 10 and increments of 6. -/
def snap_client : HSClient :=
  { tag_ := some 0, sizehints_tiling := true, basew := 4, baseh := 4, minw := 10, minh := 10,
    incw := 6, inch := 6 }

/-- The tiled client with the size hints on, base size 4 by 4, minimum size
10 by 10 and increments of 7. -/
def snap7_client : HSClient :=
  { tag_ := some 0, sizehints_tiling := true, basew := 4, baseh := 4, minw := 10, minh := 10,
    incw := 7, inch := 7 }

/-- A tiled client with both size-hints flags at their initial values
(`sizehints_tiling` off) and hints of every kind. -/
def unhinted_client : HSClient :=
  { tag_ := some 0, basew := 4, baseh := 4, minw := 10, minh := 10, maxw := 20, maxh := 20,
    incw := 7, inch := 7, mina := 1, maxa := 2 }

/-- What `applysizehints_int32` does to one dimension when the size hints
apply and the client has no aspect hint. -/
def size_axis_int32 (m base inc mn mx x : Int) : Option Int :=
  (if inc ≠ 0 then
      (rem_int (wrap_int (size_floor m x - base)) inc).map
        (fun r => wrap_int (wrap_int (size_floor m x - base) - r))
    else some (wrap_int (size_floor m x - base))).map
    (fun y => if mx ≠ 0 then min (max (wrap_int (y + base)) mn) mx
      else max (wrap_int (y + base)) mn)

/-- The request and the hints of one axis for which no operation of
`applysizehints` leaves the range of `int`, neither in the call on the request
`x` nor in a second call on its result: the request, the window minimum `m`
and the minimum hint are at most `INT_MAX`, the base size is an `int`, and
neither `max(x, 1, m) - base` nor `min - base` exceeds `INT_MAX`. -/
def axis_in_range (m base mn x : Int) : Prop :=
  x ≤ INT_MAX ∧ m ≤ INT_MAX ∧ in_int base ∧ mn ≤ INT_MAX ∧
    max (max x 1) m - base ≤ INT_MAX ∧ mn - base ≤ INT_MAX

instance (m base mn x : Int) : Decidable (axis_in_range m base mn x) := by
  unfold axis_in_range; infer_instance

/-- Aspect arithmetic for the concrete examples, whose clients have no aspect
hint: that of the rationals. -/
def example_aspect : AspectArith :=
  { too_wide := fun maxa w h => decide (maxa < (w : ℚ) / (h : ℚ))
    aspect_width := fun maxa h => float_to_int ((h : ℚ) * maxa + 1 / 2)
    too_high := fun mina w h => decide (mina < (h : ℚ) / (w : ℚ))
    aspect_height := fun mina w => float_to_int ((w : ℚ) * mina + 1 / 2) }

/-- A tiled client with the size hints on, increments of 7 and the base size
-1 by -1. -/
def negative_base_client : HSClient :=
  { tag_ := some 0, sizehints_tiling := true, basew := -1, baseh := -1, incw := 7, inch := 7 }

/-- A tiled client with the size hints on, increments of 7, the minimum size
101 by 101 and the base size `INT_MIN` by `INT_MIN`. -/
def int_min_base_client : HSClient :=
  { tag_ := some 0, sizehints_tiling := true, basew := -2147483648, baseh := -2147483648,
    minw := 101, minh := 101, incw := 7, inch := 7 }

/-! ## clientlist.cpp: the client functions that act on the whole program state -/

abbrev FramePtr := Nat

/-- Index into `g_wmatom`. -/
inductive WMAtom where
  | WMProtocols
  | WMDelete
  | WMState
  | WMTakeFocus
  deriving DecidableEq, Repr

/-- Index into `g_decorations`. -/
inductive HSDecSchemeIdx where
  | HSDecSchemeFullscreen
  | HSDecSchemeFloating
  | HSDecSchemeMinimal
  | HSDecSchemeTiling
  deriving DecidableEq, Repr

/-- The member of a decoration triple that is read. -/
inductive HSDecTripleMember where
  | normal
  | active
  | urgent
  deriving DecidableEq, Repr

/-- A value of `HSDecorationScheme`, known by the place in `g_decorations` it
was copied from and by whether the code has set `tight_decoration = true` on
the copy. -/
structure HSDecorationScheme where
  triple : HSDecSchemeIdx
  member : HSDecTripleMember
  tight_decoration_set : Bool := false
  deriving DecidableEq, Repr

/-- The states that `window_update_wm_state` is given. -/
inductive WmState where
  | WmStateWithdrawnState
  | WmStateNormalState
  deriving DecidableEq, Repr

/-- The event masks that `manage_client` selects: the mask written out at
line 348 for the decoration window, and the macro `CLIENT_EVENT_MASK`. -/
inductive EventMask where
  | decoration_mask
  | CLIENT_EVENT_MASK
  deriving DecidableEq, Repr

/-- What the client code sends to the X server, the decoration renderer, the
EWMH bridge, the object tree and the hook emitter. -/
inductive Event where
  | stack (e : Effect)
  | XSendEvent_ClientMessage (window : Window) (message_type data0 : WMAtom)
  | XMapWindow (window : Window)
  | hook_emit_list (args : List String)
  | ewmh_update_window_state (client : ClientPtr)
  | decoration_resize_outline (client : ClientPtr) (outline : Rectangle)
      (scheme : HSDecorationScheme)
  | decoration_resize_inner (client : ClientPtr) (inner : Rectangle)
      (scheme : HSDecorationScheme)
  | decoration_setup_frame (client : ClientPtr)
  | decoration_free (client : ClientPtr)
  | hsobject_link (client : ClientPtr) (name : String)
  | hsobject_unlink (client : ClientPtr)
  | XSetInputFocus (window : Window)
  | grab_client_buttons (client : ClientPtr) (focused : Bool)
  | ewmh_update_active_window (window : Window)
  | key_set_keymask (tag : Option TagPtr) (client : ClientPtr)
  | decoration_change_scheme (client : ClientPtr) (scheme : HSDecorationScheme)
  | XSetWMHints (window : Window) (urgency : Bool)
  | tag_set_flags_dirty
  | hsobject_set_attributes (client : ClientPtr)
  | ewmh_window_update_tag (window : Window) (tag : Option TagPtr)
  | ewmh_add_client (window : Window)
  | XSetWindowBorderWidth (window : Window) (width : Int)
  | XChangeSaveSet_SetModeInsert (window : Window)
  | XReparentWindow (window parent : Window) (x y : Int)
  | XSelectInput (window : Window) (mask : EventMask)
  | XGrabServer
  | XUngrabServer
  | XUnmapWindow (window : Window)
  | window_update_wm_state (window : Window) (state : WmState)
  | XSendEvent_ConfigureNotify (window : Window) (x y width height : Int)
  deriving DecidableEq, Repr

/-- The module-level state of clientlist.cpp together with the heap and with
what the code reads of the state of other modules: `current_client` is the
value of `frame_focused_client(g_cur_frame)`, `current_monitor` that of
`get_current_monitor()`, `g_window_gap` that of `*g_window_gap`,
`g_raise_on_focus` that of `*g_raise_on_focus`. The table
`g_clients` is the list of its entries in the order `g_hash_table_find` visits
them. The trace holds the events sent so far, first sent first. -/
structure World where
  heap : Heap
  g_clients : List (Window × ClientPtr) := []
  lastfocus : Option ClientPtr := none
  g_startup : Bool := true
  current_client : Option ClientPtr := none
  current_monitor : MonitorPtr := 0
  g_window_gap : Int := 0
  g_raise_on_focus : Int := 0
  trace : List Event := []

namespace World

/-- Sending an event. -/
def emit (w : World) (e : Event) : World :=
  { w with trace := w.trace ++ [e] }

/-- Assignment to the fields of the client `*c`. -/
def set_client (w : World) (c : ClientPtr) (v : HSClient) : World :=
  { w with heap := { w.heap with clients := fun p => if p = c then v else w.heap.clients p } }

/-- Assignment to the stack `*sp`. -/
def set_stack (w : World) (sp : StackPtr) (st : Stack) : World :=
  { w with heap := { w.heap with tagstacks := fun p => if p = sp then st else w.heap.tagstacks p } }

/-- Assignment to the slice `*s`. -/
def set_slice (w : World) (s : SlicePtr) (v : Slice) : World :=
  { w with heap := { w.heap with slices := fun p => if p = s then v else w.heap.slices p } }

/-- The client `*c`. -/
def client (w : World) (c : ClientPtr) : HSClient := w.heap.clients c

end World

/-- The struct `HSClientChanges` that the rules fill in. -/
structure HSClientChanges where
  tag_name : Option String := none
  monitor_name : Option String := none
  keymask : Option String := none
  manage : Bool := true
  focus : Bool := false
  switchtag : Bool := false
  tree_index : String := ""
  fullscreen : Bool := false
  deriving DecidableEq, Repr

/-- The fields of `XWMHints` that the code reads: whether `XUrgencyHint` and
`InputHint` are among the flags, and the field `input`. -/
structure XWMHints where
  XUrgencyHint : Bool := false
  InputHint : Bool := false
  input : Bool := false
  deriving DecidableEq, Repr

/-- The fields of `XSizeHints` that the code reads; the first five are the
bits of `flags`. The initial values are those of hints with no flag set. -/
structure XSizeHints where
  PBaseSize : Bool := false
  PMinSize : Bool := false
  PResizeInc : Bool := false
  PMaxSize : Bool := false
  PAspect : Bool := false
  base_width : Int := 0
  base_height : Int := 0
  min_width : Int := 0
  min_height : Int := 0
  width_inc : Int := 0
  height_inc : Int := 0
  max_width : Int := 0
  max_height : Int := 0
  min_aspect_x : Int := 0
  min_aspect_y : Int := 0
  max_aspect_x : Int := 0
  max_aspect_y : Int := 0
  deriving DecidableEq, Repr

/-- What the modelled functions use of the files that are not part of the
sources at hand: constants of headers, library functions, and functions of
other modules. A function that changes the program state is a function on
worlds; a function that only looks something up names what it reads. -/
structure Externals where
  /-- Constant of globals.h. -/
  WINDOW_MIN_WIDTH : Int
  /-- Constant of globals.h. -/
  WINDOW_MIN_HEIGHT : Int
  /-- Constant of ipc-protocol.h. -/
  HERBST_INVALID_ARGUMENT : Int
  /-- Lookup in monitor.cpp; the tag may be null. -/
  find_monitor_with_tag : World → Option TagPtr → Option MonitorPtr
  /-- Function of tag.cpp. -/
  tag_update_focus_layer : Option TagPtr → World → World
  /-- Function of monitor.cpp; the monitor may be null. -/
  monitor_apply_layout : Option MonitorPtr → World → World
  /-- Function of monitor.cpp. -/
  monitor_set_tag : MonitorPtr → Option TagPtr → World → World
  /-- Function of utils.cpp: the new value for a word and the old value. -/
  string_to_bool : String → Bool → Bool
  /-- The value scanned when `1 == sscanf(str, "0x%lx", &win)`. -/
  sscanf_0x_lx : String → Option Window
  /-- The value scanned when `1 == sscanf(str, "%lu", &win)`. -/
  sscanf_lu : String → Option Window
  /-- Function of utils.cpp. -/
  is_herbstluft_window : World → Window → Bool
  /-- Function of layout.cpp; the frame may be null. -/
  smart_window_surroundings_active : World → Option FramePtr → Bool
  /-- Function of layout.cpp, applied to the frame tree of the tag. -/
  find_frame_with_client : World → Option TagPtr → ClientPtr → Option FramePtr
  /-- Function of decoration.cpp. -/
  inner_rect_to_outline : Rectangle → HSDecorationScheme → Rectangle
  /-- Function of tag.cpp. -/
  find_tag : String → Option TagPtr
  /-- Function of monitor.cpp. -/
  string_to_monitor : String → Option MonitorPtr
  /-- The record left by `client_changes_init` and `rules_apply`. -/
  rules_apply : World → ClientPtr → HSClientChanges
  /-- Function of utils.cpp. -/
  window_pid : World → Window → Int
  /-- The name read by `update_title`: `_NET_WM_NAME`, else `WM_NAME`, else
  the empty string. -/
  window_title : World → Window → String
  /-- The geometry that `XGetGeometry` reports. -/
  XGetGeometry : World → Window → Rectangle
  /-- The address that `new HSClient` returns. -/
  new_client : World → ClientPtr
  /-- The address that `new Slice` returns. -/
  new_slice : World → SlicePtr
  /-- Function of layout.cpp, applied to the frame tree of the tag. -/
  lookup_frame : World → TagPtr → String → Option FramePtr
  /-- Function of layout.cpp; it may call `window_focus` for the client. -/
  frame_insert_client : Option FramePtr → ClientPtr → World → World
  /-- Function of layout.cpp, applied to the frame tree of the tag; the value
  it returns is not used. -/
  frame_focus_client : TagPtr → ClientPtr → World → World
  /-- The hints that `XGetWMHints` returns for the window when it returns
  hints. -/
  XGetWMHints_hints : World → Window → XWMHints
  /-- The hints that `XGetWMNormalHints` stores for the window, none when it
  returns 0. -/
  XGetWMNormalHints : World → Window → Option XSizeHints
  /-- The value of `(float)a / b`, held as a rational like `mina` and `maxa`;
  the arithmetic of `float` is not modelled. -/
  float_quotient : Int → Int → ℚ
  /-- The window that `decoration_setup_frame` creates for the client and
  stores in `dec.decwin`. -/
  decoration_setup_frame_decwin : World → ClientPtr → Window
  /-- The field `dec.last_inner_rect` of the client, which decoration.cpp
  assigns. -/
  dec_last_inner_rect : World → ClientPtr → Rectangle
  /-- Function of tag.cpp. -/
  tag_update_each_focus_layer : World → World
  /-- Whether `XGetWMProtocols` succeeds and lists the atom for the window. -/
  XGetWMProtocols : World → Window → WMAtom → Bool
  /-- Whether `XGetWMHints` returns hints for the window. -/
  XGetWMHints : World → Window → Bool
  /-- The test `g_cur_frame->content.clients.layout == LAYOUT_MAX` on the
  frame tree of layout.cpp. -/
  g_cur_frame_layout_max : World → Bool

/-- Function `get_client_from_window`. -/
def get_client_from_window (w : World) (window : Window) : Option ClientPtr :=
  (w.g_clients.find? (fun kv => kv.1 = window)).map (fun kv => kv.2)

/-- Function `get_current_client`. -/
def get_current_client (w : World) : Option ClientPtr := w.current_client

/-- Function `client_scheme_from_triple`. -/
def client_scheme_from_triple (w : World) (client : ClientPtr) (tripidx : HSDecSchemeIdx) :
    HSDecorationScheme :=
  if get_current_client w = some client then { triple := tripidx, member := .active }
  else if (w.client client).urgent then { triple := tripidx, member := .urgent }
  else { triple := tripidx, member := .normal }

/-- Method `HSClient::resize_fullscreen`. A monitor that is not null makes
`!!m` true; with a null monitor the read of `m->rect` cannot be done. -/
def resize_fullscreen (w : World) (this : ClientPtr) (m : Option MonitorPtr) : Option World :=
  if m.isSome then
    /- HSDebug, return -/
    some w
  else do
    let mp ← m
    some (w.emit (.decoration_resize_outline this (w.heap.monitors mp).rect
      (client_scheme_from_triple w this .HSDecSchemeFullscreen)))

/-- Method `HSClient::needs_minimal_dec`; the assertion that a frame was found
must hold. -/
def needs_minimal_dec (ext : Externals) (w : World) (this : ClientPtr)
    (frame : Option FramePtr) : Option Bool := do
  let frame ← match frame with
    | some f => some f
    | none => ext.find_frame_with_client w (w.client this).tag_ this
  if !ext.smart_window_surroundings_active w (some frame) then some false
  else if (w.client this).pseudotile then some false
  else do
    let floated ← is_client_floated w.heap (w.client this)
    if floated then some false else some true

/-- Method `HSClient::resize_tiling`. Division of `int` by 2 drops the
fraction. -/
def resize_tiling (ext : Externals) (w : World) (this : ClientPtr) (rect : Rectangle)
    (frame : Option FramePtr) : Option World :=
  let c := w.client this
  let m := if c.fullscreen then ext.find_monitor_with_tag w c.tag_ else none
  if c.fullscreen && m.isSome then resize_fullscreen w this m
  else do
    /- apply window gap -/
    let rect : Rectangle :=
      if !c.pseudotile && !ext.smart_window_surroundings_active w frame then
        { rect with width := rect.width - w.g_window_gap,
                    height := rect.height - w.g_window_gap }
      else rect
    let scheme := client_scheme_from_triple w this .HSDecSchemeTiling
    let (rect, scheme) ←
      if c.pseudotile then do
        let inner := c.float_size
        let (_, iw, ih) ← applysizehints ext.WINDOW_MIN_WIDTH ext.WINDOW_MIN_HEIGHT w.heap c
          inner.width inner.height
        let outline := ext.inner_rect_to_outline { inner with width := iw, height := ih } scheme
        let x := rect.x + max 0 (Int.tdiv (rect.width - outline.width) 2)
        let y := rect.y + max 0 (Int.tdiv (rect.height - outline.height) 2)
        some (({ x := x, y := y, width := min outline.width rect.width,
                 height := min outline.height rect.height } : Rectangle),
              { scheme with tight_decoration_set := true })
      else some (rect, scheme)
    let minimal ← needs_minimal_dec ext w this frame
    let scheme := if minimal then client_scheme_from_triple w this .HSDecSchemeMinimal else scheme
    some (w.emit (.decoration_resize_outline this rect scheme))

/-- The file-level variable `g_monitor_float_treshold`. -/
def g_monitor_float_treshold : Int := 24

/-- The macro `CLAMP(x, low, high)` of glib. -/
def CLAMP (x low high : Int) : Int :=
  if x > high then high else if x < low then low else x

/-- Method `HSClient::resize_floating`. A monitor that is not null makes
`!!m` true; with a null monitor the reads through `m` cannot be done. -/
def resize_floating (w : World) (this : ClientPtr) (m : Option MonitorPtr) : Option World :=
  if m.isSome then some w
  else if (w.client this).fullscreen then resize_fullscreen w this m
  else do
    let mp ← m
    let mon := w.heap.monitors mp
    let rect := (w.client this).float_size
    let x := rect.x + mon.rect.x
    let x := x + mon.rect.y
    let x := x + mon.pad_left
    let y := rect.y + mon.pad_up
    /- ensure position is on monitor -/
    let space := g_monitor_float_treshold
    let x := CLAMP x (mon.rect.x + mon.pad_left - rect.width + space)
      (mon.rect.x + mon.rect.width - mon.pad_left - mon.pad_right - space)
    let y := CLAMP y (mon.rect.y + mon.pad_up - rect.height + space)
      (mon.rect.y + mon.rect.height - mon.pad_up - mon.pad_down - space)
    some (w.emit (.decoration_resize_inner this { rect with x := x, y := y }
      (client_scheme_from_triple w this .HSDecSchemeFloating)))

/-- The text that `snprintf` writes for `"0x%lx"`. -/
def hex_str (n : Nat) : String := "0x" ++ String.mk (Nat.toDigits 16 n)

/-- Method `HSClient::set_fullscreen`. The stack and the slice are reached
through `tag()` and `slice`, which must not be null. -/
def set_fullscreen (ext : Externals) (w : World) (this : ClientPtr) (state : Bool) :
    Option World :=
  if (w.client this).fullscreen = state then some w
  else do
    let c := w.client this
    let w := w.set_client this
      { c with fullscreen := state,
               ewmhfullscreen := if c.ewmhnotify then state else c.ewmhfullscreen }
    let t ← (w.client this).tag_
    let stack := (w.heap.tags t).stack
    let slice ← (w.client this).slice
    let r ← (if state then
        some (slice_add_layer w.heap (w.heap.tagstacks stack) slice .LAYER_FULLSCREEN)
      else slice_remove_layer w.heap (w.heap.tagstacks stack) slice .LAYER_FULLSCREEN)
    let w := { w with heap := r.1 }.set_stack stack r.2
    let w := ext.tag_update_focus_layer (w.client this).tag_ w
    let w := ext.monitor_apply_layout (ext.find_monitor_with_tag w (w.client this).tag_) w
    let buf := hex_str (w.client this).window
    let w := w.emit (.ewmh_update_window_state this)
    some (w.emit (.hook_emit_list ["fullscreen", if state then "on" else "off", buf]))

/-- Method `HSClient::set_pseudotile`. -/
def set_pseudotile (ext : Externals) (w : World) (this : ClientPtr) (state : Bool) : World :=
  let w := w.set_client this { w.client this with pseudotile := state }
  ext.monitor_apply_layout (ext.find_monitor_with_tag w (w.client this).tag_) w

/-- Function `client_set_property_command`: the value returned and the world
afterwards; `argv[0]` must exist. -/
def client_set_property_command (ext : Externals) (w : World) (argv : List String) :
    Option (Int × World) :=
  let action := if argv.length > 1 then argv.getD 1 "" else "toggle"
  match get_current_client w with
  | none =>
    /- nothing to do -/
    some (0, w)
  | some client => do
    let name ← argv.head?
    /- find the property -/
    if name = "fullscreen" then
      let old_value := (w.client client).fullscreen
      let state := ext.string_to_bool action old_value
      if state ≠ old_value then do
        let w ← set_fullscreen ext w client state
        some (0, w)
      else some (0, w)
    else if name = "pseudotile" then
      let old_value := (w.client client).pseudotile
      let state := ext.string_to_bool action old_value
      if state ≠ old_value then some (0, set_pseudotile ext w client state)
      else some (0, w)
    else some (ext.HERBST_INVALID_ARGUMENT, w)

/-- Method `HSClient::update_title`. -/
def update_title (ext : Externals) (w : World) (this : ClientPtr) : World :=
  let c := w.client this
  let new_name := ext.window_title w c.window
  let changed := decide (c.title ≠ new_name)
  let w := w.set_client this { c with title := new_name }
  if changed && decide (get_current_client w = some this) then
    w.emit (.hook_emit_list ["window_title_changed", hex_str c.window, new_name])
  else w

/-- Method `HSClient::fuzzy_fix_initial_position`. -/
def fuzzy_fix_initial_position (ext : Externals) (w : World) (this : ClientPtr) : World :=
  let c := w.client this
  let extreme_x := c.float_size.x
  let extreme_y := c.float_size.y
  let r := ext.inner_rect_to_outline c.float_size
    { triple := .HSDecSchemeFloating, member := .active }
  let extreme_x := min extreme_x r.x
  let extreme_y := min extreme_y r.y
  let r := ext.inner_rect_to_outline c.float_size
    { triple := .HSDecSchemeFloating, member := .normal }
  let extreme_x := min extreme_x r.x
  let extreme_y := min extreme_y r.y
  let r := ext.inner_rect_to_outline c.float_size
    { triple := .HSDecSchemeFloating, member := .urgent }
  let extreme_x := min extreme_x r.x
  let extreme_y := min extreme_y r.y
  /- if top left corner might be outside of the monitor, move it accordingly -/
  let fx := if extreme_x < 0 then c.float_size.x + |extreme_x| else c.float_size.x
  let fy := if extreme_y < 0 then c.float_size.y + |extreme_y| else c.float_size.y
  w.set_client this { c with float_size := { c.float_size with x := fx, y := fy } }

/-- Method `HSClient::setTag`. -/
def setTag (w : World) (this : ClientPtr) (tag : Option TagPtr) : World :=
  w.set_client this { w.client this with tag_ := tag }

/-- The state of `manage_client` when it returns early or reaches line 301. -/
inductive Adoption where
  | not_managed (w : World)
  | adopted (client : ClientPtr) (changes : HSClientChanges) (m : MonitorPtr) (w : World)

/-- Lines 236 to 253 of `manage_client`: the new client with its pid, window,
title and geometry. -/
def adopt_init (ext : Externals) (w : World) (win : Window) : World :=
  /- init client -/
  let client := ext.new_client w
  let w := w.set_client client { pid := ext.window_pid w win }
  /- set to window properties -/
  let w := w.set_client client { w.client client with window := win }
  let w := update_title ext w client
  /- treat wanted coordinates as floating coords -/
  let g := ext.XGetGeometry w win
  w.set_client client { w.client client with float_size := g, last_size := g }

/-- Lines 259 to 273 of `manage_client`: the tag by `tag_name`, then by
`monitor_name`. -/
def adopt_choose_tag (ext : Externals) (w : World) (client : ClientPtr)
    (changes : HSClientChanges) : World :=
  let w := match changes.tag_name with
    | some name => setTag w client (ext.find_tag name)
    | none => w
  match changes.monitor_name with
  | some name =>
    match ext.string_to_monitor name with
    | some monitor =>
      /- a valid tag was not already found, use the target monitor's tag -/
      if (w.client client).tag_ = none then
        setTag w client (some (w.heap.monitors monitor).tag)
      /- a tag was already found, display it on the target monitor, but only
         if switchtag is set -/
      else if changes.switchtag then
        ext.monitor_set_tag monitor (w.client client).tag_ w
      else w
    | none => w
  | none => w

/-- Lines 287 to 292 of `manage_client`: the decoration, the entry in the
client table and the link in the object tree. -/
def adopt_register (ext : Externals) (w : World) (win : Window) (client : ClientPtr) : World :=
  let w := (w.emit (.decoration_setup_frame client)).set_client client
    { w.client client with decwin := ext.decoration_setup_frame_decwin w client }
  let w := fuzzy_fix_initial_position ext w client
  let w := { w with g_clients := (win, client) :: w.g_clients }
  let w := w.set_client client { w.client client with window_str := some (hex_str win) }
  w.emit (.hsobject_link client (hex_str win))

/-- Lines 294 to 296 of `manage_client`: the tag of the monitor `m` for a
client without a tag. -/
def adopt_default_tag (w : World) (client : ClientPtr) (m : MonitorPtr) : World :=
  if (w.client client).tag_ = none then setTag w client (some (w.heap.monitors m).tag) else w

/-- Line 298 of `manage_client`: the new slice of the client, a client slice
in the Normal layer. -/
def adopt_slice (ext : Externals) (w : World) (client : ClientPtr) : World :=
  (w.set_slice (ext.new_slice w)
    { data := .client client, layers := ⟨false, false, true, false⟩ }).set_client client
    { w.client client with slice := some (ext.new_slice w) }

/-- Lines 287 to 299 of `manage_client`, which end with the slice put into
the stack of the tag; `tag()` must not be null there. -/
def adopt_insert (ext : Externals) (w : World) (win : Window) (client : ClientPtr)
    (changes : HSClientChanges) (m : MonitorPtr) : Option Adoption :=
  /- actually manage it -/
  let w0 := adopt_default_tag (adopt_register ext w win client) client m
  /- insert window to the stack -/
  let w := adopt_slice ext w0 client
  (w.client client).tag_.map (fun t =>
    .adopted client changes m
      (w.set_stack (w.heap.tags t).stack
        (insert_slice w.heap (w.heap.tagstacks (w.heap.tags t).stack) (ext.new_slice w0))))

/-- Lines 227 to 299 of `manage_client`: the two checks, the new client, the
rules, the choice of the tag, and the adoption. The destructor run for an
unmanaged window finds neither `lastfocus` nor a slice to remove. -/
def manage_client_adopt (ext : Externals) (w : World) (win : Window) : Option Adoption :=
  if ext.is_herbstluft_window w win then
    /- ignore our own window -/
    some (.not_managed w)
  else if (get_client_from_window w win).isSome then some (.not_managed w)
  else
    let client := ext.new_client w
    let m := w.current_monitor
    let w := adopt_init ext w win
    /- apply rules -/
    let changes := ext.rules_apply w client
    let w := adopt_choose_tag ext w client changes
    /- Reuse the keymask string -/
    let w := w.set_client client { w.client client with keymask := changes.keymask }
    if !changes.manage then
      let w := (w.emit (.hsobject_unlink client)).emit (.decoration_free client)
      /- map it... just to be sure -/
      some (.not_managed (w.emit (.XMapWindow win)))
    else adopt_insert ext w win client changes m

/-- Externals for the concrete examples: window minimum 32 by 32, code 3 for
an invalid argument, monitor 0 showing its tag and no other monitor, a layout
pass and focus-layer updates that change nothing, the scans of the strings
used in the examples, windows that list every protocol and have hints, and a
current frame that is not in the max layout. -/
def example_ext : Externals :=
  { WINDOW_MIN_WIDTH := 32
    WINDOW_MIN_HEIGHT := 32
    HERBST_INVALID_ARGUMENT := 3
    find_monitor_with_tag := fun w t =>
      match t with
      | some t => if (w.heap.monitors 0).tag = t then some 0 else none
      | none => none
    tag_update_focus_layer := fun _ w => w
    monitor_apply_layout := fun _ w => w
    monitor_set_tag := fun _ _ w => w
    string_to_bool := fun s old =>
      if s = "on" then true else if s = "off" then false else if s = "toggle" then !old else old
    sscanf_0x_lx := fun s => if s = "0x0" then some 0 else if s = "0x12c" then some 300 else none
    sscanf_lu := fun s => if s = "0" then some 0 else if s = "300" then some 300 else none
    is_herbstluft_window := fun _ win => decide (win = 999)
    smart_window_surroundings_active := fun _ _ => false
    find_frame_with_client := fun _ _ _ => some 0
    inner_rect_to_outline := fun r _ => r
    find_tag := fun s => if s = "web" then some 1 else none
    string_to_monitor := fun s => if s = "left" then some 0 else none
    rules_apply := fun _ _ => {}
    window_pid := fun _ _ => 0
    window_title := fun _ _ => "xterm"
    XGetGeometry := fun _ _ => { x := 10, y := 10, width := 400, height := 300 }
    new_client := fun _ => 50
    new_slice := fun _ => 50
    lookup_frame := fun _ _ _ => some 0
    frame_insert_client := fun _ _ w => w
    frame_focus_client := fun _ _ w => w
    XGetWMHints_hints := fun _ _ => {}
    XGetWMNormalHints := fun _ _ => none
    float_quotient := fun a b => (a : ℚ) / (b : ℚ)
    decoration_setup_frame_decwin := fun _ c => 200 + c
    dec_last_inner_rect := fun w c => (w.client c).float_size
    tag_update_each_focus_layer := fun w => w
    XGetWMProtocols := fun _ _ _ => true
    XGetWMHints := fun _ _ => true
    g_cur_frame_layout_max := fun _ => false }

/-- A world for the concrete examples: one monitor showing tag 0, whose stack
holds the fullscreen clients 9 and 1, the client 4 and the frame window 2;
client `c` has the window `100 + c` and the slice `c`; client 4 is focused. -/
def example_world : World :=
  { heap :=
      { slices := fun p =>
          if p = 1 ∨ p = 9 then ⟨.client p, ⟨false, true, true, false⟩⟩
          else if p = 2 then ⟨.window 22, ⟨false, false, false, true⟩⟩
          else ⟨.client p, ⟨false, false, true, false⟩⟩
        clients := fun c =>
          { window := 100 + c, decwin := 200 + c, tag_ := some 0, slice := some c,
            fullscreen := decide (c = 1 ∨ c = 9) }
        monitors := fun _ =>
          { tag := 0, stacking_window := 999, rect := { x := 0, y := 0, width := 800, height := 600 } }
        tags := fun _ => { floating := false, stack := 0 }
        tagstacks := fun _ => { fullscreen := [9, 1], normal := [9, 4, 1], frames := [2] } }
    g_clients := [(101, 1), (104, 4), (109, 9)]
    current_client := some 4
    g_startup := false }

/-- What invariant I6 reads of a world for a client: the `fullscreen` flag,
the Fullscreen sequence of the stack of its tag, whether `LAYER_FULLSCREEN` is
in the membership of its slice, and the slice. -/
structure FullscreenView where
  fullscreen : Bool
  sequence : List SlicePtr
  member : Bool
  slice : SlicePtr
  deriving DecidableEq, Repr

/-- The view of a client that has a tag and a slice. -/
def fullscreen_view (w : World) (c : ClientPtr) : Option FullscreenView := do
  let t ← (w.client c).tag_
  let s ← (w.client c).slice
  some { fullscreen := (w.client c).fullscreen
         sequence := (w.heap.tagstacks (w.heap.tags t).stack).fullscreen
         member := (w.heap.slices s).layers.fullscreen
         slice := s }

/-- Invariant I6 with its side conditions: the slice occurs at most once in
the Fullscreen sequence, and `fullscreen` holds iff the slice occurs in the
sequence iff `LAYER_FULLSCREEN` is in the membership of the slice. -/
def I6 (v : FullscreenView) : Prop :=
  v.sequence.count v.slice ≤ 1 ∧ (v.fullscreen = true ↔ v.slice ∈ v.sequence) ∧
    (v.slice ∈ v.sequence ↔ v.member = true)

instance (v : FullscreenView) : Decidable (I6 v) := by
  unfold I6; infer_instance

/-- The tag that `manage_client` gives a client for the changes of the
rules: the tag found for `tag_name`, else the tag of the monitor found for
`monitor_name`, else the tag of the current monitor. -/
def adoption_tag (ext : Externals) (w : World) (changes : HSClientChanges) : TagPtr :=
  match changes.tag_name.bind ext.find_tag with
  | some t => t
  | none =>
    match changes.monitor_name.bind ext.string_to_monitor with
    | some monitor => (w.heap.monitors monitor).tag
    | none => (w.heap.monitors w.current_monitor).tag

/-- The assignments to `fullscreen` and `ewmhfullscreen` in `set_fullscreen`. -/
def fullscreen_assign (w : World) (c : ClientPtr) (state : Bool) : World :=
  w.set_client c
    { w.client c with
      fullscreen := state,
      ewmhfullscreen := if (w.client c).ewmhnotify then state else (w.client c).ewmhfullscreen }

/-- The call of `slice_add_layer` or `slice_remove_layer` in `set_fullscreen`:
the heap and the stack it leaves. -/
def fullscreen_layer (w : World) (stack : StackPtr) (slice : SlicePtr) (state : Bool) :
    Option (Heap × Stack) :=
  if state then
    some (slice_add_layer w.heap (w.heap.tagstacks stack) slice .LAYER_FULLSCREEN)
  else slice_remove_layer w.heap (w.heap.tagstacks stack) slice .LAYER_FULLSCREEN

/-- The statements of `set_fullscreen` after the change of the layer. -/
def fullscreen_publish (ext : Externals) (w : World) (c : ClientPtr) (state : Bool) : World :=
  let w := ext.tag_update_focus_layer (w.client c).tag_ w
  let w := ext.monitor_apply_layout (ext.find_monitor_with_tag w (w.client c).tag_) w
  (w.emit (.ewmh_update_window_state c)).emit
    (.hook_emit_list ["fullscreen", if state then "on" else "off", hex_str (w.client c).window])

/-- The stack after the loop of `remove_slice` for a slice with layers `L`,
when each erase removes the occurrences of `s`. -/
def removed (L : LayerSet) (st : Stack) (s : SlicePtr) : Stack :=
  { focus := if L.focus then st.focus.filter (fun y => y ≠ s) else st.focus,
    fullscreen := if L.fullscreen then st.fullscreen.filter (fun y => y ≠ s) else st.fullscreen,
    normal := if L.normal then st.normal.filter (fun y => y ≠ s) else st.normal,
    frames := if L.frames then st.frames.filter (fun y => y ≠ s) else st.frames,
    dirty := st.dirty }

/-- Method `Stack::clear_layer`. The loop `while (!is_layer_empty(layer))` is
bounded by the fuel; `front()` is called on a vector that the test of the loop
has found not to be empty. -/
def clear_layer : Nat → Heap → Stack → HSLayer → Option (Heap × Stack)
  | 0, _, _, _ => none
  | fuel + 1, h, this, layer =>
    if !is_layer_empty this layer then
      match this.top layer with
      | [] => none
      | front :: _ => do
        let (h, st) ← slice_remove_layer h this front layer
        clear_layer fuel h { st with dirty := true } layer
    else some (h, this)

/-- Stack consistency: the sequence of every layer has no duplicate slice,
and every slice of the stack (every entry of one of the four sequences) occurs
in the sequence of a layer exactly when that layer is in its membership. -/
def consistent (h : Heap) (st : Stack) : Prop :=
  ∀ l : HSLayer, (st.top l).Nodup ∧
    ∀ s ∈ all_entries st, (s ∈ st.top l ↔ (h.slices s).layers.count l = true)

instance (h : Heap) (st : Stack) : Decidable (consistent h st) := by
  unfold consistent; infer_instance

/-- The window ids one slice shown in its layer stands for, in the order
`slice_to_window_buf` visits them: the window of a client (its decoration
window unless only real clients are asked for); a bare window unless only real
clients are asked for; for a monitor its stacking anchor, unless only real
clients are asked for, followed by the ids `nested` of the stack of its tag. -/
def slice_windows (nested : Stack → List Window) (h : Heap) (real_clients : Bool)
    (p : SlicePtr) : List Window :=
  match (h.slices p).data with
  | .client c => [if real_clients then (h.clients c).window else (h.clients c).decwin]
  | .window w => if real_clients then [] else [w]
  | .monitor m =>
    (if real_clients then [] else [(h.monitors m).stacking_window]) ++ nested (h.monitor_stack m)

/-- The window ids a stack emits for the flag `real_clients`: those of the
slices shown in their highest layer, layer by layer, monitor slices followed to
the depth given. -/
def emitted_windows : Nat → Heap → Stack → Bool → List Window
  | 0, _, _, _ => []
  | fuel + 1, h, st, real_clients =>
    (shown_slices h st).flatMap
      (slice_windows (fun s => emitted_windows fuel h s real_clients) h real_clients)

/-- The value that `to_window_buf` is to report through `remain_len` for a
buffer of length `len` when `n` window ids are emitted: the unused length, or
minus the number of ids that found no room. -/
def remain_len_of (len n : Nat) : Int :=
  if n ≤ len then (len : Int) - n else -((n : Int) - len)

/-- The struct `s2wb` of a traversal that started with an empty buffer of
length `len` and has emitted the ids `E` so far. -/
def s2wb_after (len : Nat) (real_clients : Bool) (layer : Nat) (E : List Window) : s2wb :=
  { len := ((len - E.length : Nat) : Int), buf := E.take len,
    missing := ((E.length - len : Nat) : Int), real_clients := real_clients, layer := layer }

/-- Method `HSClient::sendevent`: whether the window lists the protocol, and
the world after the client message that is sent when it does. -/
def sendevent (ext : Externals) (w : World) (this : ClientPtr) (proto : WMAtom) : Bool × World :=
  let found := ext.XGetWMProtocols w (w.client this).window proto
  if found then
    (found, w.emit (.XSendEvent_ClientMessage (w.client this).window .WMProtocols proto))
  else (found, w)

/-- Method `HSClient::window_unfocus`. -/
def window_unfocus (w : World) (this : ClientPtr) : World :=
  w.emit (.grab_client_buttons this false)

/-- Method `HSClient::raise`; `tag()` and `slice` must not be null. -/
def raise (fuel : Nat) (w : World) (this : ClientPtr) : Option World := do
  let t ← (w.client this).tag_
  let s ← (w.client this).slice
  let r ← raise_slide fuel w.heap (w.heap.tagstacks (w.heap.tags t).stack) s
  some { w.set_stack (w.heap.tags t).stack r.1 with trace := w.trace ++ r.2.map Event.stack }

/-- Function `client_get_scheme_triple_idx`. -/
def client_get_scheme_triple_idx (ext : Externals) (w : World) (client : ClientPtr) :
    Option HSDecSchemeIdx :=
  if (w.client client).fullscreen then some .HSDecSchemeFullscreen
  else do
    let floated ← is_client_floated w.heap (w.client client)
    if floated then some .HSDecSchemeFloating
    else do
      let minimal ← needs_minimal_dec ext w client none
      if minimal then some .HSDecSchemeMinimal else some .HSDecSchemeTiling

/-- Method `HSClient::setup_border`. -/
def setup_border (ext : Externals) (w : World) (this : ClientPtr) (focused : Bool) :
    Option World :=
  if focused then do
    let idx ← client_get_scheme_triple_idx ext w this
    some (w.emit (.decoration_change_scheme this { triple := idx, member := .active }))
  else if (w.client this).urgent then do
    let idx ← client_get_scheme_triple_idx ext w this
    some (w.emit (.decoration_change_scheme this { triple := idx, member := .urgent }))
  else do
    let idx ← client_get_scheme_triple_idx ext w this
    some (w.emit (.decoration_change_scheme this { triple := idx, member := .normal }))

/-- Method `HSClient::set_urgent_force`. -/
def set_urgent_force (ext : Externals) (w : World) (this : ClientPtr) (state : Bool) :
    Option World := do
  let winid_str := hex_str (w.client this).window
  let w := w.emit (.hook_emit_list ["urgent", if state then "on" else "off", winid_str])
  let w := w.set_client this { w.client this with urgent := state }
  let w ← setup_border ext w this (decide (w.current_client = some this))
  if !ext.XGetWMHints w (w.client this).window then some w
  else
    let w := w.emit (.XSetWMHints (w.client this).window state)
    /- report changes to tags -/
    some (w.emit .tag_set_flags_dirty)

/-- Method `HSClient::set_urgent`. -/
def set_urgent (ext : Externals) (w : World) (this : ClientPtr) (state : Bool) : Option World :=
  if (w.client this).urgent = state then
    /- nothing to do -/
    some w
  else set_urgent_force ext w this state

/-- Method `HSClient::update_wm_hints`. -/
def update_wm_hints (ext : Externals) (w : World) (this : ClientPtr) : Option World :=
  if !ext.XGetWMHints w (w.client this).window then some w
  else do
    let wmh := ext.XGetWMHints_hints w (w.client this).window
    let focused_client := w.current_client
    let w ← (if decide (focused_client = some this) && wmh.XUrgencyHint then
        /- remove urgency hint if window is focused -/
        some (w.emit (.XSetWMHints (w.client this).window false))
      else
        let newval := wmh.XUrgencyHint
        if newval ≠ (w.client this).urgent then do
          let w := w.set_client this { w.client this with urgent := newval }
          let winid_str := hex_str (w.client this).window
          let w ← setup_border ext w this (decide (focused_client = some this))
          let w := w.emit (.hook_emit_list
            ["urgent", if (w.client this).urgent then "on" else "off", winid_str])
          some (w.emit .tag_set_flags_dirty)
        else some w)
    some (w.set_client this
      { w.client this with neverfocus := if wmh.InputHint then !wmh.input else false })

/-- Method `HSClient::updatesizehints`. When `XGetWMNormalHints` returns 0 the
flags are set to `PSize`, so that none of the flags read is set. -/
def updatesizehints (ext : Externals) (w : World) (this : ClientPtr) : World :=
  let c := w.client this
  let size : XSizeHints := (ext.XGetWMNormalHints w c.window).getD {}
  let (basew, baseh) :=
    if size.PBaseSize then (size.base_width, size.base_height)
    else if size.PMinSize then (size.min_width, size.min_height)
    else (0, 0)
  let (incw, inch) := if size.PResizeInc then (size.width_inc, size.height_inc) else (0, 0)
  let (maxw, maxh) := if size.PMaxSize then (size.max_width, size.max_height) else (0, 0)
  let (minw, minh) :=
    if size.PMinSize then (size.min_width, size.min_height)
    else if size.PBaseSize then (size.base_width, size.base_height)
    else (0, 0)
  let (mina, maxa) :=
    if size.PAspect then
      (ext.float_quotient size.min_aspect_y size.min_aspect_x,
       ext.float_quotient size.max_aspect_x size.max_aspect_y)
    else (0, 0)
  w.set_client this
    { c with basew := basew, baseh := baseh, incw := incw, inch := inch, maxw := maxw,
             maxh := maxh, minw := minw, minh := minh, mina := mina, maxa := maxa }

/-- Method `HSClient::send_configure`. -/
def send_configure (ext : Externals) (w : World) (this : ClientPtr) : World :=
  let r := ext.dec_last_inner_rect w this
  w.emit (.XSendEvent_ConfigureNotify (w.client this).window r.x r.y
    (max r.width ext.WINDOW_MIN_WIDTH) (max r.height ext.WINDOW_MIN_HEIGHT))

/-- Method `HSClient::set_visible`. -/
def set_visible (w : World) (this : ClientPtr) (visible : Bool) : World :=
  if visible = (w.client this).visible then w
  else
    let c := w.client this
    let w :=
      if visible then
        ((((w.emit .XGrabServer).emit
          (.window_update_wm_state c.window .WmStateNormalState)).emit
          (.XMapWindow c.window)).emit (.XMapWindow c.decwin)).emit .XUngrabServer
      else
        (((w.emit (.XUnmapWindow c.decwin)).emit (.XUnmapWindow c.window)).emit
          (.window_update_wm_state c.window .WmStateWithdrawnState)).set_client this
          { c with ignore_unmaps := c.ignore_unmaps + 1 }
    w.set_client this { w.client this with visible := visible }

/-- Lines 301 to 310 of `manage_client`: the client is put into the frame
tree of its tag, its hints are read, and it is focused when the rules say so;
`tag()` must not be null. -/
def adopt_frame (ext : Externals) (w : World) (client : ClientPtr)
    (changes : HSClientChanges) : Option World := do
  /- insert window to the tag -/
  let t ← (w.client client).tag_
  let w := ext.frame_insert_client (ext.lookup_frame w t changes.tree_index) client w
  let w ← update_wm_hints ext w client
  let w := updatesizehints ext w client
  if changes.focus then do
    /- give focus to window if wanted -/
    let t ← (w.client client).tag_
    some (ext.frame_focus_client t client w)
  else some w

/-- Lines 312 to 352 of `manage_client`: the attributes of the object, the
tag property, the fullscreen state of the rules, the entry in the EWMH client
list, and the reparenting into the decoration window. The assignment to
`object.data` and the attribute table are part of the object tree. -/
def adopt_publish (ext : Externals) (w : World) (win : Window) (client : ClientPtr)
    (changes : HSClientChanges) : Option World := do
  let w := w.emit (.hsobject_set_attributes client)
  let w := w.emit (.ewmh_window_update_tag (w.client client).window (w.client client).tag_)
  let w := w.emit .tag_set_flags_dirty
  let w ← set_fullscreen ext w client changes.fullscreen
  let w := w.emit (.ewmh_update_window_state client)
  /- add client after setting the correct tag for the new client -/
  let w := w.emit (.ewmh_add_client (w.client client).window)
  let w := w.emit (.XSetWindowBorderWidth (w.client client).window 0)
  let w := w.emit (.XChangeSaveSet_SetModeInsert (w.client client).window)
  let w := w.emit (.XReparentWindow (w.client client).window (w.client client).decwin 40 40)
  let w := if w.g_startup then
      w.set_client client
        { w.client client with ignore_unmaps := (w.client client).ignore_unmaps + 1 }
    else w
  /- get events from window -/
  let w := w.emit (.XSelectInput (w.client client).decwin .decoration_mask)
  some (w.emit (.XSelectInput win .CLIENT_EVENT_MASK))

/-- Lines 354 to 373 of `manage_client`: the layout of the monitor that shows
the tag, the switch of the current monitor to the tag when the rules say so,
and the configure event. -/
def adopt_show (ext : Externals) (w : World) (client : ClientPtr)
    (changes : HSClientChanges) : World :=
  let w :=
    match ext.find_monitor_with_tag w (w.client client).tag_ with
    | some monitor =>
      let w :=
        if decide (monitor ≠ w.current_monitor) && changes.focus && changes.switchtag then
          ext.monitor_set_tag w.current_monitor (w.client client).tag_ w
        else w
      let w := ext.monitor_apply_layout (some monitor) w
      set_visible w client true
    | none =>
      if changes.focus && changes.switchtag then
        let w := ext.monitor_set_tag w.current_monitor (w.client client).tag_ w
        set_visible w client true
      else w
  let w := send_configure ext w client
  w.emit (.grab_client_buttons client false)

/-- Function `manage_client`: the client returned, null when the window is
not managed, and the world afterwards. -/
def manage_client (ext : Externals) (w : World) (win : Window) :
    Option (Option ClientPtr × World) :=
  match manage_client_adopt ext w win with
  | none => none
  | some (.not_managed w) => some (none, w)
  | some (.adopted client changes _ w) => do
    let w ← adopt_frame ext w client changes
    let w ← adopt_publish ext w win client changes
    some (some client, adopt_show ext w client changes)

/-- The client `c` is adopted for the window `win` on the tag `t`: `t` is its
tag, the client table holds it under `win`, and its slice is in the Normal
sequence of the stack of `t`. -/
def is_adopted (w : World) (win : Window) (c : ClientPtr) (t : TagPtr) : Prop :=
  (w.client c).tag_ = some t ∧ (win, c) ∈ w.g_clients ∧
    ∃ s, (w.client c).slice = some s ∧ s ∈ (w.heap.tagstacks (w.heap.tags t).stack).normal

/-- What is assumed of a function `f` of layout.cpp, monitor.cpp or tag.cpp
that `manage_client` calls: for the client `c` it leaves the tag, the slice
and the `fullscreen` flag as they are, it removes no entry from the client
table, it leaves the stack of every tag in place, and it removes no slice from
a Normal sequence. -/
def keeps_client (c : ClientPtr) (f : World → World) : Prop :=
  ∀ w, ((f w).client c).tag_ = (w.client c).tag_ ∧
    ((f w).client c).slice = (w.client c).slice ∧
    ((f w).client c).fullscreen = (w.client c).fullscreen ∧
    (∀ kv, kv ∈ w.g_clients → kv ∈ (f w).g_clients) ∧
    (∀ t, ((f w).heap.tags t).stack = (w.heap.tags t).stack) ∧
    (∀ sp s, s ∈ (w.heap.tagstacks sp).normal → s ∈ ((f w).heap.tagstacks sp).normal)

/-- Lines 478 to 482 of `window_focus`: set keyboard focus. -/
def focus_request (ext : Externals) (w : World) (this : ClientPtr) : World :=
  if !(w.client this).neverfocus then w.emit (.XSetInputFocus (w.client this).window)
  else (sendevent ext w this .WMTakeFocus).2

/-- Lines 484 to 500 of `window_focus`: what is done when `this != lastfocus`.
The format `"0x%x"` is given `(unsigned int)this->window`, the window id
modulo `2 ^ 32`. -/
def focus_change (ext : Externals) (w : World) (this : ClientPtr) : World :=
  if w.lastfocus ≠ some this then
    /- unfocus last one -/
    let w := match w.lastfocus with
      | some last => window_unfocus w last
      | none => w
    let w := w.emit (.hsobject_link this "focus")
    let w := w.emit (.ewmh_update_active_window (w.client this).window)
    let w := ext.tag_update_each_focus_layer w
    let title := (w.client this).title
    let winid_str := hex_str ((w.client this).window % 2 ^ 32)
    w.emit (.hook_emit_list ["focus_changed", winid_str, title])
  else w

/-- Lines 506 to 513 of `window_focus`: the assignment to `lastfocus` and the
raise for `raise_on_focus` or the max layout. -/
def focus_raise (fuel : Nat) (ext : Externals) (w : World) (this : ClientPtr) : Option World :=
  let w := { w with lastfocus := some this }
  /- do some specials for the max layout -/
  let is_max_layout := decide (w.current_client = some this)
    && ext.g_cur_frame_layout_max w
    && (w.heap.tags (w.heap.monitors w.current_monitor).tag).floating == false
  if decide (w.g_raise_on_focus ≠ 0) || is_max_layout then raise fuel w this
  else some w

/-- Lines 514 to 517 of `window_focus`. -/
def focus_finish (ext : Externals) (w : World) (this : ClientPtr) : Option World :=
  let w := ext.tag_update_focus_layer (some (w.heap.monitors w.current_monitor).tag) w
  let w := w.emit (.grab_client_buttons this true)
  let w := w.emit (.key_set_keymask (w.client this).tag_ this)
  set_urgent ext w this false

/-- Method `HSClient::window_focus`. -/
def window_focus (fuel : Nat) (ext : Externals) (w : World) (this : ClientPtr) : Option World := do
  let w := focus_change ext (focus_request ext w this) this
  let w ← focus_raise fuel ext w this
  focus_finish ext w this

/-- Whether an event is the hook `focus_changed`. -/
def is_focus_changed : Event → Bool
  | .hook_emit_list ("focus_changed" :: _) => true
  | _ => false

/-- The events of `es` that are the hook `focus_changed`. -/
def focus_changed_hooks (es : List Event) : List Event := es.filter is_focus_changed

/-- What `HSClient::raise` needs of a client to return: a tag, a slice that
occurs in the sequence of each layer of its membership in the stack of the
tag, and monitor slices nested within the fuel. -/
def can_raise (fuel : Nat) (w : World) (c : ClientPtr) : Prop :=
  ∃ t s, (w.client c).tag_ = some t ∧ (w.client c).slice = some s ∧
    (∀ l, (w.heap.slices s).layers.count l = true →
      s ∈ (w.heap.tagstacks (w.heap.tags t).stack).top l) ∧
    nested_within w.heap fuel (w.heap.tagstacks (w.heap.tags t).stack) = true

/-- A step from the world `w` to the world `w1` that is quiet for the client
`c`: events are added to the trace, none of them the hook `focus_changed`;
`lastfocus`, the window id and the title of `c` are as before; and if `c` could
be raised before, it can be raised afterwards. -/
def quiet (fuel : Nat) (c : ClientPtr) (w w1 : World) : Prop :=
  (∃ es, w1.trace = w.trace ++ es ∧ focus_changed_hooks es = []) ∧
    w1.lastfocus = w.lastfocus ∧
    (w1.client c).window = (w.client c).window ∧
    (w1.client c).title = (w.client c).title ∧
    (can_raise fuel w c → can_raise fuel w1 c)

/-- What is assumed of a function `f` of tag.cpp that `window_focus` calls:
each of its steps is quiet for the client `c`. -/
def focus_frame (fuel : Nat) (c : ClientPtr) (f : World → World) : Prop :=
  ∀ w, quiet fuel c w (f w)

/-- The events of lines 478 to 482 of `window_focus`: `XSetInputFocus` on the
window, or for a client with `neverfocus` the WM_TAKE_FOCUS message, sent when
the window lists that protocol. -/
def focus_request_events (ext : Externals) (w : World) (c : ClientPtr) : List Event :=
  if (w.client c).neverfocus then
    if ext.XGetWMProtocols w (w.client c).window .WMTakeFocus then
      [.XSendEvent_ClientMessage (w.client c).window .WMProtocols .WMTakeFocus]
    else []
  else [.XSetInputFocus (w.client c).window]

/-- The hook and the assignment to `urgent` in `set_urgent_force`. -/
def urgent_assign (w : World) (c : ClientPtr) (state : Bool) : World :=
  (w.emit (.hook_emit_list ["urgent", if state then "on" else "off",
    hex_str (w.client c).window])).set_client c { w.client c with urgent := state }

/-- What `set_urgent_force` does after the assignment to `urgent`: the border,
the hints of the window and the flags of the tags. -/
def urgent_publish (ext : Externals) (w : World) (c : ClientPtr) (state : Bool) : Option World := do
  let w ← setup_border ext w c (decide (w.current_client = some c))
  if !ext.XGetWMHints w (w.client c).window then some w
  else some ((w.emit (.XSetWMHints (w.client c).window state)).emit .tag_set_flags_dirty)

/-- The example world with client 4 urgent, the setting `raise_on_focus` on,
and client 1 focused last. -/
def focus_world : World :=
  { example_world.set_client 4 { example_world.client 4 with urgent := true, title := "xterm" } with
    g_raise_on_focus := 1, lastfocus := some 1 }

/-! ## Theorems -/

/-! ### Stack: access lemmas -/

@[simp]
theorem Stack.top_setTop (st : Stack) (l l' : HSLayer) (v : List SlicePtr) :
    (st.setTop l v).top l' = if l' = l then v else st.top l' := by
  cases l <;> cases l' <;> simp [Stack.setTop, Stack.top]

@[simp]
theorem Stack.dirty_setTop (st : Stack) (l : HSLayer) (v : List SlicePtr) :
    (st.setTop l v).dirty = st.dirty := by
  cases l <;> rfl

theorem filter_ne_of_not_mem (v : List SlicePtr) (x : SlicePtr) (hx : x ∉ v) :
    v.filter (fun y => y ≠ x) = v := by
  rw [List.filter_eq_self]
  intro a ha
  simp only [ne_eq, decide_not, Bool.not_eq_true', decide_eq_false_iff_not]
  rintro rfl
  exact hx ha

theorem erase_remove_cons_self (v : List SlicePtr) (x : SlicePtr) (hx : x ∉ v) :
    erase_remove (x :: v) x = some v := by
  have hf := filter_ne_of_not_mem v x hx
  simp only [ne_eq, decide_not] at hf
  simp [erase_remove, hf]

/-! ### C1: insert_slice followed by remove_slice -/

/-- C1 (as amended): for a slice `s` that occurs in none of the four layer
sequences, `insert_slice(s)` followed by `remove_slice(s)` returns a stack
whose four layer sequences are exactly those before and whose dirty bit is
set, whatever it was before. -/
theorem insert_remove_slice (h : Heap) (st : Stack) (s : SlicePtr)
    (hs : ∀ l, s ∉ st.top l) :
    ∃ st', remove_slice h (insert_slice h st s) s = some st' ∧
      (∀ l, st'.top l = st.top l) ∧ st'.dirty = true := by
  refine ⟨{ st with dirty := true }, ?_, fun l => by cases l <;> rfl, rfl⟩
  have h0 := erase_remove_cons_self _ _ (hs .LAYER_FOCUS)
  have h1 := erase_remove_cons_self _ _ (hs .LAYER_FULLSCREEN)
  have h2 := erase_remove_cons_self _ _ (hs .LAYER_NORMAL)
  have h3 := erase_remove_cons_self _ _ (hs .LAYER_FRAMES)
  simp only [Stack.top] at h0 h1 h2 h3
  unfold remove_slice insert_slice
  rcases (h.slices s).layers with ⟨a, b, c, d⟩
  cases a <;> cases b <;> cases c <;> cases d <;>
    simp [LayerSet.toList, Stack.setTop, Stack.top, h0, h1, h2, h3]

/-- Witness of `insert_remove_slice`: slice 7 and the stack holding slice 4. -/
theorem insert_remove_slice_witness :
    ∃ st', remove_slice example_heap (insert_slice example_heap { normal := [4] } 7) 7 = some st' ∧
      (∀ l, st'.top l = Stack.top { normal := [4] } l) ∧ st'.dirty = true :=
  insert_remove_slice example_heap { normal := [4] } 7 (by decide)

/-- C1 as stated fails: on the clean empty stack, inserting and removing
slice 7, which occurs in no sequence, leaves the dirty bit set, so the stack is
not equal to the one before. -/
theorem insert_remove_slice_not_bit_equal :
    (∀ l, (7 : SlicePtr) ∉ Stack.top { dirty := false } l) ∧
    remove_slice example_heap (insert_slice example_heap { dirty := false } 7) 7
      = some { dirty := true } ∧
    remove_slice example_heap (insert_slice example_heap { dirty := false } 7) 7
      ≠ some { dirty := false } := by
  decide

/-! ### Termination of the traversal -/

theorem mem_all_entries (st : Stack) (p : SlicePtr) :
    p ∈ all_entries st ↔ ∃ l, p ∈ st.top l := by
  constructor
  · intro hp
    simp only [all_entries, List.mem_append] at hp
    rcases hp with ((h | h) | h) | h
    · exact ⟨.LAYER_FOCUS, h⟩
    · exact ⟨.LAYER_FULLSCREEN, h⟩
    · exact ⟨.LAYER_NORMAL, h⟩
    · exact ⟨.LAYER_FRAMES, h⟩
  · rintro ⟨l, hl⟩
    simp only [all_entries, List.mem_append]
    cases l <;> simp only [Stack.top] at hl <;> tauto

theorem nested_within_succ (h : Heap) (n : Nat) (st : Stack) :
    nested_within h (n + 1) st = true ↔
      ∀ l, ∀ p ∈ st.top l, ∀ m, (h.slices p).data = .monitor m →
        nested_within h n (h.monitor_stack m) = true := by
  simp only [nested_within, List.all_eq_true]
  constructor
  · intro hall l p hp m hm
    have := hall p ((mem_all_entries st p).mpr ⟨l, hp⟩)
    simpa [hm] using this
  · intro hall p hp
    obtain ⟨l, hl⟩ := (mem_all_entries st p).mp hp
    cases hd : (h.slices p).data with
    | client c => rfl
    | window w => rfl
    | monitor m => exact hall l p hl m hd

theorem slice_to_window_buf_some (nested : Stack → Int → Bool → Option (List Window × Int))
    (h : Heap) (p : SlicePtr)
    (hn : ∀ m, (h.slices p).data = .monitor m →
      ∀ len rc, ∃ r, nested (h.monitor_stack m) len rc = some r)
    (data : s2wb) : ∃ d, slice_to_window_buf nested h p data = some d := by
  unfold slice_to_window_buf
  split
  · exact ⟨_, rfl⟩
  · split
    · exact ⟨_, rfl⟩
    · split <;> exact ⟨_, rfl⟩
    · rename_i m hm
      obtain ⟨⟨wr, rl⟩, hr⟩ := hn m hm
        (if (!data.real_clients) = true then data.put (h.monitors m).stacking_window else data).len
        (if (!data.real_clients) = true then data.put (h.monitors m).stacking_window else data).real_clients
      simp only [hr, Option.bind_eq_bind, Option.some_bind]
      split <;> exact ⟨_, rfl⟩

theorem layer_to_window_buf_some (nested : Stack → Int → Bool → Option (List Window × Int))
    (h : Heap) (v : List SlicePtr)
    (hn : ∀ p ∈ v, ∀ m, (h.slices p).data = .monitor m →
      ∀ len rc, ∃ r, nested (h.monitor_stack m) len rc = some r)
    (data : s2wb) : ∃ d, layer_to_window_buf nested h v data = some d := by
  induction v generalizing data with
  | nil => exact ⟨data, rfl⟩
  | cons p v ih =>
    obtain ⟨d, hd⟩ := slice_to_window_buf_some nested h p (hn p (List.mem_cons_self _ _)) data
    obtain ⟨d', hd'⟩ := ih (fun q hq => hn q (List.mem_cons_of_mem _ hq)) d
    refine ⟨d', ?_⟩
    simp only [layer_to_window_buf, List.foldlM_cons, hd, Option.bind_eq_bind, Option.some_bind] at hd' ⊢
    exact hd'

theorem to_window_buf_some (h : Heap) (n : Nat) :
    ∀ (st : Stack) (len : Int) (rc : Bool), nested_within h n st = true →
      ∃ r, to_window_buf n h st len rc = some r := by
  induction n with
  | zero => intro st len rc hn; simp [nested_within] at hn
  | succ n ih =>
    intro st len rc hn
    rw [nested_within_succ] at hn
    have hl : ∀ l data, ∃ d, layer_to_window_buf (to_window_buf n h) h (st.top l) data = some d :=
      fun l data => layer_to_window_buf_some _ h _
        (fun p hp m hm len rc => ih _ len rc (hn l p hp m hm)) data
    obtain ⟨d0, h0⟩ := hl .LAYER_FOCUS
      { len := len, buf := [], missing := 0, real_clients := rc, layer := HSLayer.LAYER_FOCUS.toNat }
    obtain ⟨d1, h1⟩ := hl .LAYER_FULLSCREEN { d0 with layer := HSLayer.LAYER_FULLSCREEN.toNat }
    obtain ⟨d2, h2⟩ := hl .LAYER_NORMAL { d1 with layer := HSLayer.LAYER_NORMAL.toNat }
    obtain ⟨d3, h3⟩ := hl .LAYER_FRAMES { d2 with layer := HSLayer.LAYER_FRAMES.toNat }
    refine ⟨(d3.buf, if d3.missing = 0 then d3.len else -d3.missing), ?_⟩
    simp [to_window_buf, all_layers, h0, h1, h2, h3]

/-! ### C2: raise_slide -/

theorem erase_eq_filter_of_count_one (v : List SlicePtr) (s : SlicePtr)
    (hc : v.count s = 1) : v.erase s = v.filter (fun y => y ≠ s) := by
  induction v with
  | nil => simp at hc
  | cons a v ih =>
    by_cases ha : a = s
    · subst ha
      have h0 : v.count a = 0 := by simpa using hc
      have hn : a ∉ v := List.count_eq_zero.mp h0
      have hf := filter_ne_of_not_mem v a hn
      simp only [ne_eq, decide_not] at hf
      simp [hf]
    · have h1 : v.count s = 1 := by
        rw [List.count_cons_of_ne (Ne.symm ha)] at hc; exact hc
      have := ih h1
      simp only [ne_eq, decide_not] at this
      simp [List.erase_cons_tail, ha, this]

theorem mem_of_count_one (v : List SlicePtr) (s : SlicePtr) (hc : v.count s = 1) : s ∈ v :=
  List.count_pos_iff.mp (by omega)

theorem raise_loop (h : Heap) (st : Stack) (s : SlicePtr)
    (hmem : ∀ l, (h.slices s).layers.count l = true → s ∈ st.top l) :
    (h.slices s).layers.toList.foldlM
      (fun st layer => do
        let v ← rotate_to_front (st.top layer) s
        pure (st.setTop layer v)) st = some (raised (h.slices s).layers st s) := by
  have h0 := hmem .LAYER_FOCUS
  have h1 := hmem .LAYER_FULLSCREEN
  have h2 := hmem .LAYER_NORMAL
  have h3 := hmem .LAYER_FRAMES
  simp only [Stack.top, LayerSet.count] at h0 h1 h2 h3
  generalize (h.slices s).layers = L at h0 h1 h2 h3 ⊢
  rcases L with ⟨a, b, c, d⟩
  cases a <;> cases b <;> cases c <;> cases d <;>
    simp_all [LayerSet.toList, Stack.setTop, Stack.top, rotate_to_front, raised]

theorem restack_dirty (fuel : Nat) (h : Heap) (st : Stack)
    (hn : nested_within h fuel st = true) (hd : st.dirty = true) :
    ∃ e, restack fuel h st = some ({ st with dirty := false }, e) := by
  obtain ⟨⟨w0, r0⟩, h0⟩ := to_window_buf_some h fuel st 0 false hn
  obtain ⟨⟨w1, r1⟩, h1⟩ := to_window_buf_some h fuel st (-r0) false hn
  simp [restack, hd, window_count, h0, h1]

theorem top_raised (L : LayerSet) (st : Stack) (s : SlicePtr) (d : Bool) (l : HSLayer) :
    Stack.top { raised L st s with dirty := d } l =
      if L.count l then s :: (st.top l).erase s else st.top l := by
  cases l <;> simp [raised, Stack.top, LayerSet.count]

theorem nested_within_raised (h : Heap) (fuel : Nat) (L : LayerSet) (st : Stack) (s : SlicePtr)
    (d : Bool) (hmem : ∀ l, L.count l = true → s ∈ st.top l)
    (hn : nested_within h fuel st = true) :
    nested_within h fuel { raised L st s with dirty := d } = true := by
  cases fuel with
  | zero => simp [nested_within] at hn
  | succ n =>
    rw [nested_within_succ] at hn ⊢
    intro l p hp m hm
    rw [top_raised] at hp
    by_cases hl : L.count l = true
    · rw [if_pos hl] at hp
      rcases List.mem_cons.mp hp with rfl | hp'
      · exact hn l p (hmem l hl) m hm
      · exact hn l p (List.mem_of_mem_erase hp') m hm
    · rw [if_neg hl] at hp
      exact hn l p hp m hm

theorem raise_slide_eq (fuel : Nat) (h : Heap) (st : Stack) (s : SlicePtr)
    (hmem : ∀ l, (h.slices s).layers.count l = true → s ∈ st.top l)
    (hn : nested_within h fuel st = true) :
    ∃ e, raise_slide fuel h st s =
      some ({ raised (h.slices s).layers st s with dirty := false }, e) := by
  obtain ⟨e, he⟩ := restack_dirty fuel h { raised (h.slices s).layers st s with dirty := true }
    (nested_within_raised h fuel _ st s true hmem hn) rfl
  refine ⟨e, ?_⟩
  unfold raise_slide
  rw [raise_loop h st s hmem]
  exact he

/-- C2: when slice `s` occurs exactly once in the sequence of each layer of
its membership (and the monitor slices of the stack are nested within the
fuel, so that the restack pass returns), `raise_slide(s)` returns a stack in
which each such sequence is `s` followed by the other slices in their previous
order and every other sequence is unchanged; a second `raise_slide(s)` on the
result returns a stack with the same four sequences. -/
theorem raise_slide_order (fuel : Nat) (h : Heap) (st : Stack) (s : SlicePtr)
    (hocc : ∀ l, (h.slices s).layers.count l = true → (st.top l).count s = 1)
    (hn : nested_within h fuel st = true) :
    ∃ st1 e1 st2 e2,
      raise_slide fuel h st s = some (st1, e1) ∧
      (∀ l, st1.top l =
        if (h.slices s).layers.count l then s :: (st.top l).filter (fun y => y ≠ s)
        else st.top l) ∧
      raise_slide fuel h st1 s = some (st2, e2) ∧
      (∀ l, st2.top l = st1.top l) := by
  have hmem : ∀ l, (h.slices s).layers.count l = true → s ∈ st.top l :=
    fun l hl => mem_of_count_one _ _ (hocc l hl)
  obtain ⟨e1, h1⟩ := raise_slide_eq fuel h st s hmem hn
  have hmem1 : ∀ l, (h.slices s).layers.count l = true →
      s ∈ Stack.top { raised (h.slices s).layers st s with dirty := false } l := by
    intro l hl
    rw [top_raised, if_pos hl]
    exact List.mem_cons_self _ _
  obtain ⟨e2, h2⟩ := raise_slide_eq fuel h _ s hmem1
    (nested_within_raised h fuel _ st s false hmem hn)
  refine ⟨_, e1, _, e2, h1, ?_, h2, ?_⟩
  · intro l
    rw [top_raised]
    by_cases hl : (h.slices s).layers.count l = true
    · rw [if_pos hl, if_pos hl, erase_eq_filter_of_count_one _ _ (hocc l hl)]
    · rw [if_neg hl, if_neg hl]
  · intro l
    rw [top_raised, top_raised]
    by_cases hl : (h.slices s).layers.count l = true
    · simp [hl]
    · simp [hl]

/-- Witness of `raise_slide_order`: raising the client slice 1, a member of
the Fullscreen and Normal layers. -/
theorem raise_slide_order_witness :
    ∃ st1 e1 st2 e2,
      raise_slide 1 example_heap { fullscreen := [1], normal := [4, 1], frames := [2] } 1
        = some (st1, e1) ∧
      (∀ l, st1.top l =
        if (example_heap.slices 1).layers.count l then
          1 :: (Stack.top { fullscreen := [1], normal := [4, 1], frames := [2] } l).filter
            (fun y => y ≠ 1)
        else Stack.top { fullscreen := [1], normal := [4, 1], frames := [2] } l) ∧
      raise_slide 1 example_heap st1 1 = some (st2, e2) ∧
      (∀ l, st2.top l = st1.top l) :=
  raise_slide_order 1 example_heap { fullscreen := [1], normal := [4, 1], frames := [2] } 1
    (by decide) (by decide)

/-! ### C3: to_window_buf -/

/-- The slices shown are entries of the stack: a buffer with room for every
entry has room for every slice shown. -/
theorem shown_slices_length_le (h : Heap) (st : Stack) :
    (shown_slices h st).length ≤ (all_entries st).length := by
  have e := fun l => List.length_filter_le
    (fun p => decide (slice_highest_layer (h.slices p) = HSLayer.toNat l)) (st.top l)
  have e0 := e .LAYER_FOCUS
  have e1 := e .LAYER_FULLSCREEN
  have e2 := e .LAYER_NORMAL
  have e3 := e .LAYER_FRAMES
  simp only [Stack.top] at e0 e1 e2 e3
  simp only [shown_slices, shown_in_layer, all_entries, List.length_append, Stack.top]
  omega

theorem window_count_eq_map (fuel : Nat) (h : Heap) (rc : Bool) (s : Stack) :
    window_count fuel h s rc = (to_window_buf fuel h s 0 rc).map (fun x => -x.2) := by
  unfold window_count
  cases to_window_buf fuel h s 0 rc <;> rfl

theorem lowest_in_layer_append_last (nested : Stack → Option Window) (h : Heap)
    (p : SlicePtr) (rest : List SlicePtr)
    (hp : (h.slices p).data.type ≠ .SLICE_MONITOR) (hw : slice_window h p ≠ 0) :
    lowest_in_layer nested h (p :: rest) = some (slice_window h p) := by
  unfold lowest_in_layer slice_lowest_window
  unfold slice_window at hw ⊢
  cases hd : (h.slices p).data with
  | client c => simp only [hd] at hw; simp [hw]
  | window w => simp only [hd] at hw; simp [hw]
  | monitor m => simp [hd, SliceData.type] at hp

theorem lowest_in_layer_nil (nested : Stack → Option Window) (h : Heap) :
    lowest_in_layer nested h [] = some 0 := rfl

theorem reverse_eq_getLast_cons (v : List SlicePtr) (hv : v ≠ []) :
    v.reverse = v.getLast hv :: v.dropLast.reverse := by
  have := List.dropLast_append_getLast hv
  conv_lhs => rw [← this]
  simp

/-- C5 (as amended): for a stack of client and bare-window slices with
non-zero window ids, `lowest_window()` returns the window id of the last
(bottom) slice of the sequence of the bottommost non-empty layer: of a layer
that is not empty while every layer below it (later in the order Focus,
Fullscreen, Normal, Frames) is empty. -/
theorem lowest_window_bottommost (fuel : Nat) (h : Heap) (st : Stack) (l : HSLayer)
    (hcw : ∀ l', ∀ p ∈ st.top l',
      (h.slices p).data.type ≠ .SLICE_MONITOR ∧ slice_window h p ≠ 0)
    (hne : st.top l ≠ [])
    (hbelow : ∀ l', l.toNat < l'.toNat → st.top l' = []) :
    lowest_window (fuel + 1) h st = some (slice_window h ((st.top l).getLast hne)) := by
  have hlast := hcw l _ (List.getLast_mem hne)
  have hl := lowest_in_layer_append_last (lowest_window fuel h) h ((st.top l).getLast hne)
    (st.top l).dropLast.reverse hlast.1 hlast.2
  rw [← reverse_eq_getLast_cons] at hl
  have hw := hlast.2
  cases l
  · have e1 := hbelow .LAYER_FULLSCREEN (by decide)
    have e2 := hbelow .LAYER_NORMAL (by decide)
    have e3 := hbelow .LAYER_FRAMES (by decide)
    simp [lowest_window, all_layers, lowest_in_layers, e1, e2, e3, lowest_in_layer_nil, hl, hw]
  · have e2 := hbelow .LAYER_NORMAL (by decide)
    have e3 := hbelow .LAYER_FRAMES (by decide)
    simp [lowest_window, all_layers, lowest_in_layers, e2, e3, lowest_in_layer_nil, hl, hw]
  · have e3 := hbelow .LAYER_FRAMES (by decide)
    simp [lowest_window, all_layers, lowest_in_layers, e3, lowest_in_layer_nil, hl, hw]
  · simp [lowest_window, all_layers, lowest_in_layers, hl, hw]

/-- Witness of `lowest_window_bottommost`: the frame window 22 lies at the
bottom of the Frames layer, below the clients of the Normal layer. -/
theorem lowest_window_bottommost_witness :
    lowest_window 1 example_heap { focus := [4], normal := [4, 5], frames := [2] } =
      some (slice_window example_heap
        ((Stack.top { focus := [4], normal := [4, 5], frames := [2] } .LAYER_FRAMES).getLast
          (by decide))) :=
  lowest_window_bottommost 0 example_heap { focus := [4], normal := [4, 5], frames := [2] }
    .LAYER_FRAMES (by decide) (by decide) (by decide)

/-- C5 as stated fails: the topmost non-empty layer is Focus, whose last
slice is the client slice 4 with window 204, but `lowest_window()` returns the
frame window 22 of the Frames layer. -/
theorem lowest_window_not_topmost :
    (∀ l, ∀ p ∈ Stack.top { focus := [4], normal := [4, 5], frames := [2] } l,
      (example_heap.slices p).data.type ≠ .SLICE_MONITOR ∧ slice_window example_heap p ≠ 0) ∧
    Stack.top { focus := [4], normal := [4, 5], frames := [2] } .LAYER_FOCUS = [4] ∧
    slice_window example_heap 4 = 204 ∧
    lowest_window 1 example_heap { focus := [4], normal := [4, 5], frames := [2] } = some 22 := by
  decide

/-- C6: on a stack whose four layer sequences are empty, `window_count(false)`
returns 0 and `lowest_window()` returns 0. -/
theorem fresh_stack_counts (fuel : Nat) (h : Heap) (d : Bool) :
    window_count (fuel + 1) h { dirty := d } false = some 0 ∧
    lowest_window (fuel + 1) h { dirty := d } = some 0 := by
  constructor
  · simp [window_count, to_window_buf, all_layers, layer_to_window_buf, Stack.top]
  · simp [lowest_window, all_layers, lowest_in_layers, lowest_in_layer, Stack.top]

/-- Whenever the slice does not occur in the sequence of the layer,
`slice_remove_layer` runs into the undefined `erase` of `v.end()`, whatever
the membership of the slice. -/
theorem slice_remove_layer_absent (h : Heap) (st : Stack) (s : SlicePtr) (l : HSLayer)
    (hs : s ∉ st.top l) : slice_remove_layer h st s l = none := by
  have hf := filter_ne_of_not_mem _ _ hs
  simp only [ne_eq, decide_not] at hf
  simp [slice_remove_layer, erase_remove, hf]

/-- C7 on the code: slice 5 claims membership in the Normal layer but does
not occur in its sequence `[4]`; `slice_remove_layer` then hands `v.end()` to
`erase`, which is undefined behaviour, and does not complete. -/
theorem slice_remove_layer_absent_undefined :
    (example_heap.slices 5).layers.count .LAYER_NORMAL = true ∧
    (5 : SlicePtr) ∉ Stack.top { normal := [4] } .LAYER_NORMAL ∧
    (slice_remove_layer example_heap { normal := [4] } 5 .LAYER_NORMAL).isNone = true := by
  decide

/-! ### C8: ignore_unmapnotify -/

theorem after_unmapnotify_succ (k : Nat) (c : HSClient) :
    after_unmapnotify (k + 1) c = after_unmapnotify k (ignore_unmapnotify c).2 := by
  simp [after_unmapnotify, Function.iterate_succ]

theorem ignore_unmaps_after (k : Nat) :
    ∀ c : HSClient, 0 ≤ c.ignore_unmaps →
      (after_unmapnotify k c).ignore_unmaps = max (c.ignore_unmaps - k) 0 := by
  induction k with
  | zero => intro c hc; simp [after_unmapnotify, hc]
  | succ k ih =>
    intro c hc
    rw [after_unmapnotify_succ]
    by_cases hpos : c.ignore_unmaps > 0
    · have h1 : (ignore_unmapnotify c).2.ignore_unmaps = c.ignore_unmaps - 1 := by
        simp [ignore_unmapnotify, hpos]
      rw [ih _ (by rw [h1]; omega), h1]
      push_cast
      congr 1
      omega
    · have h1 : (ignore_unmapnotify c).2.ignore_unmaps = c.ignore_unmaps := by
        simp [ignore_unmapnotify, hpos]
      rw [ih _ (by rw [h1]; exact hc), h1]
      push_cast
      have : c.ignore_unmaps = 0 := by omega
      rw [this]
      omega

/-- C8: for a client whose counter `ignore_unmaps` is `n >= 0`, call number
`k + 1` of `ignore_unmapnotify` returns true and leaves the counter at
`n - (k + 1)`, one less than before it, when `k < n`, and returns false and
leaves the counter at 0 when `k >= n`; the counter is never negative. -/
theorem ignore_unmapnotify_calls (c : HSClient) (hn : 0 ≤ c.ignore_unmaps) (k : Nat) :
    ((k : Int) < c.ignore_unmaps →
      (ignore_unmapnotify (after_unmapnotify k c)).1 = true ∧
      (after_unmapnotify (k + 1) c).ignore_unmaps = c.ignore_unmaps - (k + 1) ∧
      (after_unmapnotify (k + 1) c).ignore_unmaps =
        (after_unmapnotify k c).ignore_unmaps - 1) ∧
    (c.ignore_unmaps ≤ (k : Int) →
      (ignore_unmapnotify (after_unmapnotify k c)).1 = false ∧
      (after_unmapnotify k c).ignore_unmaps = 0 ∧
      (after_unmapnotify (k + 1) c).ignore_unmaps = 0) ∧
    0 ≤ (after_unmapnotify k c).ignore_unmaps := by
  have hk := ignore_unmaps_after k c hn
  have hk1 := ignore_unmaps_after (k + 1) c hn
  push_cast at hk1
  refine ⟨?_, ?_, by rw [hk]; exact le_max_right _ _⟩
  · intro hlt
    refine ⟨?_, by rw [hk1]; omega, by rw [hk1, hk]; omega⟩
    have : (after_unmapnotify k c).ignore_unmaps > 0 := by rw [hk]; omega
    simp [ignore_unmapnotify, this]
  · intro hge
    refine ⟨?_, by rw [hk]; omega, by rw [hk1]; omega⟩
    have : ¬ (after_unmapnotify k c).ignore_unmaps > 0 := by rw [hk]; omega
    simp [ignore_unmapnotify, this]

/-- Witness of `ignore_unmapnotify_calls`: with `ignore_unmaps = 2` three
calls return true, true, false and leave the counter at 1, 0, 0. -/
theorem ignore_unmapnotify_calls_witness :
    ((ignore_unmapnotify (after_unmapnotify 0 { ignore_unmaps := 2 })).1 = true ∧
      (after_unmapnotify 1 { ignore_unmaps := 2 }).ignore_unmaps = 1) ∧
    ((ignore_unmapnotify (after_unmapnotify 1 { ignore_unmaps := 2 })).1 = true ∧
      (after_unmapnotify 2 { ignore_unmaps := 2 }).ignore_unmaps = 0) ∧
    ((ignore_unmapnotify (after_unmapnotify 2 { ignore_unmaps := 2 })).1 = false ∧
      (after_unmapnotify 3 { ignore_unmaps := 2 }).ignore_unmaps = 0) :=
  ⟨⟨((ignore_unmapnotify_calls { ignore_unmaps := 2 } (by decide) 0).1 (by decide)).1,
    ((ignore_unmapnotify_calls { ignore_unmaps := 2 } (by decide) 0).1 (by decide)).2.1⟩,
   ⟨((ignore_unmapnotify_calls { ignore_unmaps := 2 } (by decide) 1).1 (by decide)).1,
    ((ignore_unmapnotify_calls { ignore_unmaps := 2 } (by decide) 1).1 (by decide)).2.1⟩,
   ⟨((ignore_unmapnotify_calls { ignore_unmaps := 2 } (by decide) 2).2.1 (by decide)).1,
    ((ignore_unmapnotify_calls { ignore_unmaps := 2 } (by decide) 2).2.1 (by decide)).2.2⟩⟩

/-! ### C9, C10: applysizehints -/

theorem applysizehints_no_aspect (MW MH : Int) (hp : Heap) (c : HSClient) (t : TagPtr)
    (w h : Int) (htag : c.tag_ = some t) (hasp : c.mina = 0 ∨ c.maxa = 0) :
    ∃ flag, effective_sizehints hp c = some flag ∧
      applysizehints MW MH hp c w h =
        some (decide ((if flag then size_axis MW c.basew c.incw c.minw c.maxw w
                else size_floor MW w) ≠ c.last_size.width) ||
              decide ((if flag then size_axis MH c.baseh c.inch c.minh c.maxh h
                else size_floor MH h) ≠ c.last_size.height),
          if flag then size_axis MW c.basew c.incw c.minw c.maxw w else size_floor MW w,
          if flag then size_axis MH c.baseh c.inch c.minh c.maxh h else size_floor MH h) := by
  have hasp' : (decide (c.mina > 0) && decide (c.maxa > 0)) = false := by
    rcases hasp with h0 | h0 <;> simp [h0]
  refine ⟨(if (hp.tags t).floating || c.pseudotile then c.sizehints_floating
    else c.sizehints_tiling), by simp [effective_sizehints, is_client_floated, htag], ?_⟩
  generalize hflag : (if (hp.tags t).floating || c.pseudotile then c.sizehints_floating
    else c.sizehints_tiling) = flag
  unfold applysizehints
  simp only [is_client_floated, htag, Option.map_some', Option.bind_eq_bind, Option.some_bind,
    hasp', Bool.false_and, Bool.false_eq_true, ↓reduceIte]
  rw [hflag]
  cases flag
  · simp only [Bool.false_eq_true, ↓reduceIte, size_floor]
  · simp only [↓reduceIte, size_axis, size_floor]
    by_cases hb : (decide (c.basew = c.minw) && decide (c.baseh = c.minh)) = true
    · simp [hb]
    · simp [hb]

theorem size_floor_eq_max (m x : Int) : size_floor m x = max x (max 1 m) := by
  unfold size_floor; split <;> omega

theorem size_floor_idem (m x : Int) : size_floor m (size_floor m x) = size_floor m x := by
  simp only [size_floor_eq_max]; omega

theorem tmod_eq_emod_abs (D i : Int) (hD : 0 ≤ D) : Int.tmod D i = D % |i| := by
  rcases le_total 0 i with hi | hi
  · rw [abs_of_nonneg hi, Int.tmod_eq_emod hD hi]
  · rw [abs_of_nonpos hi, ← Int.tmod_neg, Int.tmod_eq_emod hD (by omega)]

/-- Between a grid point and the next, the remainder is the distance to the
grid point. -/
theorem emod_of_between (k D E : Int) (hk : 0 < k) (hlo : D - D % k ≤ E) (hhi : E ≤ D) :
    E % k = E - (D - D % k) := by
  have h1 := Int.emod_add_ediv D k
  have h2 := Int.emod_lt_of_pos D hk
  have := (Int.ediv_emod_unique (a := E) (r := E - (D - D % k)) (q := D / k) hk).mpr
    ⟨by omega, by omega, by omega⟩
  exact this.2

/-- Snapping down to the grid is monotone. -/
theorem snap_mono (k D E : Int) (hk : 0 < k) (hED : E ≤ D) : E - E % k ≤ D - D % k := by
  have h1 := Int.emod_add_ediv D k
  have h2 := Int.emod_add_ediv E k
  have h3 := Int.ediv_le_ediv hk hED
  have h4 : k * (E / k) ≤ k * (D / k) := mul_le_mul_of_nonneg_left h3 (le_of_lt hk)
  omega

theorem size_axis_idem (m base inc mn mx x : Int)
    (hc : inc = 0 ∨ (mx = 0 ∧ base ≤ mn)) :
    size_axis m base inc mn mx (size_axis m base inc mn mx x) = size_axis m base inc mn mx x := by
  by_cases hi : inc = 0
  · simp only [size_axis, size_floor_eq_max, hi, ne_eq, not_true_eq_false, ↓reduceIte,
      sub_add_cancel]
    split <;> omega
  · rcases hc with h0 | ⟨hmx, hb⟩
    · exact absurd h0 hi
    · subst hmx
      simp only [size_axis, size_floor_eq_max, ne_eq, hi, not_false_eq_true, ↓reduceIte,
        not_true_eq_false]
      have hk : 0 < |inc| := abs_pos.mpr hi
      generalize hM : max 1 m = M
      generalize hX : max x M = X
      have hXM : M ≤ X := by omega
      -- the first result
      generalize hW : max (X - base - (X - base).tmod inc + base) mn = W
      -- the grid point below `X` is a multiple of the increment above the base
      have hmul : (X - base - (X - base).tmod inc).tmod inc = 0 := by
        have := Int.tmod_add_tdiv (X - base) inc
        have e : X - base - (X - base).tmod inc = inc * (X - base).tdiv inc := by omega
        rw [e, Int.mul_tmod_right]
      by_cases hA : mn ≤ X - base - (X - base).tmod inc + base
      · have hWe : W = X - base - (X - base).tmod inc + base := by omega
        by_cases hA1 : M ≤ W
        · have : max W M = W := by omega
          rw [this]
          have e : W - base = X - base - (X - base).tmod inc := by omega
          rw [e, hmul]
          omega
        · have hWM : max W M = M := by omega
          rw [hWM]
          have hD : 0 ≤ X - base := by omega
          have hE : 0 ≤ M - base := by omega
          rw [tmod_eq_emod_abs _ _ hD] at hWe
          rw [tmod_eq_emod_abs _ _ hE]
          have := emod_of_between |inc| (X - base) (M - base) hk (by omega) (by omega)
          rw [this]
          omega
      · have hWe : W = mn := by omega
        by_cases hB1 : M ≤ mn
        · have : max W M = mn := by omega
          rw [this]
          have := Int.tmod_nonneg inc (a := mn - base) (by omega)
          omega
        · have hWM : max W M = M := by omega
          rw [hWM]
          have hD : 0 ≤ X - base := by omega
          have hE : 0 ≤ M - base := by omega
          rw [tmod_eq_emod_abs _ _ hD] at hA
          rw [tmod_eq_emod_abs _ _ hE]
          have := snap_mono |inc| (X - base) (M - base) hk (by omega)
          omega

/-! ### C10, C11: applysizehints with the arithmetic of int -/

theorem wrap_int_of_in_int (x : Int) (hx : in_int x) : wrap_int x = x := by
  unfold wrap_int
  unfold in_int INT_MIN INT_MAX at hx
  unfold INT_MIN
  omega

theorem tmod_bounds (y inc : Int) :
    (0 ≤ y → 0 ≤ Int.tmod y inc ∧ Int.tmod y inc ≤ y) ∧
    (y ≤ 0 → y ≤ Int.tmod y inc ∧ Int.tmod y inc ≤ 0) := by
  have hpos : ∀ z : Int, 0 ≤ z → 0 ≤ Int.tmod z inc ∧ Int.tmod z inc ≤ z := by
    intro z hz
    by_cases hi : inc = 0
    · subst hi
      simp [Int.tmod_zero, hz]
    · rw [tmod_eq_emod_abs _ _ hz]
      have hk : 0 < |inc| := abs_pos.mpr hi
      have h1 := Int.emod_nonneg z (ne_of_gt hk)
      have h2 := Int.emod_add_ediv z |inc|
      have h3 : 0 ≤ z / |inc| := Int.ediv_nonneg hz (le_of_lt hk)
      have h4 : 0 ≤ |inc| * (z / |inc|) := mul_nonneg (le_of_lt hk) h3
      omega
  refine ⟨hpos y, ?_⟩
  intro hy
  have h1 := hpos (-y) (by omega)
  have h2 := Int.tmod_add_tdiv (-y) inc
  have h3 := Int.tmod_add_tdiv y inc
  rw [Int.neg_tdiv, mul_neg] at h2
  have h4 : Int.tmod (-y) inc = -Int.tmod y inc := by linarith
  rw [h4] at h1
  omega

theorem size_axis_int32_eq (m base inc mn mx x : Int) (hx : x ≤ INT_MAX) (hm : m ≤ INT_MAX)
    (hb : in_int base) (hd : size_floor m x - base ≤ INT_MAX) :
    size_axis_int32 m base inc mn mx x = some (size_axis m base inc mn mx x) := by
  have hX := size_floor_eq_max m x
  have hD : in_int (size_floor m x - base) := by
    unfold in_int INT_MIN INT_MAX at *
    omega
  have hw1 := wrap_int_of_in_int _ hD
  obtain ⟨hp, hn⟩ := tmod_bounds (size_floor m x - base) inc
  unfold size_axis_int32 size_axis
  rw [hw1]
  have hne : ¬ (size_floor m x - base = INT_MIN ∧ inc = -1) := by
    unfold in_int INT_MIN INT_MAX at *
    omega
  have hR : in_int (size_floor m x - base - Int.tmod (size_floor m x - base) inc) := by
    unfold in_int INT_MIN INT_MAX at *
    omega
  have hG : in_int (size_floor m x - base - Int.tmod (size_floor m x - base) inc + base) := by
    unfold in_int INT_MIN INT_MAX at *
    omega
  have hG0 : in_int (size_floor m x - base + base) := by
    unfold in_int INT_MIN INT_MAX at *
    omega
  by_cases hi : inc = 0
  · simp only [hi, ne_eq, not_true_eq_false, ↓reduceIte, Option.map_some',
      wrap_int_of_in_int _ hG0]
  · simp only [ne_eq, hi, not_false_eq_true, ↓reduceIte, rem_int, hne, Option.map_some',
      wrap_int_of_in_int _ hR, wrap_int_of_in_int _ hG]

theorem applysizehints_int32_no_aspect (fa : AspectArith) (MW MH : Int) (hp : Heap)
    (c : HSClient) (t : TagPtr) (w h : Int) (htag : c.tag_ = some t)
    (hasp : c.mina = 0 ∨ c.maxa = 0) (hflag : effective_sizehints hp c = some true) :
    applysizehints_int32 fa MW MH hp c w h =
      (size_axis_int32 MW c.basew c.incw c.minw c.maxw w).bind (fun w1 =>
        (size_axis_int32 MH c.baseh c.inch c.minh c.maxh h).map (fun h1 =>
          (decide (w1 ≠ c.last_size.width) || decide (h1 ≠ c.last_size.height), w1, h1))) := by
  have hasp1 : (decide (c.mina > 0) && decide (c.maxa > 0)) = false := by
    rcases hasp with h0 | h0 <;> simp [h0]
  have hfl : (if (hp.tags t).floating || c.pseudotile then c.sizehints_floating
      else c.sizehints_tiling) = true := by
    simpa [effective_sizehints, is_client_floated, htag] using hflag
  unfold applysizehints_int32
  simp only [is_client_floated, htag, Option.map_some', Option.bind_eq_bind, Option.some_bind,
    hasp1, Bool.false_and, Bool.false_eq_true, ↓reduceIte]
  rw [hfl]
  simp only [↓reduceIte, size_axis_int32, size_floor]
  by_cases hb : (decide (c.basew = c.minw) && decide (c.baseh = c.minh)) = true
  · simp only [hb, Bool.not_true, Bool.false_eq_true, ↓reduceIte]
    by_cases hiw : c.incw = 0 <;> by_cases hih : c.inch = 0 <;>
      simp only [hiw, hih, ne_eq, not_true_eq_false, not_false_eq_true, ↓reduceIte,
        Option.map_some', Option.some_bind, Option.bind_some]
    · cases rem_int (wrap_int ((if max 1 h < MH then MH else max 1 h) - c.baseh)) c.inch <;> rfl
    · cases rem_int (wrap_int ((if max 1 w < MW then MW else max 1 w) - c.basew)) c.incw <;> rfl
    · cases rem_int (wrap_int ((if max 1 w < MW then MW else max 1 w) - c.basew)) c.incw <;>
        cases rem_int (wrap_int ((if max 1 h < MH then MH else max 1 h) - c.baseh)) c.inch <;> rfl
  · simp only [hb, Bool.not_false, ↓reduceIte, Bool.false_eq_true]
    by_cases hiw : c.incw = 0 <;> by_cases hih : c.inch = 0 <;>
      simp only [hiw, hih, ne_eq, not_true_eq_false, not_false_eq_true, ↓reduceIte,
        Option.map_some', Option.some_bind, Option.bind_some]
    · cases rem_int (wrap_int ((if max 1 h < MH then MH else max 1 h) - c.baseh)) c.inch <;> rfl
    · cases rem_int (wrap_int ((if max 1 w < MW then MW else max 1 w) - c.basew)) c.incw <;> rfl
    · cases rem_int (wrap_int ((if max 1 w < MW then MW else max 1 w) - c.basew)) c.incw <;>
        cases rem_int (wrap_int ((if max 1 h < MH then MH else max 1 h) - c.baseh)) c.inch <;> rfl

theorem applysizehints_int32_flag_off (fa : AspectArith) (MW MH : Int) (hp : Heap)
    (c : HSClient) (w h : Int) (hflag : effective_sizehints hp c = some false) :
    applysizehints_int32 fa MW MH hp c w h =
      some (decide (size_floor MW w ≠ c.last_size.width) ||
        decide (size_floor MH h ≠ c.last_size.height), size_floor MW w, size_floor MH h) := by
  unfold effective_sizehints at hflag
  unfold applysizehints_int32
  cases hfl : is_client_floated hp c with
  | none => rw [hfl] at hflag; simp at hflag
  | some floated =>
    rw [hfl] at hflag
    have h1 : (if floated || c.pseudotile then c.sizehints_floating else c.sizehints_tiling)
        = false := by simpa using hflag
    simp only [Option.bind_eq_bind, Option.some_bind, h1, Bool.false_eq_true, ↓reduceIte,
      size_floor]

/-- For a client without an aspect hint, the method with the arithmetic of
`int` and the method with the arithmetic of the integers agree when the
selected flag is off, and when on each axis the request and the window minimum
are at most `INT_MAX`, the base size is an `int` and the floored request minus
the base size is at most `INT_MAX`. -/
theorem applysizehints_int32_eq (fa : AspectArith) (MW MH : Int) (hp : Heap) (c : HSClient)
    (t : TagPtr) (w h : Int) (htag : c.tag_ = some t) (hasp : c.mina = 0 ∨ c.maxa = 0)
    (hr : effective_sizehints hp c = some false ∨
      ((w ≤ INT_MAX ∧ MW ≤ INT_MAX ∧ in_int c.basew ∧ size_floor MW w - c.basew ≤ INT_MAX) ∧
       (h ≤ INT_MAX ∧ MH ≤ INT_MAX ∧ in_int c.baseh ∧ size_floor MH h - c.baseh ≤ INT_MAX))) :
    applysizehints_int32 fa MW MH hp c w h = applysizehints MW MH hp c w h := by
  obtain ⟨flag, hflag, heq⟩ := applysizehints_no_aspect MW MH hp c t w h htag hasp
  rw [heq]
  cases flag
  · rw [applysizehints_int32_flag_off fa MW MH hp c w h hflag]
    simp
  · rcases hr with hoff | ⟨⟨a1, a2, a3, a4⟩, ⟨b1, b2, b3, b4⟩⟩
    · rw [hflag] at hoff; simp at hoff
    · rw [applysizehints_int32_no_aspect fa MW MH hp c t w h htag hasp hflag,
        size_axis_int32_eq _ _ _ _ _ _ a1 a2 a3 a4, size_axis_int32_eq _ _ _ _ _ _ b1 b2 b3 b4]
      simp

theorem size_axis_le (m base inc mn mx x : Int) :
    size_axis m base inc mn mx x ≤ max (max (size_floor m x) base) mn := by
  obtain ⟨hp, hn⟩ := tmod_bounds (size_floor m x - base) inc
  unfold size_axis
  simp only
  split <;> split <;> omega

theorem axis_in_range_again (m base inc mn mx x : Int) (hr : axis_in_range m base mn x) :
    axis_in_range m base mn (size_axis m base inc mn mx x) := by
  have hle := size_axis_le m base inc mn mx x
  have hX := size_floor_eq_max m x
  unfold axis_in_range in_int INT_MIN INT_MAX at *
  omega

theorem axis_in_range_floor (m base mn x : Int) (hr : axis_in_range m base mn x) :
    x ≤ INT_MAX ∧ m ≤ INT_MAX ∧ in_int base ∧ size_floor m x - base ≤ INT_MAX := by
  have hX := size_floor_eq_max m x
  unfold axis_in_range in_int INT_MIN INT_MAX at *
  omega

/-- C10 (as amended): for a client without an aspect hint, applying
`applysizehints` to the size `(w1, h1)` it produced gives `(w1, h1)` again and,
with `last_size` holding `(w1, h1)`, returns false, when the selected
size-hints flag is off, or when on each axis the increment is 0 or there is no
maximum hint and the base size is at most the minimum hint, and no operation
leaves the range of `int` (`axis_in_range`). -/
theorem applysizehints_idempotent (fa : AspectArith) (MW MH : Int) (hp : Heap) (c : HSClient)
    (t : TagPtr) (w h : Int) (htag : c.tag_ = some t) (hasp : c.mina = 0 ∨ c.maxa = 0)
    (hcond : effective_sizehints hp c = some false ∨
      ((c.incw = 0 ∨ (c.maxw = 0 ∧ c.basew ≤ c.minw)) ∧
       (c.inch = 0 ∨ (c.maxh = 0 ∧ c.baseh ≤ c.minh)) ∧
       axis_in_range MW c.basew c.minw w ∧ axis_in_range MH c.baseh c.minh h)) :
    ∃ r w1 h1, applysizehints_int32 fa MW MH hp c w h = some (r, w1, h1) ∧
      applysizehints_int32 fa MW MH hp (with_last_size c w1 h1) w1 h1
        = some (false, w1, h1) := by
  have hflag : ∃ flag, effective_sizehints hp c = some flag := by
    simp [effective_sizehints, is_client_floated, htag]
  obtain ⟨flag, hflag⟩ := hflag
  cases flag
  · refine ⟨_, _, _, applysizehints_int32_flag_off fa MW MH hp c w h hflag, ?_⟩
    have hflag2 : effective_sizehints hp
        (with_last_size c (size_floor MW w) (size_floor MH h)) = some false := hflag
    rw [applysizehints_int32_flag_off fa MW MH hp
      (with_last_size c (size_floor MW w) (size_floor MH h)) _ _ hflag2]
    simp [with_last_size, size_floor_idem]
  · rcases hcond with hc | ⟨h1, h2, h3, h4⟩
    · rw [hflag] at hc; simp at hc
    · obtain ⟨a1, a2, a3, a4⟩ := axis_in_range_floor _ _ _ _ h3
      obtain ⟨b1, b2, b3, b4⟩ := axis_in_range_floor _ _ _ _ h4
      obtain ⟨c1, c2, c3, c4⟩ := axis_in_range_floor _ _ _ _
        (axis_in_range_again MW c.basew c.incw c.minw c.maxw w h3)
      obtain ⟨d1, d2, d3, d4⟩ := axis_in_range_floor _ _ _ _
        (axis_in_range_again MH c.baseh c.inch c.minh c.maxh h h4)
      have e1 : applysizehints_int32 fa MW MH hp c w h =
          some (decide (size_axis MW c.basew c.incw c.minw c.maxw w ≠ c.last_size.width) ||
              decide (size_axis MH c.baseh c.inch c.minh c.maxh h ≠ c.last_size.height),
            size_axis MW c.basew c.incw c.minw c.maxw w,
            size_axis MH c.baseh c.inch c.minh c.maxh h) := by
        rw [applysizehints_int32_no_aspect fa MW MH hp c t w h htag hasp hflag,
          size_axis_int32_eq _ _ _ _ _ _ a1 a2 a3 a4, size_axis_int32_eq _ _ _ _ _ _ b1 b2 b3 b4]
        rfl
      refine ⟨_, _, _, e1, ?_⟩
      have hflag2 : effective_sizehints hp
          (with_last_size c (size_axis MW c.basew c.incw c.minw c.maxw w)
            (size_axis MH c.baseh c.inch c.minh c.maxh h)) = some true := hflag
      rw [applysizehints_int32_no_aspect fa MW MH hp
        (with_last_size c (size_axis MW c.basew c.incw c.minw c.maxw w)
          (size_axis MH c.baseh c.inch c.minh c.maxh h)) t _ _ htag hasp hflag2]
      simp only [with_last_size]
      rw [size_axis_int32_eq _ _ _ _ _ _ c1 c2 c3 c4,
        size_axis_int32_eq _ _ _ _ _ _ d1 d2 d3 d4]
      simp [size_axis_idem _ _ _ _ _ _ h1, size_axis_idem _ _ _ _ _ _ h2]

/-- Witness of `applysizehints_idempotent`: the tiled client with base 4 by
4, minimum 10 by 10 and increments of 6, the request 100 by 100 and 32 as the
window minimum. -/
theorem applysizehints_idempotent_witness :
    ∃ r w1 h1,
      applysizehints_int32 example_aspect 32 32 example_heap snap_client 100 100
        = some (r, w1, h1) ∧
      applysizehints_int32 example_aspect 32 32 example_heap (with_last_size snap_client w1 h1)
        w1 h1 = some (false, w1, h1) :=
  applysizehints_idempotent example_aspect 32 32 example_heap snap_client 0 100 100 rfl
    (Or.inl rfl) (Or.inr (by decide))

/-- C10 as stated fails: with 32 as the window minimum, a tiled client with
the size hints on, no aspect hint, increments of 7 and a maximum of 50 by 50
gets 50 by 50 for the request 100 by 100, and 49 by 49, reported as changed,
when `applysizehints` is applied to 50 by 50 with `last_size` holding 50 by
50. It also fails without a maximum hint when the arithmetic overflows: with
the base size `INT_MIN`, increments of 7 and the minimum 101 the request 50 by
50 gives 101 by 101, and 101 by 101 gives 107 by 107. -/
theorem applysizehints_not_idempotent :
    (inc_max_client.mina = 0 ∨ inc_max_client.maxa = 0) ∧
    applysizehints_int32 example_aspect 32 32 example_heap inc_max_client 100 100
      = some (true, 50, 50) ∧
    applysizehints_int32 example_aspect 32 32 example_heap (with_last_size inc_max_client 50 50)
      50 50 = some (true, 49, 49) ∧
    (int_min_base_client.mina = 0 ∨ int_min_base_client.maxa = 0) ∧
    applysizehints_int32 example_aspect 32 32 example_heap int_min_base_client 50 50
      = some (true, 101, 101) ∧
    applysizehints_int32 example_aspect 32 32 example_heap
      (with_last_size int_min_base_client 101 101) 101 101 = some (true, 107, 107) := by
  refine ⟨Or.inl rfl, ?_, ?_, Or.inl rfl, ?_, ?_⟩ <;> decide

/-! ### C11, C12: applysizehints with the flag on and off -/

theorem size_axis_snap (m base inc mn x : Int) (hm : 1 ≤ m) (hinc : 0 < inc)
    (hx : max m base ≤ x) :
    size_axis m base inc mn 0 x = max mn (x - (x - base) % inc) := by
  have hf : size_floor m x = x := by rw [size_floor_eq_max]; omega
  have ht : (x - base).tmod inc = (x - base) % inc :=
    Int.tmod_eq_emod (by omega) (le_of_lt hinc)
  have hne : inc ≠ 0 := by omega
  simp only [size_axis, hf, ne_eq, hne, not_false_eq_true, ↓reduceIte, ht, not_true_eq_false]
  generalize (x - base) % inc = r
  omega

/-- C11 (as amended): for a client whose selected size-hints flag is on, with
no aspect hint, no maximum hint and increments `incw, inch > 0`, and a request
with `w >= max(WINDOW_MIN_WIDTH, basew)` and `h >= max(WINDOW_MIN_HEIGHT,
baseh)` (the window minimum being at least 1) that is at most `INT_MAX`, with
a base size that is at least `INT_MIN` and with `w - basew` and `h - baseh` at
most `INT_MAX`, `applysizehints` produces
`max(minw, w - ((w - basew) mod incw))` and
`max(minh, h - ((h - baseh) mod inch))`. -/
theorem applysizehints_snap (fa : AspectArith) (MW MH : Int) (hp : Heap) (c : HSClient)
    (t : TagPtr) (w h : Int)
    (htag : c.tag_ = some t) (hasp : c.mina = 0 ∨ c.maxa = 0)
    (hflag : effective_sizehints hp c = some true)
    (hmax : c.maxw = 0 ∧ c.maxh = 0) (hinc : 0 < c.incw ∧ 0 < c.inch)
    (hMW : 1 ≤ MW) (hMH : 1 ≤ MH)
    (hw : max MW c.basew ≤ w) (hh : max MH c.baseh ≤ h)
    (hrw : w ≤ INT_MAX ∧ INT_MIN ≤ c.basew ∧ w - c.basew ≤ INT_MAX)
    (hrh : h ≤ INT_MAX ∧ INT_MIN ≤ c.baseh ∧ h - c.baseh ≤ INT_MAX) :
    ∃ r, applysizehints_int32 fa MW MH hp c w h =
      some (r, max c.minw (w - (w - c.basew) % c.incw),
               max c.minh (h - (h - c.baseh) % c.inch)) := by
  have hfw : size_floor MW w = w := by rw [size_floor_eq_max]; omega
  have hfh : size_floor MH h = h := by rw [size_floor_eq_max]; omega
  have a : size_axis_int32 MW c.basew c.incw c.minw c.maxw w
      = some (size_axis MW c.basew c.incw c.minw c.maxw w) := by
    apply size_axis_int32_eq
    · exact hrw.1
    · have := hrw.1; omega
    · have := hrw.1; exact ⟨hrw.2.1, by omega⟩
    · rw [hfw]; exact hrw.2.2
  have b : size_axis_int32 MH c.baseh c.inch c.minh c.maxh h
      = some (size_axis MH c.baseh c.inch c.minh c.maxh h) := by
    apply size_axis_int32_eq
    · exact hrh.1
    · have := hrh.1; omega
    · have := hrh.1; exact ⟨hrh.2.1, by omega⟩
    · rw [hfh]; exact hrh.2.2
  rw [applysizehints_int32_no_aspect fa MW MH hp c t w h htag hasp hflag, a, b]
  simp only [hmax.1, hmax.2, size_axis_snap _ _ _ _ _ hMW hinc.1 hw,
    size_axis_snap _ _ _ _ _ hMH hinc.2 hh]
  exact ⟨_, rfl⟩

/-- Witness of `applysizehints_snap`: base 4 by 4, minimum 10 by 10 and the
request 100 by 100 give 100 by 100 for increments of 6 and 95 by 95 for
increments of 7 (with 32 as the window minimum). -/
theorem applysizehints_snap_witness :
    (∃ r, applysizehints_int32 example_aspect 32 32 example_heap snap_client 100 100
      = some (r, 100, 100)) ∧
    (∃ r, applysizehints_int32 example_aspect 32 32 example_heap snap7_client 100 100
      = some (r, 95, 95)) :=
  ⟨applysizehints_snap example_aspect 32 32 example_heap snap_client 0 100 100 rfl (Or.inl rfl)
      rfl (by decide) (by decide) (by decide) (by decide) (by decide) (by decide)
      (by decide) (by decide),
   applysizehints_snap example_aspect 32 32 example_heap snap7_client 0 100 100 rfl (Or.inl rfl)
      rfl (by decide) (by decide) (by decide) (by decide) (by decide) (by decide)
      (by decide) (by decide)⟩

/-- C11 as stated fails where `w - basew` exceeds `INT_MAX`: a tiled client
with the size hints on, no aspect hint, no maximum hint, increments of 7 and
the base size -1 by -1 gets the width 0 for the request `INT_MAX` by 100 (with
32 as the window minimum), where the formula of the claim gives 2147483645;
the height is 97 as the formula says. -/
theorem applysizehints_snap_overflow :
    effective_sizehints example_heap negative_base_client = some true ∧
    (negative_base_client.mina = 0 ∨ negative_base_client.maxa = 0) ∧
    (negative_base_client.maxw = 0 ∧ negative_base_client.maxh = 0) ∧
    (0 < negative_base_client.incw ∧ 0 < negative_base_client.inch) ∧
    max 32 negative_base_client.basew ≤ INT_MAX ∧ max 32 negative_base_client.baseh ≤ 100 ∧
    in_int INT_MAX ∧ in_int negative_base_client.basew ∧
    applysizehints_int32 example_aspect 32 32 example_heap negative_base_client INT_MAX 100
      = some (true, 0, 97) ∧
    max negative_base_client.minw (INT_MAX - (INT_MAX - negative_base_client.basew) %
      negative_base_client.incw) = 2147483645 ∧
    max negative_base_client.minh (100 - (100 - negative_base_client.baseh) %
      negative_base_client.inch) = 97 := by
  refine ⟨rfl, Or.inl rfl, ?_, ?_, ?_, ?_, ?_, ?_, ?_, ?_, ?_⟩ <;> decide

/-- C12: `applysizehints` reads `sizehints_floating` when the tag of the
client is floating or the client is pseudotile and `sizehints_tiling`
otherwise, so its result does not depend on the other flag; when the flag
read is off, the size produced is `(max(w, 1, WINDOW_MIN_WIDTH),
max(h, 1, WINDOW_MIN_HEIGHT))`, the same for every client with that tag whose
selected flag is off, whatever its base, minimum, maximum, increment and
aspect hints. -/
theorem applysizehints_flag (MW MH : Int) (hp : Heap) (c : HSClient) (t : TagPtr) (w h : Int)
    (htag : c.tag_ = some t) :
    (((hp.tags t).floating || c.pseudotile) = true → ∀ b,
      applysizehints MW MH hp { c with sizehints_tiling := b } w h =
        applysizehints MW MH hp c w h) ∧
    (((hp.tags t).floating || c.pseudotile) = false → ∀ b,
      applysizehints MW MH hp { c with sizehints_floating := b } w h =
        applysizehints MW MH hp c w h) ∧
    (effective_sizehints hp c =
      some (if (hp.tags t).floating || c.pseudotile then c.sizehints_floating
            else c.sizehints_tiling)) ∧
    (effective_sizehints hp c = some false →
      (∃ r, applysizehints MW MH hp c w h = some (r, max (max w 1) MW, max (max h 1) MH)) ∧
      ∀ c' : HSClient, c'.tag_ = some t → effective_sizehints hp c' = some false →
        (applysizehints MW MH hp c' w h).map (fun x => x.2) =
          (applysizehints MW MH hp c w h).map (fun x => x.2)) := by
  have hoff : ∀ d : HSClient, d.tag_ = some t → effective_sizehints hp d = some false →
      ∃ r, applysizehints MW MH hp d w h = some (r, max (max w 1) MW, max (max h 1) MH) := by
    intro d hd hoff
    simp only [effective_sizehints, is_client_floated, hd, Option.map_some',
      Option.some.injEq] at hoff
    have ew : (if max 1 w < MW then MW else max 1 w) = max (max w 1) MW := by
      split <;> omega
    have eh : (if max 1 h < MH then MH else max 1 h) = max (max h 1) MH := by
      split <;> omega
    refine ⟨decide (max (max w 1) MW ≠ d.last_size.width) ||
      decide (max (max h 1) MH ≠ d.last_size.height), ?_⟩
    unfold applysizehints
    simp only [is_client_floated, hd, Option.map_some', Option.bind_eq_bind, Option.some_bind,
      hoff, Bool.false_eq_true, ↓reduceIte, ew, eh]
  refine ⟨?_, ?_, ?_, ?_⟩
  · intro hsel b
    unfold applysizehints
    simp only [is_client_floated, htag, Option.map_some', Option.bind_eq_bind,
      Option.some_bind, hsel, ↓reduceIte]
  · intro hsel b
    unfold applysizehints
    simp only [is_client_floated, htag, Option.map_some', Option.bind_eq_bind,
      Option.some_bind, hsel, Bool.false_eq_true, ↓reduceIte]
  · simp [effective_sizehints, is_client_floated, htag]
  · intro hc
    refine ⟨hoff c htag hc, ?_⟩
    intro c' htag' hc'
    obtain ⟨r, hr⟩ := hoff c htag hc
    obtain ⟨r', hr'⟩ := hoff c' htag' hc'
    rw [hr, hr']
    rfl

/-- Witness of `applysizehints_flag`: a tiled client with `sizehints_tiling`
off and hints of every kind gets 32 by 500 for the request 10 by 500, with 32
as the window minimum. -/
theorem applysizehints_flag_witness :
    ∃ r, applysizehints 32 32 example_heap unhinted_client 10 500 = some (r, 32, 500) :=
  ((applysizehints_flag 32 32 example_heap unhinted_client 0 10 500 rfl).2.2.2 rfl).1



/-! ### C13: set_fullscreen and set_pseudotile called twice -/

@[simp]
theorem World.client_emit (w : World) (e : Event) (c : ClientPtr) :
    (w.emit e).client c = w.client c := rfl

@[simp]
theorem World.client_set_client (w : World) (c c' : ClientPtr) (v : HSClient) :
    (w.set_client c v).client c' = if c' = c then v else w.client c' := rfl

@[simp]
theorem World.client_set_stack (w : World) (sp : StackPtr) (st : Stack) (c : ClientPtr) :
    (w.set_stack sp st).client c = w.client c := rfl

theorem World.set_client_self (w : World) (c : ClientPtr) :
    w.set_client c (w.client c) = w := by
  have : (fun p => if p = c then w.client c else w.heap.clients p) = w.heap.clients := by
    funext p
    by_cases hp : p = c
    · subst hp; simp [World.client]
    · simp [hp]
  simp only [World.set_client, this]

/-- The function `set_fullscreen` as the sequence of its steps. -/
theorem set_fullscreen_steps (ext : Externals) (w : World) (c : ClientPtr) (b : Bool) :
    set_fullscreen ext w c b =
      if (w.client c).fullscreen = b then some w
      else
        ((fullscreen_assign w c b).client c).tag_.bind (fun t =>
          ((fullscreen_assign w c b).client c).slice.bind (fun s =>
            (fullscreen_layer (fullscreen_assign w c b)
              ((fullscreen_assign w c b).heap.tags t).stack s b).bind (fun r =>
                some (fullscreen_publish ext
                  ({ fullscreen_assign w c b with heap := r.1 }.set_stack
                    ((fullscreen_assign w c b).heap.tags t).stack r.2) c b)))) := by
  unfold set_fullscreen
  split <;> rfl

theorem fullscreen_layer_clients (w : World) (stack : StackPtr) (slice : SlicePtr)
    (b : Bool) (r : Heap × Stack) (h : fullscreen_layer w stack slice b = some r) :
    r.1.clients = w.heap.clients ∧ r.1.tags = w.heap.tags ∧ r.1.monitors = w.heap.monitors ∧
    r.1.tagstacks = w.heap.tagstacks := by
  unfold fullscreen_layer at h
  cases b
  · simp only [Bool.false_eq_true, ↓reduceIte] at h
    unfold slice_remove_layer at h
    simp only [Option.bind_eq_bind, Option.bind_eq_some] at h
    obtain ⟨v, -, hv⟩ := h
    split at hv <;> cases hv <;> exact ⟨rfl, rfl, rfl, rfl⟩
  · simp only [↓reduceIte, Option.some.injEq] at h
    subst h
    unfold slice_add_layer
    split <;> exact ⟨rfl, rfl, rfl, rfl⟩

/-- The client has the flag `state` when `set_fullscreen(state)` returns, if
the focus-layer update and the layout pass keep the flag. -/
theorem set_fullscreen_flag (ext : Externals) (w w1 : World) (c : ClientPtr) (b : Bool)
    (hfocus : ∀ t w', ((ext.tag_update_focus_layer t w').client c).fullscreen =
      (w'.client c).fullscreen)
    (hlayout : ∀ m w', ((ext.monitor_apply_layout m w').client c).fullscreen =
      (w'.client c).fullscreen)
    (h1 : set_fullscreen ext w c b = some w1) : (w1.client c).fullscreen = b := by
  rw [set_fullscreen_steps] at h1
  by_cases hb : (w.client c).fullscreen = b
  · rw [if_pos hb] at h1
    cases h1
    exact hb
  · rw [if_neg hb] at h1
    simp only [Option.bind_eq_some] at h1
    obtain ⟨t, -, s, -, r, hr, hw1⟩ := h1
    have h2 := (fullscreen_layer_clients _ _ _ _ _ hr).1
    cases hw1
    simp only [fullscreen_publish, World.client_emit, hlayout, hfocus]
    simp [World.client, World.set_stack, h2, fullscreen_assign, World.set_client]


theorem HSClient.with_pseudotile_self (x : HSClient) (b : Bool) (hx : x.pseudotile = b) :
    { x with pseudotile := b } = x := by
  subst hx
  rfl

/-- C13: `set_fullscreen(b)` on a client whose `fullscreen` flag is `b`
already returns the world as it was: no client field, no stack and no slice
changes and nothing is sent. Hence, when the focus-layer update and the
layout pass keep the flag, `set_fullscreen(b)` called twice leaves the world,
trace included, that the first call leaves. `set_pseudotile(b)` called twice
leaves the client as one call does, when the layout pass keeps `pseudotile`
and `tag_`, does not change which monitor shows a tag, and changes no client
when run a second time. -/
theorem set_property_twice (ext : Externals) (w : World) (c : ClientPtr) (b : Bool)
    (hfocus : ∀ t w', ((ext.tag_update_focus_layer t w').client c).fullscreen =
      (w'.client c).fullscreen)
    (hlayout : ∀ m w', ((ext.monitor_apply_layout m w').client c).fullscreen =
      (w'.client c).fullscreen)
    (hpseudo : ∀ m w', ((ext.monitor_apply_layout m w').client c).pseudotile =
      (w'.client c).pseudotile)
    (htag : ∀ m w', ((ext.monitor_apply_layout m w').client c).tag_ = (w'.client c).tag_)
    (hfind : ∀ m w' t, ext.find_monitor_with_tag (ext.monitor_apply_layout m w') t =
      ext.find_monitor_with_tag w' t)
    (hidem : ∀ m w', (ext.monitor_apply_layout m (ext.monitor_apply_layout m w')).client c =
      (ext.monitor_apply_layout m w').client c) :
    ((w.client c).fullscreen = b → set_fullscreen ext w c b = some w) ∧
    ((set_fullscreen ext w c b).bind (fun w1 => set_fullscreen ext w1 c b) =
      set_fullscreen ext w c b) ∧
    ((set_pseudotile ext (set_pseudotile ext w c b) c b).client c =
      (set_pseudotile ext w c b).client c) := by
  refine ⟨?_, ?_, ?_⟩
  · intro hb
    rw [set_fullscreen_steps, if_pos hb]
  · cases h1 : set_fullscreen ext w c b with
    | none => rfl
    | some w1 =>
      have hb := set_fullscreen_flag ext w w1 c b hfocus hlayout h1
      rw [Option.some_bind, set_fullscreen_steps, if_pos hb]
  · have hp : ((set_pseudotile ext w c b).client c).pseudotile = b := by
      simp [set_pseudotile, hpseudo]
    have e1 : (set_pseudotile ext w c b).set_client c
        { (set_pseudotile ext w c b).client c with pseudotile := b } =
        set_pseudotile ext w c b := by
      rw [HSClient.with_pseudotile_self _ _ hp, World.set_client_self]
    have e2 : set_pseudotile ext (set_pseudotile ext w c b) c b =
        ext.monitor_apply_layout
          (ext.find_monitor_with_tag (set_pseudotile ext w c b)
            ((set_pseudotile ext w c b).client c).tag_) (set_pseudotile ext w c b) := by
      generalize set_pseudotile ext w c b = W2 at e1
      show ext.monitor_apply_layout (ext.find_monitor_with_tag
        (W2.set_client c { W2.client c with pseudotile := b })
        ((W2.set_client c { W2.client c with pseudotile := b }).client c).tag_)
        (W2.set_client c { W2.client c with pseudotile := b }) = _
      rw [e1]
    rw [e2]
    simp only [set_pseudotile, htag, hfind, hidem]

/-- Witness of `set_property_twice`: client 4 of the example world, with a
focus-layer update and a layout pass that change nothing. -/
theorem set_property_twice_witness :
    ((example_world.client 4).fullscreen = true →
      set_fullscreen example_ext example_world 4 true = some example_world) ∧
    ((set_fullscreen example_ext example_world 4 true).bind
        (fun w1 => set_fullscreen example_ext w1 4 true) =
      set_fullscreen example_ext example_world 4 true) ∧
    ((set_pseudotile example_ext (set_pseudotile example_ext example_world 4 true) 4 true).client 4
      = (set_pseudotile example_ext example_world 4 true).client 4) :=
  set_property_twice example_ext example_world 4 true (fun _ _ => rfl) (fun _ _ => rfl)
    (fun _ _ => rfl) (fun _ _ => rfl) (fun _ _ _ => rfl) (fun _ _ => rfl)

/-! ### C14: set_fullscreen and invariant I6 -/

theorem length_filter_ne_add_count (v : List SlicePtr) (x : SlicePtr) :
    (v.filter (fun y => y ≠ x)).length + v.count x = v.length := by
  induction v with
  | nil => simp
  | cons a v ih =>
    by_cases ha : a = x
    · subst ha
      simp only [ne_eq, decide_not, decide_True, Bool.not_true, Bool.false_eq_true,
        not_false_eq_true, List.filter_cons_of_neg, List.count_cons_self, List.length_cons]
      simp only [ne_eq, decide_not] at ih
      omega
    · simp only [ne_eq, decide_not, ha, decide_False, Bool.not_false, List.filter_cons_of_pos,
        List.length_cons]
      rw [List.count_cons_of_ne (Ne.symm ha)]
      simp only [ne_eq, decide_not] at ih
      omega

theorem erase_remove_of_count_one (v : List SlicePtr) (x : SlicePtr) (hc : v.count x = 1) :
    erase_remove v x = some (v.filter (fun y => y ≠ x)) := by
  have hl := length_filter_ne_add_count v x
  unfold erase_remove
  have hne : ¬ (v.filter (fun y => y ≠ x)).length = v.length := by omega
  have hd : v.drop ((v.filter (fun y => y ≠ x)).length + 1) = [] :=
    List.drop_eq_nil_iff.mpr (by omega)
  simp only [hne, ↓reduceIte, hd, List.append_nil]

theorem fullscreen_view_emit (w : World) (e : Event) (c : ClientPtr) :
    fullscreen_view (w.emit e) c = fullscreen_view w c := rfl

theorem fullscreen_view_publish (ext : Externals) (w : World) (c : ClientPtr) (b : Bool)
    (hfocus : ∀ t w', fullscreen_view (ext.tag_update_focus_layer t w') c = fullscreen_view w' c)
    (hlayout : ∀ m w', fullscreen_view (ext.monitor_apply_layout m w') c = fullscreen_view w' c) :
    fullscreen_view (fullscreen_publish ext w c b) c = fullscreen_view w c := by
  simp only [fullscreen_publish, fullscreen_view_emit, hlayout, hfocus]


theorem fullscreen_view_some (w : World) (c : ClientPtr) (v : FullscreenView)
    (h : fullscreen_view w c = some v) :
    ∃ t, (w.client c).tag_ = some t ∧ (w.client c).slice = some v.slice ∧
      v.fullscreen = (w.client c).fullscreen ∧
      v.sequence = (w.heap.tagstacks (w.heap.tags t).stack).fullscreen ∧
      v.member = (w.heap.slices v.slice).layers.fullscreen := by
  unfold fullscreen_view at h
  simp only [Option.bind_eq_bind, Option.bind_eq_some, Option.some.injEq] at h
  obtain ⟨t, ht, s, hs, rfl⟩ := h
  exact ⟨t, ht, hs, rfl, rfl, rfl⟩

/-- The step of `set_fullscreen` that changes the state, seen through the
view: the flag and the membership become `b`, and the slice is put in front
of the Fullscreen sequence or taken out of it. -/
theorem set_fullscreen_change (ext : Externals) (w : World) (c : ClientPtr) (b : Bool)
    (v : FullscreenView)
    (hfocus : ∀ t w', fullscreen_view (ext.tag_update_focus_layer t w') c = fullscreen_view w' c)
    (hlayout : ∀ m w', fullscreen_view (ext.monitor_apply_layout m w') c = fullscreen_view w' c)
    (hview : fullscreen_view w c = some v) (hI : I6 v) (hb : v.fullscreen ≠ b) :
    ∃ w', set_fullscreen ext w c b = some w' ∧
      fullscreen_view w' c = some
        { fullscreen := b
          sequence := if b then v.slice :: v.sequence
            else v.sequence.filter (fun y => y ≠ v.slice)
          member := b
          slice := v.slice } := by
  obtain ⟨t, ht, hs, hf, hseq, hmem⟩ := fullscreen_view_some w c v hview
  obtain ⟨hcount, hfs, hms⟩ := hI
  have hb' : ¬ (w.client c).fullscreen = b := by rw [← hf]; exact hb
  have ht' : (w.heap.clients c).tag_ = some t := ht
  have hs' : (w.heap.clients c).slice = some v.slice := hs
  have ht1 : ((fullscreen_assign w c b).client c).tag_ = some t := by
    simp [fullscreen_assign, ht]
  have hs1 : ((fullscreen_assign w c b).client c).slice = some v.slice := by
    simp [fullscreen_assign, hs]
  rw [set_fullscreen_steps, if_neg hb', ht1, hs1]
  simp only [Option.some_bind]
  cases b
  · -- leaving fullscreen: the slice occurs exactly once and is a member
    have hvf : v.fullscreen = true := by
      cases hv : v.fullscreen
      · exact absurd hv hb
      · rfl
    have hin : v.slice ∈ v.sequence := hfs.mp hvf
    have hc1 : v.sequence.count v.slice = 1 := by
      have := List.count_pos_iff.mpr hin
      omega
    have hmt : v.member = true := hms.mp hin
    have her := erase_remove_of_count_one _ _ hc1
    rw [hseq] at her
    rw [hmem] at hmt
    have hl : fullscreen_layer (fullscreen_assign w c false)
        ((fullscreen_assign w c false).heap.tags t).stack v.slice false =
        some ((fullscreen_assign w c false).heap.set_layers v.slice
            (((fullscreen_assign w c false).heap.slices v.slice).layers.erase .LAYER_FULLSCREEN),
          { ((fullscreen_assign w c false).heap.tagstacks
              ((fullscreen_assign w c false).heap.tags t).stack).setTop .LAYER_FULLSCREEN
              ((w.heap.tagstacks (w.heap.tags t).stack).fullscreen.filter
                (fun y => y ≠ v.slice)) with dirty := true }) := by
      simp only [fullscreen_layer, Bool.false_eq_true, ↓reduceIte, slice_remove_layer]
      have e1 : ((fullscreen_assign w c false).heap.tagstacks
          ((fullscreen_assign w c false).heap.tags t).stack).top .LAYER_FULLSCREEN =
          (w.heap.tagstacks (w.heap.tags t).stack).fullscreen := rfl
      have e2 : ((fullscreen_assign w c false).heap.slices v.slice).layers.count
          .LAYER_FULLSCREEN = true := hmt
      rw [e1, her]
      simp only [Option.bind_eq_bind, Option.some_bind, e2, Bool.not_true, Bool.false_eq_true,
        ↓reduceIte]
    rw [hl]
    refine ⟨_, rfl, ?_⟩
    rw [fullscreen_view_publish ext _ c false hfocus hlayout]
    simp [fullscreen_view, World.set_stack, World.client, fullscreen_assign, World.set_client,
      ht', hs', Heap.set_layers, Stack.setTop, LayerSet.erase, hseq]
  · -- entering fullscreen: the slice is neither in the sequence nor a member
    have hvf : v.fullscreen = false := by
      cases hv : v.fullscreen
      · rfl
      · exact absurd hv hb
    have hnin : v.slice ∉ v.sequence := fun hin => by
      have := hfs.mpr hin
      rw [hvf] at this
      exact Bool.false_ne_true this
    have hmf : v.member = false := by
      cases hm : v.member
      · rfl
      · exact absurd (hms.mpr hm) hnin
    rw [hmem] at hmf
    have hl : fullscreen_layer (fullscreen_assign w c true)
        ((fullscreen_assign w c true).heap.tags t).stack v.slice true =
        some ((fullscreen_assign w c true).heap.set_layers v.slice
            (((fullscreen_assign w c true).heap.slices v.slice).layers.insert .LAYER_FULLSCREEN),
          { ((fullscreen_assign w c true).heap.tagstacks
              ((fullscreen_assign w c true).heap.tags t).stack).setTop .LAYER_FULLSCREEN
              (v.slice :: (w.heap.tagstacks (w.heap.tags t).stack).fullscreen)
            with dirty := true }) := by
      have e2 : ((fullscreen_assign w c true).heap.slices v.slice).layers.count
          .LAYER_FULLSCREEN = false := hmf
      simp only [fullscreen_layer, ↓reduceIte, slice_add_layer, e2, Bool.false_eq_true]
      rfl
    rw [hl]
    refine ⟨_, rfl, ?_⟩
    rw [fullscreen_view_publish ext _ c true hfocus hlayout]
    simp [fullscreen_view, World.set_stack, World.client, fullscreen_assign, World.set_client,
      ht', hs', Heap.set_layers, Stack.setTop, LayerSet.insert, hseq]


/-- C14 (as amended): let the focus-layer update and the layout pass leave
alone what I6 reads (the flag, the slice and the tag of the client, the
Fullscreen sequence of the stack of the tag, the Fullscreen membership of the
slice). If I6 holds of a client with a tag and a slice, then
`set_fullscreen(b)` returns, afterwards `fullscreen = b` and I6 holds again,
the slice is absent from the Fullscreen sequence when `b` is false, it has
been put in front of the sequence when `b` is true and the client was not
fullscreen, and the sequence is unchanged when the client had `fullscreen = b`
already. -/
theorem set_fullscreen_I6 (ext : Externals) (w : World) (c : ClientPtr) (b : Bool)
    (v : FullscreenView)
    (hfocus : ∀ t w', fullscreen_view (ext.tag_update_focus_layer t w') c = fullscreen_view w' c)
    (hlayout : ∀ m w', fullscreen_view (ext.monitor_apply_layout m w') c = fullscreen_view w' c)
    (hview : fullscreen_view w c = some v) (hI : I6 v) :
    ∃ w' v', set_fullscreen ext w c b = some w' ∧ fullscreen_view w' c = some v' ∧
      v'.fullscreen = b ∧ I6 v' ∧ v'.slice = v.slice ∧
      (b = false → v.slice ∉ v'.sequence) ∧
      (b = true → v.fullscreen = false → v'.sequence = v.slice :: v.sequence) ∧
      (v.fullscreen = b → v'.sequence = v.sequence) := by
  by_cases hb : v.fullscreen = b
  · obtain ⟨t, -, -, hf, -, -⟩ := fullscreen_view_some w c v hview
    have hb' : (w.client c).fullscreen = b := by rw [← hf]; exact hb
    refine ⟨w, v, ?_, hview, hb, hI, rfl, ?_, ?_, fun _ => rfl⟩
    · rw [set_fullscreen_steps, if_pos hb']
    · intro hbf hin
      have := hI.2.1.mpr hin
      rw [hb, hbf] at this
      exact Bool.false_ne_true this
    · intro hbt hvf
      rw [hb, hbt] at hvf
      exact absurd hvf (by decide)
  · obtain ⟨w', hw', hv'⟩ := set_fullscreen_change ext w c b v hfocus hlayout hview hI hb
    refine ⟨w', _, hw', hv', rfl, ?_, rfl, ?_, ?_, fun h => absurd h hb⟩
    · cases b
      · have hnot : v.slice ∉ v.sequence.filter (fun y => y ≠ v.slice) := by
          simp [List.mem_filter]
        refine ⟨?_, ?_, ?_⟩
        · simp only [Bool.false_eq_true, ↓reduceIte]
          rw [List.count_eq_zero.mpr hnot]
          omega
        · simp only [Bool.false_eq_true, ↓reduceIte, false_iff]
          exact hnot
        · simp only [Bool.false_eq_true, ↓reduceIte, iff_false]
          exact hnot
      · have hvf : v.fullscreen = false := by
          cases hv : v.fullscreen
          · rfl
          · exact absurd hv hb
        have hnin : v.slice ∉ v.sequence := fun hin => by
          have := hI.2.1.mpr hin
          rw [hvf] at this
          exact Bool.false_ne_true this
        refine ⟨?_, ?_, ?_⟩
        · simp only [↓reduceIte, List.count_cons_self, List.count_eq_zero.mpr hnin]
          omega
        · simp
        · simp
    · intro hbf
      subst hbf
      simp [List.mem_filter]
    · intro hbt _
      subst hbt
      rfl

/-- Witness of `set_fullscreen_I6`: client 4 of the example world enters
fullscreen. -/
theorem set_fullscreen_I6_witness :
    ∃ w' v', set_fullscreen example_ext example_world 4 true = some w' ∧
      fullscreen_view w' 4 = some v' ∧ v'.fullscreen = true ∧ I6 v' ∧ v'.slice = 4 ∧
      (true = false → (4 : SlicePtr) ∉ v'.sequence) ∧
      (true = true → false = false → v'.sequence = 4 :: [9, 1]) ∧
      (false = true → v'.sequence = [9, 1]) :=
  set_fullscreen_I6 example_ext example_world 4 true
    { fullscreen := false, sequence := [9, 1], member := false, slice := 4 }
    (fun _ _ => rfl) (fun _ _ => rfl) (by decide) (by decide)

/-- C14 as stated fails: client 1 of the example world is fullscreen, its
slice 1 is the second of the Fullscreen sequence `[9, 1]` and I6 holds;
`set_fullscreen(true)` returns at once, and slice 1 is not at the front of the
sequence afterwards. -/
theorem set_fullscreen_not_at_front :
    fullscreen_view example_world 1 =
      some { fullscreen := true, sequence := [9, 1], member := true, slice := 1 } ∧
    I6 { fullscreen := true, sequence := [9, 1], member := true, slice := 1 } ∧
    (set_fullscreen example_ext example_world 1 true).bind (fun w => fullscreen_view w 1) =
      some { fullscreen := true, sequence := [9, 1], member := true, slice := 1 } ∧
    ([9, 1] : List SlicePtr).head? ≠ some 1 := by
  decide

/-! ### C15: client_set_property_command with an unknown property -/

/-- C15 (as amended): for an argument vector whose property name `argv[0]`
is neither "fullscreen" nor "pseudotile", `client_set_property_command`
changes nothing and returns the invalid-argument code when a client is
focused, and 0 when no client is focused. -/
theorem client_set_property_command_unknown (ext : Externals) (w : World) (name : String)
    (args : List String) (h1 : name ≠ "fullscreen") (h2 : name ≠ "pseudotile") :
    client_set_property_command ext w (name :: args) =
      some (if (get_current_client w).isSome then ext.HERBST_INVALID_ARGUMENT else 0, w) := by
  unfold client_set_property_command
  cases hc : get_current_client w with
  | none => simp
  | some c => simp [h1, h2]

/-- Witness of `client_set_property_command_unknown`: the property "bogus"
with client 4 focused. -/
theorem client_set_property_command_unknown_witness :
    client_set_property_command example_ext example_world ["bogus", "on"] =
      some (if (get_current_client example_world).isSome
        then example_ext.HERBST_INVALID_ARGUMENT else 0, example_world) :=
  client_set_property_command_unknown example_ext example_world "bogus" ["on"]
    (by decide) (by decide)

/-- C15 as stated fails: with no client focused the property "bogus" gets
the result 0, which is not the invalid-argument code. -/
theorem client_set_property_command_no_client :
    get_current_client { example_world with current_client := none } = none ∧
    (client_set_property_command example_ext { example_world with current_client := none }
      ["bogus", "on"]).map (fun r => r.1) = some 0 ∧
    example_ext.HERBST_INVALID_ARGUMENT ≠ 0 := by
  decide

/-! ### C16: close_command -/

theorem get_client_from_window_isSome (w : World) (win : Window)
    (h : win ∈ w.g_clients.map (fun kv => kv.1)) :
    (get_client_from_window w win).isSome = true := by
  unfold get_client_from_window
  obtain ⟨kv, hkv, hk⟩ := List.mem_map.mp h
  have hf : (w.g_clients.find? (fun kv => kv.1 = win)).isSome = true :=
    List.find?_isSome.mpr ⟨kv, hkv, by simp [hk]⟩
  cases hfind : w.g_clients.find? (fun kv => kv.1 = win) with
  | none => rw [hfind] at hf; exact absurd hf (by decide)
  | some x => rfl

/-- C17: for a window id that is a key of the client table, or that is one
of the windows of the manager itself, `manage_client` returns null and leaves
the world as it was: no client, stack, tag or monitor changes and nothing is
sent. -/
theorem manage_client_not_managed (ext : Externals) (w : World) (win : Window)
    (h : win ∈ w.g_clients.map (fun kv => kv.1) ∨ ext.is_herbstluft_window w win = true) :
    manage_client ext w win = some (none, w) := by
  unfold manage_client manage_client_adopt
  by_cases hown : ext.is_herbstluft_window w win = true
  · simp [hown]
  · rcases h with h | h
    · have := get_client_from_window_isSome w win h
      simp [hown, this]
    · exact absurd h hown

/-- Witness of `manage_client_not_managed`: the window 104 of the managed
client 4. -/
theorem manage_client_not_managed_witness :
    manage_client example_ext example_world 104 = some (none, example_world) :=
  manage_client_not_managed example_ext example_world 104 (Or.inl (by decide))


theorem update_title_frame (ext : Externals) (w : World) (c c' : ClientPtr) :
    ((update_title ext w c).client c').tag_ = (w.client c').tag_ ∧
    (update_title ext w c).heap.monitors = w.heap.monitors ∧
    (update_title ext w c).current_monitor = w.current_monitor := by
  unfold update_title
  simp only
  split
  · refine ⟨?_, rfl, rfl⟩
    simp only [World.client_emit, World.client_set_client]
    split
    · rename_i h; subst h; rfl
    · rfl
  · refine ⟨?_, rfl, rfl⟩
    simp only [World.client_set_client]
    split
    · rename_i h; subst h; rfl
    · rfl

theorem adopt_init_frame (ext : Externals) (w : World) (win : Window) :
    ((adopt_init ext w win).client (ext.new_client w)).tag_ = none ∧
    (adopt_init ext w win).heap.monitors = w.heap.monitors ∧
    (adopt_init ext w win).current_monitor = w.current_monitor := by
  unfold adopt_init
  simp only [World.client_set_client, ↓reduceIte]
  refine ⟨?_, ?_, ?_⟩
  · rw [(update_title_frame ext _ _ _).1]
    simp
  · show (update_title ext _ _).heap.monitors = _
    rw [(update_title_frame ext _ _ 0).2.1]
    rfl
  · show (update_title ext _ _).current_monitor = _
    rw [(update_title_frame ext _ _ 0).2.2]
    rfl

/-- The tag of the client after the rules have been looked at. -/
theorem adopt_choose_tag_tag (ext : Externals) (w : World) (c : ClientPtr)
    (ch : HSClientChanges)
    (hset : ∀ mon t w1, ((ext.monitor_set_tag mon t w1).client c).tag_ = (w1.client c).tag_)
    (hnone : (w.client c).tag_ = none) :
    ((adopt_choose_tag ext w c ch).client c).tag_ =
      (match ch.tag_name.bind ext.find_tag with
        | some t => some t
        | none => (ch.monitor_name.bind ext.string_to_monitor).map
            (fun monitor => (w.heap.monitors monitor).tag)) ∧
    (((adopt_choose_tag ext w c ch).client c).tag_ = none →
      (adopt_choose_tag ext w c ch).heap.monitors = w.heap.monitors ∧
      (adopt_choose_tag ext w c ch).current_monitor = w.current_monitor) := by
  unfold adopt_choose_tag
  cases htn : ch.tag_name with
  | none =>
    simp only [Option.none_bind]
    cases hmn : ch.monitor_name with
    | none => simp [hnone]
    | some mname =>
      simp only [Option.some_bind]
      cases hm : ext.string_to_monitor mname with
      | none => simp [hnone]
      | some mon => simp [hnone, setTag]
  | some tname =>
    simp only [Option.some_bind]
    cases hft : ext.find_tag tname with
    | none =>
      have h0 : ((setTag w c none).client c).tag_ = none := by simp [setTag]
      cases hmn : ch.monitor_name with
      | none => simp [setTag]; exact ⟨rfl, rfl⟩
      | some mname =>
        simp only [Option.some_bind]
        cases hm : ext.string_to_monitor mname with
        | none => simp [setTag]; exact ⟨rfl, rfl⟩
        | some mon =>
          simp only [h0, ↓reduceIte, Option.map_some']
          simp only [setTag, World.client_set_client, ↓reduceIte]
          exact ⟨rfl, fun h => by simp at h⟩
    | some t =>
      have h0 : ((setTag w c (some t)).client c).tag_ = some t := by simp [setTag]
      cases hmn : ch.monitor_name with
      | none => simp [setTag]
      | some mname =>
        simp only
        cases hm : ext.string_to_monitor mname with
        | none => simp [setTag]
        | some mon =>
          simp only [h0]
          by_cases hsw : ch.switchtag = true
          · simp [hsw, hset, h0]
          · simp [hsw, h0]


theorem fuzzy_fix_initial_position_tag (ext : Externals) (w : World) (c : ClientPtr) :
    ((fuzzy_fix_initial_position ext w c).client c).tag_ = (w.client c).tag_ ∧
    (fuzzy_fix_initial_position ext w c).heap.monitors = w.heap.monitors := by
  refine ⟨?_, rfl⟩
  simp [fuzzy_fix_initial_position]

theorem adopt_register_frame (ext : Externals) (w : World) (win : Window) (c : ClientPtr) :
    ((adopt_register ext w win c).client c).tag_ = (w.client c).tag_ ∧
    (adopt_register ext w win c).heap.monitors = w.heap.monitors ∧
    (win, c) ∈ (adopt_register ext w win c).g_clients := by
  refine ⟨?_, rfl, ?_⟩
  · have := (fuzzy_fix_initial_position_tag ext
      ((w.emit (.decoration_setup_frame c)).set_client c
        { w.client c with decwin := ext.decoration_setup_frame_decwin w c }) c).1
    simp only [World.client_set_client, ↓reduceIte] at this
    rw [← this]
    simp only [adopt_register, World.client_emit, World.client_set_client, ↓reduceIte]
    rfl
  · exact List.mem_cons_self _ _

theorem adopt_default_tag_frame (w : World) (c : ClientPtr) (m : MonitorPtr) :
    ((adopt_default_tag w c m).client c).tag_ =
      some ((w.client c).tag_.getD (w.heap.monitors m).tag) ∧
    (adopt_default_tag w c m).g_clients = w.g_clients := by
  unfold adopt_default_tag
  cases h : (w.client c).tag_ with
  | none => simp [setTag]; rfl
  | some t => simp [h]

theorem adopt_slice_frame (ext : Externals) (w : World) (c : ClientPtr) :
    ((adopt_slice ext w c).client c).tag_ = (w.client c).tag_ ∧
    ((adopt_slice ext w c).client c).slice = some (ext.new_slice w) ∧
    ((adopt_slice ext w c).heap.slices (ext.new_slice w)).layers = ⟨false, false, true, false⟩ ∧
    (adopt_slice ext w c).g_clients = w.g_clients := by
  refine ⟨?_, ?_, ?_, rfl⟩
  · simp only [adopt_slice, World.client_set_client, ↓reduceIte]
  · simp only [adopt_slice, World.client_set_client, ↓reduceIte]
  · simp [adopt_slice, World.set_client, World.set_slice]

theorem insert_slice_normal (h : Heap) (st : Stack) (s : SlicePtr)
    (hl : (h.slices s).layers = ⟨false, false, true, false⟩) :
    (insert_slice h st s).normal = s :: st.normal := by
  simp [insert_slice, hl, LayerSet.toList, Stack.setTop, Stack.top]

/-- The last step of the adoption: the client keeps the tag it has, or gets
the tag of the monitor `m`; it is entered in the client table and its new
slice is the first of the Normal sequence of the stack of its tag. -/
theorem adopt_insert_spec (ext : Externals) (w : World) (win : Window) (c : ClientPtr)
    (ch : HSClientChanges) (m : MonitorPtr) :
    ∃ w1, adopt_insert ext w win c ch m = some (.adopted c ch m w1) ∧
      (w1.client c).tag_ = some ((w.client c).tag_.getD (w.heap.monitors m).tag) ∧
      (win, c) ∈ w1.g_clients ∧
      ∃ s, (w1.client c).slice = some s ∧
        (w1.heap.tagstacks (w1.heap.tags ((w.client c).tag_.getD (w.heap.monitors m).tag)).stack).normal.head? = some s := by
  obtain ⟨hr1, hr2, hr3⟩ := adopt_register_frame ext w win c
  obtain ⟨hd1, hd2⟩ := adopt_default_tag_frame (adopt_register ext w win c) c m
  obtain ⟨hs1, hs2, hs3, hs4⟩ := adopt_slice_frame ext
    (adopt_default_tag (adopt_register ext w win c) c m) c
  rw [hr1, hr2] at hd1
  rw [hd1] at hs1
  rw [hd2] at hs4
  unfold adopt_insert
  dsimp only
  generalize adopt_default_tag (adopt_register ext w win c) c m = wd at hs1 hs2 hs3 hs4 ⊢
  generalize adopt_slice ext wd c = wl at hs1 hs2 hs3 hs4 ⊢
  generalize (w.client c).tag_.getD (w.heap.monitors m).tag = t at hs1 ⊢
  simp only [hs1, Option.map_some']
  refine ⟨_, rfl, hs1, ?_, ext.new_slice wd, hs2, ?_⟩
  · show (win, c) ∈ wl.g_clients
    rw [hs4]
    exact hr3
  · show ((wl.set_stack (wl.heap.tags t).stack _).heap.tagstacks (wl.heap.tags t).stack).normal.head?
      = _
    simp only [World.set_stack, ↓reduceIte]
    rw [insert_slice_normal _ _ _ hs3]
    rfl

/-- The tag of a client that has the tag chosen by `adopt_choose_tag`, or
else the tag of the monitor `m`, is the tag named by `adoption_tag`. -/
theorem adoption_tag_eq (ext : Externals) (w wi wc : World) (ch : HSClientChanges)
    (tg : Option TagPtr)
    (hi2 : wi.heap.monitors = w.heap.monitors)
    (hc1 : tg = (match ch.tag_name.bind ext.find_tag with
        | some t => some t
        | none => (ch.monitor_name.bind ext.string_to_monitor).map
            (fun monitor => (wi.heap.monitors monitor).tag)))
    (hc2 : tg = none → wc.heap.monitors = wi.heap.monitors) :
    tg.getD (wc.heap.monitors w.current_monitor).tag = adoption_tag ext w ch := by
  unfold adoption_tag
  cases h1 : ch.tag_name.bind ext.find_tag with
  | some t => rw [h1] at hc1; simp [hc1]
  | none =>
    rw [h1] at hc1
    cases h2 : ch.monitor_name.bind ext.string_to_monitor with
    | some mon => rw [h2] at hc1; simp [hc1, hi2]
    | none =>
      rw [h2] at hc1
      simp only [Option.map_none'] at hc1
      rw [hc2 hc1, hi2]
      simp [hc1]

/-- The state at line 299 of `manage_client` for a window that is managed:
the client has the tag named by `adoption_tag`, it is entered in the client
table under its window, and its new slice is at the front of the Normal
sequence of the stack of that tag. -/
theorem manage_client_adopt_spec (ext : Externals) (w : World) (win : Window)
    (hown : ext.is_herbstluft_window w win = false)
    (hnew : get_client_from_window w win = none)
    (hmanage : (ext.rules_apply (adopt_init ext w win) (ext.new_client w)).manage = true)
    (hset : ∀ mon t w1,
      ((ext.monitor_set_tag mon t w1).client (ext.new_client w)).tag_ =
        (w1.client (ext.new_client w)).tag_) :
    ∃ w1, manage_client_adopt ext w win =
        some (.adopted (ext.new_client w)
          (ext.rules_apply (adopt_init ext w win) (ext.new_client w)) w.current_monitor w1) ∧
      (w1.client (ext.new_client w)).tag_ = some (adoption_tag ext w
        (ext.rules_apply (adopt_init ext w win) (ext.new_client w))) ∧
      (win, ext.new_client w) ∈ w1.g_clients ∧
      ∃ s, (w1.client (ext.new_client w)).slice = some s ∧
        (w1.heap.tagstacks (w1.heap.tags (adoption_tag ext w
          (ext.rules_apply (adopt_init ext w win) (ext.new_client w)))).stack).normal.head?
          = some s := by
  obtain ⟨hi1, hi2, hi3⟩ := adopt_init_frame ext w win
  obtain ⟨hc1, hc2⟩ := adopt_choose_tag_tag ext (adopt_init ext w win) (ext.new_client w)
    (ext.rules_apply (adopt_init ext w win) (ext.new_client w)) hset hi1
  have hadopt : manage_client_adopt ext w win =
      adopt_insert ext
        ((adopt_choose_tag ext (adopt_init ext w win) (ext.new_client w)
            (ext.rules_apply (adopt_init ext w win) (ext.new_client w))).set_client
          (ext.new_client w)
          { (adopt_choose_tag ext (adopt_init ext w win) (ext.new_client w)
              (ext.rules_apply (adopt_init ext w win) (ext.new_client w))).client
              (ext.new_client w) with
            keymask := (ext.rules_apply (adopt_init ext w win) (ext.new_client w)).keymask })
        win (ext.new_client w)
        (ext.rules_apply (adopt_init ext w win) (ext.new_client w)) w.current_monitor := by
    unfold manage_client_adopt
    simp [hown, hnew, hmanage]
  generalize ext.rules_apply (adopt_init ext w win) (ext.new_client w) = ch at *
  generalize adopt_choose_tag ext (adopt_init ext w win) (ext.new_client w) ch = wc at *
  generalize adopt_init ext w win = wi at *
  obtain ⟨w1, h1, h2, h3, s, h4, h5⟩ := adopt_insert_spec ext
    (wc.set_client (ext.new_client w) { wc.client (ext.new_client w) with keymask := ch.keymask })
    win (ext.new_client w) ch w.current_monitor
  have hk : ((wc.set_client (ext.new_client w)
      { wc.client (ext.new_client w) with keymask := ch.keymask }).client (ext.new_client w)).tag_
      = (wc.client (ext.new_client w)).tag_ := by simp
  have hm : (wc.set_client (ext.new_client w)
      { wc.client (ext.new_client w) with keymask := ch.keymask }).heap.monitors
      = wc.heap.monitors := rfl
  rw [hk, hm] at h2 h5
  have key := adoption_tag_eq ext w wi wc ch (wc.client (ext.new_client w)).tag_ hi2 hc1
    (fun h => (hc2 h).1)
  rw [key] at h2 h5
  exact ⟨w1, hadopt.trans h1, h2, h3, s, h4, h5⟩

/-! ### C19, C20: resize_floating, resize_fullscreen, resize_tiling -/

/-- With a monitor that is not null, `resize_fullscreen` takes the branch of
`if (!!m)` and returns with nothing done. -/
theorem resize_fullscreen_some (w : World) (this : ClientPtr) (m : MonitorPtr) :
    resize_fullscreen w this (some m) = some w := by
  simp [resize_fullscreen]

/-- With a monitor that is not null, `resize_floating` takes the branch of
`if (!!m)` and returns with nothing done. -/
theorem resize_floating_some (w : World) (this : ClientPtr) (m : MonitorPtr) :
    resize_floating w this (some m) = some w := by
  simp [resize_floating]

/-- Whenever `resize_floating` returns, for a null monitor or any other, the
world is the one it was called in: no call of it commits a rectangle. -/
theorem resize_floating_unchanged (w w1 : World) (this : ClientPtr) (m : Option MonitorPtr)
    (h : resize_floating w this m = some w1) : w1 = w := by
  cases m with
  | some mp =>
    rw [resize_floating_some] at h
    exact (Option.some.inj h).symm
  | none =>
    unfold resize_floating resize_fullscreen at h
    by_cases hf : (w.client this).fullscreen = true <;> simp [hf] at h

/-- C19 on the code: client 4 of the example world is not fullscreen and
monitor 0 is a monitor 800 by 600; `resize_floating` returns at `if (!!m)` and
the trace stays empty, so no rectangle is handed to `decoration_resize_inner`. -/
theorem resize_floating_commits_nothing :
    (example_world.client 4).fullscreen = false ∧
    example_world.trace = [] ∧
    (resize_floating example_world 4 (some 0)).map (fun w => w.trace) = some [] := by
  refine ⟨by decide, rfl, ?_⟩
  rw [resize_floating_some]
  rfl

/-- When the client is fullscreen and its tag is shown on a monitor,
`resize_tiling` ends in the early return of `resize_fullscreen`. -/
theorem resize_tiling_fullscreen (ext : Externals) (w : World) (this : ClientPtr)
    (rect : Rectangle) (frame : Option FramePtr) (m : MonitorPtr)
    (hf : (w.client this).fullscreen = true)
    (hm : ext.find_monitor_with_tag w (w.client this).tag_ = some m) :
    resize_tiling ext w this rect frame = some w := by
  unfold resize_tiling
  simp [hf, hm, resize_fullscreen_some]

/-- C20 on the code: client 1 of the example world is fullscreen and its tag
is shown on monitor 0; for every frame rectangle the layout pass
`resize_tiling` delegates to `resize_fullscreen`, which returns at
`if (!!m)`: the trace stays empty and no outline is handed to
`decoration_resize_outline`. -/
theorem resize_tiling_fullscreen_commits_nothing (rect : Rectangle) (frame : Option FramePtr) :
    (example_world.client 1).fullscreen = true ∧
    example_ext.find_monitor_with_tag example_world (example_world.client 1).tag_ = some 0 ∧
    example_world.trace = [] ∧
    (resize_tiling example_ext example_world 1 rect frame).map (fun w => w.trace) = some [] := by
  refine ⟨by decide, by decide, rfl, ?_⟩
  rw [resize_tiling_fullscreen example_ext example_world 1 rect frame 0 (by decide) (by decide)]
  rfl

/-! ### C22: remove_slice -/

theorem top_removed (L : LayerSet) (st : Stack) (s : SlicePtr) (d : Bool) (l : HSLayer) :
    Stack.top { removed L st s with dirty := d } l =
      if L.count l then (st.top l).filter (fun y => y ≠ s) else st.top l := by
  cases l <;> simp [removed, Stack.top, LayerSet.count]

theorem remove_loop (h : Heap) (st : Stack) (s : SlicePtr)
    (hocc : ∀ l, (h.slices s).layers.count l = true → (st.top l).count s = 1) :
    remove_slice h st s = some { removed (h.slices s).layers st s with dirty := true } := by
  have e := fun l hl => erase_remove_of_count_one (st.top l) s (hocc l hl)
  have h0 := e .LAYER_FOCUS
  have h1 := e .LAYER_FULLSCREEN
  have h2 := e .LAYER_NORMAL
  have h3 := e .LAYER_FRAMES
  simp only [Stack.top, LayerSet.count] at h0 h1 h2 h3
  unfold remove_slice
  generalize (h.slices s).layers = L at h0 h1 h2 h3 ⊢
  rcases L with ⟨a, b, c, d⟩
  cases a <;> cases b <;> cases c <;> cases d <;>
    simp_all [LayerSet.toList, Stack.setTop, Stack.top, removed]

theorem top_insert_slice (h : Heap) (st : Stack) (s : SlicePtr) (l : HSLayer) :
    (insert_slice h st s).top l =
      if (h.slices s).layers.count l then s :: st.top l else st.top l := by
  unfold insert_slice
  rcases (h.slices s).layers with ⟨a, b, c, d⟩
  cases a <;> cases b <;> cases c <;> cases d <;> cases l <;>
    simp [LayerSet.toList, LayerSet.count, Stack.setTop, Stack.top]

/-- C22: when slice `s` occurs exactly once in the sequence of each layer of
its membership, `remove_slice(s)` returns a stack in which each such sequence
is the previous one with that occurrence erased (the other slices in their
previous order, one entry fewer), every other sequence is unchanged and the
dirty bit is set. In particular, for a slice `s` that occurs in no sequence,
`insert_slice(s)` followed by `remove_slice(s)` gives back the four
sequences. -/
theorem remove_slice_erases (h : Heap) (st : Stack) (s : SlicePtr) :
    ((∀ l, (h.slices s).layers.count l = true → (st.top l).count s = 1) →
      ∃ st', remove_slice h st s = some st' ∧
        (∀ l, (h.slices s).layers.count l = true →
          st'.top l = (st.top l).filter (fun y => y ≠ s) ∧
          st'.top l = (st.top l).erase s ∧
          (st'.top l).length + 1 = (st.top l).length) ∧
        (∀ l, (h.slices s).layers.count l = false → st'.top l = st.top l) ∧
        st'.dirty = true) ∧
    ((∀ l, s ∉ st.top l) →
      ∃ st', remove_slice h (insert_slice h st s) s = some st' ∧
        ∀ l, st'.top l = st.top l) := by
  constructor
  · intro hocc
    refine ⟨_, remove_loop h st s hocc, ?_, ?_, rfl⟩
    · intro l hl
      rw [top_removed, if_pos hl]
      refine ⟨rfl, (erase_eq_filter_of_count_one _ _ (hocc l hl)).symm, ?_⟩
      have := length_filter_ne_add_count (st.top l) s
      rw [hocc l hl] at this
      exact this
    · intro l hl
      rw [top_removed]
      simp [hl]
  · intro hs
    have hocc : ∀ l, (h.slices s).layers.count l = true →
        ((insert_slice h st s).top l).count s = 1 := by
      intro l hl
      rw [top_insert_slice, if_pos hl, List.count_cons_self,
        List.count_eq_zero.mpr (hs l)]
    refine ⟨_, remove_loop h _ s hocc, ?_⟩
    intro l
    rw [top_removed, top_insert_slice]
    by_cases hl : (h.slices s).layers.count l = true
    · have hf := filter_ne_of_not_mem _ _ (hs l)
      simp only [ne_eq, decide_not] at hf
      simp [hl, hf]
    · simp [hl]

/-- Witness of `remove_slice_erases`: client slice 1, a member of the
Fullscreen and Normal layers, is removed; slice 7 is inserted and removed. -/
theorem remove_slice_erases_witness :
    (∃ st', remove_slice example_heap { fullscreen := [1], normal := [4, 1, 5], frames := [2] } 1
        = some st' ∧
      (∀ l, (example_heap.slices 1).layers.count l = true →
        st'.top l = (Stack.top { fullscreen := [1], normal := [4, 1, 5], frames := [2] } l).filter
          (fun y => y ≠ 1) ∧
        st'.top l = (Stack.top { fullscreen := [1], normal := [4, 1, 5], frames := [2] } l).erase 1 ∧
        (st'.top l).length + 1 =
          (Stack.top { fullscreen := [1], normal := [4, 1, 5], frames := [2] } l).length) ∧
      (∀ l, (example_heap.slices 1).layers.count l = false →
        st'.top l = Stack.top { fullscreen := [1], normal := [4, 1, 5], frames := [2] } l) ∧
      st'.dirty = true) ∧
    (∃ st', remove_slice example_heap
        (insert_slice example_heap { fullscreen := [1], normal := [4, 1, 5], frames := [2] } 7) 7
        = some st' ∧
      ∀ l, st'.top l = Stack.top { fullscreen := [1], normal := [4, 1, 5], frames := [2] } l) :=
  ⟨(remove_slice_erases example_heap { fullscreen := [1], normal := [4, 1, 5], frames := [2] } 1).1
      (by decide),
   (remove_slice_erases example_heap { fullscreen := [1], normal := [4, 1, 5], frames := [2] } 7).2
      (by decide)⟩

/-! ### C24: stack consistency -/

theorem consistent_iff (h : Heap) (st : Stack) :
    consistent h st ↔ ∀ l, (st.top l).Nodup ∧
      ∀ l' s, s ∈ st.top l' → (s ∈ st.top l ↔ (h.slices s).layers.count l = true) := by
  unfold consistent
  constructor
  · intro hc l
    exact ⟨(hc l).1, fun l' s hs => (hc l).2 s ((mem_all_entries st s).mpr ⟨l', hs⟩)⟩
  · intro hc l
    refine ⟨(hc l).1, fun s hs => ?_⟩
    obtain ⟨l', hl'⟩ := (mem_all_entries st s).mp hs
    exact (hc l).2 l' s hl'

@[simp]
theorem Stack.top_with_dirty (st : Stack) (d : Bool) (l : HSLayer) :
    Stack.top { st with dirty := d } l = st.top l := by
  cases l <;> rfl

theorem LayerSet.count_insert (s : LayerSet) (L l : HSLayer) :
    (s.insert L).count l = (decide (l = L) || s.count l) := by
  cases L <;> cases l <;> simp [LayerSet.insert, LayerSet.count]

theorem LayerSet.count_erase (s : LayerSet) (L l : HSLayer) :
    (s.erase L).count l = (!decide (l = L) && s.count l) := by
  cases L <;> cases l <;> simp [LayerSet.erase, LayerSet.count]

theorem consistent_count_one (h : Heap) (st : Stack) (hc : consistent h st) (s : SlicePtr)
    (l : HSLayer) (hs : s ∈ st.top l) : (st.top l).count s = 1 :=
  List.count_eq_one_of_mem (hc l).1 hs

theorem consistent_insert_slice (h : Heap) (st : Stack) (hc : consistent h st) (s : SlicePtr)
    (hs : ∀ l, s ∉ st.top l) : consistent h (insert_slice h st s) := by
  rw [consistent_iff] at hc ⊢
  intro l
  constructor
  · rw [top_insert_slice]
    split
    · exact List.nodup_cons.mpr ⟨hs l, (hc l).1⟩
    · exact (hc l).1
  · intro l' p hp
    rw [top_insert_slice] at hp ⊢
    by_cases hps : p = s
    · subst hps
      by_cases hl : (h.slices p).layers.count l = true
      · simp [hl]
      · simp [hl, hs l]
    · have hp' : p ∈ st.top l' := by
        split at hp
        · exact (List.mem_cons.mp hp).resolve_left hps
        · exact hp
      rw [← (hc l).2 l' p hp']
      split
      · simp [hps]
      · rfl

theorem consistent_remove_slice (h : Heap) (st : Stack) (hc : consistent h st) (s : SlicePtr)
    (hs : s ∈ all_entries st) :
    ∃ st', remove_slice h st s = some st' ∧ consistent h st' ∧
      ∀ l, st'.top l = (st.top l).filter (fun y => y ≠ s) := by
  have hocc : ∀ l, (h.slices s).layers.count l = true → (st.top l).count s = 1 :=
    fun l hl => consistent_count_one h st hc s l (((hc l).2 s hs).mpr hl)
  have htop : ∀ l, Stack.top { removed (h.slices s).layers st s with dirty := true } l =
      (st.top l).filter (fun y => y ≠ s) := by
    intro l
    rw [top_removed]
    by_cases hl : (h.slices s).layers.count l = true
    · rw [if_pos hl]
    · rw [if_neg hl]
      have hn : s ∉ st.top l := fun hm => hl (((hc l).2 s hs).mp hm)
      exact (filter_ne_of_not_mem _ _ hn).symm
  refine ⟨_, remove_loop h st s hocc, ?_, htop⟩
  rw [consistent_iff] at hc ⊢
  intro l
  rw [htop]
  refine ⟨(hc l).1.filter _, ?_⟩
  intro l' p hp
  rw [htop] at hp
  obtain ⟨hp1, hp2⟩ := List.mem_filter.mp hp
  rw [← (hc l).2 l' p hp1, List.mem_filter]
  simp only [hp2, and_true]

theorem consistent_raise_slide (h : Heap) (st : Stack) (hc : consistent h st) (fuel : Nat)
    (s : SlicePtr) (hs : s ∈ all_entries st) (hn : nested_within h fuel st = true) :
    ∃ st' e, raise_slide fuel h st s = some (st', e) ∧ consistent h st' := by
  have hmem : ∀ l, (h.slices s).layers.count l = true → s ∈ st.top l :=
    fun l hl => ((hc l).2 s hs).mpr hl
  obtain ⟨e, he⟩ := raise_slide_eq fuel h st s hmem hn
  refine ⟨_, e, he, ?_⟩
  have hperm : ∀ l, (Stack.top { raised (h.slices s).layers st s with dirty := false } l).Perm
      (st.top l) := by
    intro l
    rw [top_raised]
    split
    · rename_i hl
      exact (List.perm_cons_erase (hmem l hl)).symm
    · exact List.Perm.refl _
  rw [consistent_iff] at hc ⊢
  intro l
  refine ⟨(hperm l).nodup_iff.mpr (hc l).1, ?_⟩
  intro l' p hp
  rw [(hperm l).mem_iff]
  exact (hc l).2 l' p ((hperm l').mem_iff.mp hp)

theorem consistent_slice_add_layer (h : Heap) (st : Stack) (hc : consistent h st)
    (s : SlicePtr) (L : HSLayer) (hs : s ∈ all_entries st) :
    consistent (slice_add_layer h st s L).1 (slice_add_layer h st s L).2 := by
  by_cases hL : (h.slices s).layers.count L = true
  · simp only [slice_add_layer, hL, ↓reduceIte]
    exact hc
  · have hsL : s ∉ st.top L := fun hm => hL (((hc L).2 s hs).mp hm)
    obtain ⟨ls, hls⟩ := (mem_all_entries st s).mp hs
    simp only [slice_add_layer, hL, Bool.false_eq_true, ↓reduceIte]
    rw [consistent_iff] at hc ⊢
    intro l
    simp only [Stack.top_with_dirty, Stack.top_setTop]
    constructor
    · split
      · rename_i hl
        subst hl
        exact List.nodup_cons.mpr ⟨hsL, (hc l).1⟩
      · exact (hc l).1
    · intro l' p hp
      have hp' : ∃ l'', p ∈ st.top l'' := by
        split at hp
        · rcases List.mem_cons.mp hp with rfl | hp
          · exact ⟨ls, hls⟩
          · exact ⟨_, hp⟩
        · exact ⟨_, hp⟩
      obtain ⟨l'', hp''⟩ := hp'
      have hold := (hc l).2 l'' p hp''
      by_cases hps : p = s
      · subst hps
        simp only [Heap.set_layers, ↓reduceIte, LayerSet.count_insert]
        by_cases hl : l = L
        · subst hl
          simp
        · simp only [hl, ↓reduceIte, decide_False, Bool.false_or]
          exact hold
      · simp only [Heap.set_layers, hps, ↓reduceIte]
        rw [← hold]
        split
        · rename_i hl
          subst hl
          simp [hps]
        · rfl

theorem consistent_slice_remove_layer (h : Heap) (st : Stack) (hc : consistent h st)
    (s : SlicePtr) (L : HSLayer) (hs : s ∈ st.top L) :
    slice_remove_layer h st s L =
      some (h.set_layers s ((h.slices s).layers.erase L),
        { st.setTop L ((st.top L).filter (fun y => y ≠ s)) with dirty := true }) ∧
    consistent (h.set_layers s ((h.slices s).layers.erase L))
      { st.setTop L ((st.top L).filter (fun y => y ≠ s)) with dirty := true } := by
  have hL : (h.slices s).layers.count L = true :=
    ((hc L).2 s ((mem_all_entries st s).mpr ⟨L, hs⟩)).mp hs
  constructor
  · simp [slice_remove_layer, erase_remove_of_count_one _ _ (consistent_count_one h st hc s L hs),
      hL]
  · rw [consistent_iff] at hc ⊢
    intro l
    simp only [Stack.top_with_dirty, Stack.top_setTop]
    constructor
    · split
      · exact (hc L).1.filter _
      · exact (hc l).1
    · intro l' p hp
      have hp' : ∃ l'', p ∈ st.top l'' := by
        split at hp
        · exact ⟨_, (List.mem_filter.mp hp).1⟩
        · exact ⟨_, hp⟩
      obtain ⟨l'', hp''⟩ := hp'
      have hold := (hc l).2 l'' p hp''
      by_cases hps : p = s
      · subst hps
        simp only [Heap.set_layers, ↓reduceIte, LayerSet.count_erase]
        by_cases hl : l = L
        · subst hl
          simp [List.mem_filter]
        · simp only [hl, ↓reduceIte, decide_False, Bool.not_false, Bool.true_and]
          exact hold
      · simp only [Heap.set_layers, hps, ↓reduceIte]
        rw [← hold]
        split
        · rename_i hl
          subst hl
          simp [List.mem_filter, hps]
        · rfl

theorem consistent_with_dirty (h : Heap) (st : Stack) (d : Bool) (hc : consistent h st) :
    consistent h { st with dirty := d } := by
  rw [consistent_iff] at hc ⊢
  simpa only [Stack.top_with_dirty] using hc

/-- Under consistency `clear_layer` returns for every fuel above the length of
the sequence of the layer: the sequence is empty afterwards, the other
sequences are as before, only memberships in the layer have been dropped, and
a slice that still claims the layer claimed it before without being in the
sequence. -/
theorem clear_layer_spec (L : HSLayer) : ∀ (fuel : Nat) (h : Heap) (st : Stack),
    (st.top L).length < fuel → consistent h st →
    ∃ h' st', clear_layer fuel h st L = some (h', st') ∧ consistent h' st' ∧ st'.top L = [] ∧
      (∀ l, l ≠ L → st'.top l = st.top l) ∧
      (∀ p, (h'.slices p).layers.count L = true →
        (h.slices p).layers.count L = true ∧ p ∉ st.top L) ∧
      (∀ p l, l ≠ L → (h'.slices p).layers.count l = (h.slices p).layers.count l) := by
  intro fuel
  induction fuel with
  | zero => intro h st hlen; omega
  | succ n ih =>
    intro h st hlen hc
    cases hv : st.top L with
    | nil =>
      refine ⟨h, st, ?_, hc, hv, fun _ _ => rfl, fun p hp => ⟨hp, by simp⟩, fun _ _ _ => rfl⟩
      simp [clear_layer, is_layer_empty, hv]
    | cons s rest =>
      have hs : s ∈ st.top L := by rw [hv]; exact List.mem_cons_self _ _
      obtain ⟨hrem, hc1⟩ := consistent_slice_remove_layer h st hc s L hs
      have hnd : (s :: rest).Nodup := hv ▸ (hc L).1
      have hsr : s ∉ rest := (List.nodup_cons.mp hnd).1
      have hfil : (st.top L).filter (fun y => y ≠ s) = rest := by
        rw [hv]
        have hf := filter_ne_of_not_mem rest s hsr
        simp only [ne_eq, decide_not] at hf
        simp [hf]
      rw [hfil] at hrem hc1
      have hc2 := consistent_with_dirty _ _ true hc1
      have hlen2 : (Stack.top { ({ st.setTop L rest with dirty := true } : Stack)
          with dirty := true } L).length < n := by
        simp only [Stack.top_with_dirty, Stack.top_setTop, ↓reduceIte]
        rw [hv] at hlen
        simp only [List.length_cons] at hlen
        omega
      obtain ⟨h', st', hcl, hc', hempty, hother, hclaim, hmemb⟩ := ih _ _ hlen2 hc2
      refine ⟨h', st', ?_, hc', hempty, ?_, ?_, ?_⟩
      · simp only [clear_layer, is_layer_empty, hv, List.isEmpty_cons, Bool.not_false, ↓reduceIte]
        rw [hrem]
        exact hcl
      · intro l hl
        rw [hother l hl]
        simp [hl]
      · intro p hp
        obtain ⟨hp1, hp2⟩ := hclaim p hp
        simp only [Stack.top_with_dirty, Stack.top_setTop, ↓reduceIte] at hp2
        have hps : p ≠ s := by
          rintro rfl
          simp [Heap.set_layers, LayerSet.count_erase] at hp1
        simp only [Heap.set_layers, hps, ↓reduceIte] at hp1
        refine ⟨hp1, ?_⟩
        simp only [List.mem_cons, not_or]
        exact ⟨hps, hp2⟩
      · intro p l hl
        rw [hmemb p l hl]
        by_cases hps : p = s
        · subst hps
          simp [Heap.set_layers, LayerSet.count_erase, hl]
        · simp [Heap.set_layers, hps]

/-- C24 (as amended): stack consistency is kept by `insert_slice(s)` for a
slice `s` that occurs in no sequence, by `remove_slice(s)`, `raise_slide(s)`
(monitor slices nested within the fuel) and `slice_add_layer(s, L)` for a slice
`s` of the stack, by `slice_remove_layer(s, L)` for a slice `s` of the stack
with `L` in its membership, and by `clear_layer(L)`, which returns for every
fuel above the length of the sequence of `L`, leaves that sequence empty and
no slice of the stack claiming membership in `L`. -/
theorem consistent_preserved (h : Heap) (st : Stack) (hc : consistent h st) :
    (∀ s, (∀ l, s ∉ st.top l) → consistent h (insert_slice h st s)) ∧
    (∀ s, s ∈ all_entries st → ∃ st', remove_slice h st s = some st' ∧ consistent h st') ∧
    (∀ fuel s, s ∈ all_entries st → nested_within h fuel st = true →
      ∃ st' e, raise_slide fuel h st s = some (st', e) ∧ consistent h st') ∧
    (∀ s L, s ∈ all_entries st →
      consistent (slice_add_layer h st s L).1 (slice_add_layer h st s L).2) ∧
    (∀ s L, s ∈ all_entries st → (h.slices s).layers.count L = true →
      ∃ h' st', slice_remove_layer h st s L = some (h', st') ∧ consistent h' st') ∧
    (∀ L fuel, (st.top L).length < fuel →
      ∃ h' st', clear_layer fuel h st L = some (h', st') ∧ consistent h' st' ∧
        st'.top L = [] ∧ (∀ l, l ≠ L → st'.top l = st.top l) ∧
        ∀ p ∈ all_entries st, (h'.slices p).layers.count L = false) := by
  refine ⟨fun s hs => consistent_insert_slice h st hc s hs, ?_,
    fun fuel s hs hn => consistent_raise_slide h st hc fuel s hs hn,
    fun s L hs => consistent_slice_add_layer h st hc s L hs, ?_, ?_⟩
  · intro s hs
    obtain ⟨st', h1, h2, -⟩ := consistent_remove_slice h st hc s hs
    exact ⟨st', h1, h2⟩
  · intro s L hs hL
    have hm : s ∈ st.top L := ((hc L).2 s hs).mpr hL
    obtain ⟨h1, h2⟩ := consistent_slice_remove_layer h st hc s L hm
    exact ⟨_, _, h1, h2⟩
  · intro L fuel hlen
    obtain ⟨h', st', h1, h2, h3, h4, h5, -⟩ := clear_layer_spec L fuel h st hlen hc
    refine ⟨h', st', h1, h2, h3, h4, ?_⟩
    intro p hp
    cases hcount : (h'.slices p).layers.count L with
    | false => rfl
    | true =>
      obtain ⟨h6, h7⟩ := h5 p hcount
      exact absurd (((hc L).2 p hp).mpr h6) h7

/-- Witness of `consistent_preserved`: the stack of the fullscreen client
slice 1, the client slice 4 and the frame window slice 2. -/
theorem consistent_preserved_witness :
    (∀ s, (∀ l, s ∉ Stack.top { fullscreen := [1], normal := [4, 1], frames := [2] } l) →
      consistent example_heap
        (insert_slice example_heap { fullscreen := [1], normal := [4, 1], frames := [2] } s)) ∧
    (∀ s, s ∈ all_entries { fullscreen := [1], normal := [4, 1], frames := [2] } →
      ∃ st', remove_slice example_heap { fullscreen := [1], normal := [4, 1], frames := [2] } s
        = some st' ∧ consistent example_heap st') ∧
    (∀ fuel s, s ∈ all_entries { fullscreen := [1], normal := [4, 1], frames := [2] } →
      nested_within example_heap fuel { fullscreen := [1], normal := [4, 1], frames := [2] }
        = true →
      ∃ st' e, raise_slide fuel example_heap
        { fullscreen := [1], normal := [4, 1], frames := [2] } s = some (st', e) ∧
        consistent example_heap st') ∧
    (∀ s L, s ∈ all_entries { fullscreen := [1], normal := [4, 1], frames := [2] } →
      consistent
        (slice_add_layer example_heap { fullscreen := [1], normal := [4, 1], frames := [2] } s L).1
        (slice_add_layer example_heap { fullscreen := [1], normal := [4, 1], frames := [2] } s L).2) ∧
    (∀ s L, s ∈ all_entries { fullscreen := [1], normal := [4, 1], frames := [2] } →
      (example_heap.slices s).layers.count L = true →
      ∃ h' st', slice_remove_layer example_heap
        { fullscreen := [1], normal := [4, 1], frames := [2] } s L = some (h', st') ∧
        consistent h' st') ∧
    (∀ L fuel,
      (Stack.top { fullscreen := [1], normal := [4, 1], frames := [2] } L).length < fuel →
      ∃ h' st', clear_layer fuel example_heap
          { fullscreen := [1], normal := [4, 1], frames := [2] } L = some (h', st') ∧
        consistent h' st' ∧ st'.top L = [] ∧
        (∀ l, l ≠ L →
          st'.top l = Stack.top { fullscreen := [1], normal := [4, 1], frames := [2] } l) ∧
        ∀ p ∈ all_entries { fullscreen := [1], normal := [4, 1], frames := [2] },
          (h'.slices p).layers.count L = false) :=
  consistent_preserved example_heap { fullscreen := [1], normal := [4, 1], frames := [2] }
    (by decide)

/-- C24 as stated fails: the stack holding the client slice 4 is consistent;
slice 7 is in no sequence and has the membership Normal that `slice_create`
gives. `slice_add_layer(7, LAYER_FOCUS)` puts it into the Focus sequence only,
so it is a slice of the stack that claims Normal and is not in the Normal
sequence; and `slice_remove_layer(7, LAYER_NORMAL)`, for the layer of its
membership, does not return. -/
theorem slice_add_layer_not_consistent :
    consistent example_heap { normal := [4] } ∧
    (∀ l, (7 : SlicePtr) ∉ Stack.top { normal := [4] } l) ∧
    ¬ consistent (slice_add_layer example_heap { normal := [4] } 7 .LAYER_FOCUS).1
      (slice_add_layer example_heap { normal := [4] } 7 .LAYER_FOCUS).2 ∧
    (example_heap.slices 7).layers.count .LAYER_NORMAL = true ∧
    slice_remove_layer example_heap { normal := [4] } 7 .LAYER_NORMAL = none := by
  refine ⟨by decide, by decide, by decide, by decide, ?_⟩
  rfl

/-! ### C25: to_window_buf and the length of the buffer -/

theorem s2wb_eq (a b : s2wb) (h1 : a.len = b.len) (h2 : a.buf = b.buf)
    (h3 : a.missing = b.missing) (h4 : a.real_clients = b.real_clients)
    (h5 : a.layer = b.layer) : a = b := by
  cases a; cases b; simp_all

theorem s2wb_after_put (len : Nat) (rc : Bool) (l : Nat) (E : List Window) (w : Window) :
    (s2wb_after len rc l E).put w = s2wb_after len rc l (E ++ [w]) := by
  unfold s2wb.put
  by_cases hle : E.length < len
  · have hne : (s2wb_after len rc l E).len ≠ 0 := by
      simp only [s2wb_after]; omega
    rw [if_pos hne]
    apply s2wb_eq
    · simp only [s2wb_after, List.length_append, List.length_singleton]; omega
    · simp only [s2wb_after]
      rw [List.take_of_length_le (by omega), List.take_of_length_le (by simp; omega)]
    · simp only [s2wb_after, List.length_append, List.length_singleton]; omega
    · rfl
    · rfl
  · have hz : ¬ (s2wb_after len rc l E).len ≠ 0 := by
      simp only [s2wb_after]; omega
    rw [if_neg hz]
    apply s2wb_eq
    · simp only [s2wb_after, List.length_append, List.length_singleton]; omega
    · simp only [s2wb_after]
      rw [List.take_append_eq_append_take, show len - E.length = 0 by omega, List.take_zero,
        List.append_nil]
    · simp only [s2wb_after, List.length_append, List.length_singleton]; omega
    · rfl
    · rfl

theorem s2wb_after_monitor_anchor (len : Nat) (rc : Bool) (l : Nat) (E : List Window)
    (sw : Window) :
    (if (!(s2wb_after len rc l E).real_clients) = true then (s2wb_after len rc l E).put sw
      else s2wb_after len rc l E) =
      s2wb_after len rc l (E ++ if rc = true then [] else [sw]) := by
  cases rc
  · show (s2wb_after len false l E).put sw = _
    rw [s2wb_after_put]
    rfl
  · show s2wb_after len true l E = _
    simp

theorem slice_to_window_buf_after (nested : Stack → Int → Bool → Option (List Window × Int))
    (N : Stack → List Window) (h : Heap) (rc : Bool) (len l : Nat) (p : SlicePtr)
    (hn : ∀ m, (h.slices p).data = .monitor m → ∀ k : Nat,
      nested (h.monitor_stack m) k rc =
        some ((N (h.monitor_stack m)).take k, remain_len_of k (N (h.monitor_stack m)).length))
    (E : List Window) :
    slice_to_window_buf nested h p (s2wb_after len rc l E) =
      some (s2wb_after len rc l
        (E ++ if slice_highest_layer (h.slices p) = l then slice_windows N h rc p else [])) := by
  unfold slice_to_window_buf
  by_cases hl : slice_highest_layer (h.slices p) = l
  · have hl' : ¬ slice_highest_layer (h.slices p) ≠ (s2wb_after len rc l E).layer := by
      simp [s2wb_after, hl]
    rw [if_neg hl', if_pos hl]
    unfold slice_windows
    cases hd : (h.slices p).data with
    | client c =>
      simp only [s2wb_after_put]
      rfl
    | window w =>
      cases rc
      · simp only [s2wb_after_put]
        simp [s2wb_after]
      · simp [s2wb_after]
    | monitor m =>
      simp only [s2wb_after_monitor_anchor]
      rw [← List.append_assoc]
      generalize E ++ (if rc = true then [] else [(h.monitors m).stacking_window]) = E'
      have hcall := hn m hd (len - E'.length)
      generalize N (h.monitor_stack m) = W at hcall ⊢
      simp only [s2wb_after, hcall, Option.bind_eq_bind, Option.some_bind, remain_len_of]
      by_cases hle : W.length ≤ len - E'.length
      · have hge : (↑(len - E'.length) : Int) - ↑W.length ≥ 0 := by omega
        simp only [hle, ↓reduceIte, hge, Option.some.injEq, s2wb.mk.injEq, List.length_append,
          and_true]
        refine ⟨by omega, List.take_append_eq_append_take.symm, by omega⟩
      · have hlt : ¬ (-((W.length : Int) - ↑(len - E'.length)) ≥ 0) := by omega
        simp only [hle, ↓reduceIte, hlt, Option.some.injEq, s2wb.mk.injEq, List.length_append,
          and_true]
        refine ⟨by omega, List.take_append_eq_append_take.symm, by omega⟩
  · have hl' : slice_highest_layer (h.slices p) ≠ (s2wb_after len rc l E).layer := by
      simp [s2wb_after, hl]
    rw [if_pos hl', if_neg hl, List.append_nil]

theorem layer_to_window_buf_after (nested : Stack → Int → Bool → Option (List Window × Int))
    (N : Stack → List Window) (h : Heap) (rc : Bool) (len l : Nat) (v : List SlicePtr)
    (hn : ∀ p ∈ v, ∀ m, (h.slices p).data = .monitor m → ∀ k : Nat,
      nested (h.monitor_stack m) k rc =
        some ((N (h.monitor_stack m)).take k, remain_len_of k (N (h.monitor_stack m)).length)) :
    ∀ E, layer_to_window_buf nested h v (s2wb_after len rc l E) =
      some (s2wb_after len rc l
        (E ++ (v.filter (fun p => slice_highest_layer (h.slices p) = l)).flatMap
          (slice_windows N h rc))) := by
  induction v with
  | nil => intro E; simp [layer_to_window_buf]
  | cons p v ih =>
    intro E
    have hstep := slice_to_window_buf_after nested N h rc len l p
      (hn p (List.mem_cons_self _ _)) E
    have ih' := ih (fun q hq => hn q (List.mem_cons_of_mem _ hq))
    simp only [layer_to_window_buf, List.foldlM_cons, hstep, Option.bind_eq_bind,
      Option.some_bind] at ih' ⊢
    rw [ih']
    by_cases hp : slice_highest_layer (h.slices p) = l
    · simp [hp, List.flatMap_cons]
    · simp [hp]

theorem layers_to_window_buf_after (nested : Stack → Int → Bool → Option (List Window × Int))
    (N : Stack → List Window) (h : Heap) (rc : Bool) (len : Nat) (st : Stack)
    (hn : ∀ l, ∀ p ∈ st.top l, ∀ m, (h.slices p).data = .monitor m → ∀ k : Nat,
      nested (h.monitor_stack m) k rc =
        some ((N (h.monitor_stack m)).take k, remain_len_of k (N (h.monitor_stack m)).length)) :
    ∀ (ls : List HSLayer) (l0 : Nat) (E : List Window),
      ∃ lf, ls.foldlM
          (fun data i =>
            layer_to_window_buf nested h (st.top i) { data with layer := i.toNat })
          (s2wb_after len rc l0 E) =
        some (s2wb_after len rc lf
          (E ++ ls.flatMap (fun l => (shown_in_layer h st l).flatMap (slice_windows N h rc)))) := by
  intro ls
  induction ls with
  | nil => intro l0 E; exact ⟨l0, by simp⟩
  | cons i ls ih =>
    intro l0 E
    have hstep := layer_to_window_buf_after nested N h rc len i.toNat (st.top i) (hn i) E
    obtain ⟨lf, hlf⟩ := ih i.toNat
      (E ++ ((st.top i).filter (fun p => slice_highest_layer (h.slices p) = i.toNat)).flatMap
        (slice_windows N h rc))
    refine ⟨lf, ?_⟩
    rw [List.foldlM_cons]
    show (layer_to_window_buf nested h (st.top i) (s2wb_after len rc i.toNat E) >>= _) = _
    rw [hstep]
    simp only [Option.bind_eq_bind, Option.some_bind, hlf, List.flatMap_cons, List.append_assoc,
      shown_in_layer]

/-- With monitor slices nested within the fuel, `to_window_buf` on a buffer
of length `len` writes the first `len` of the ids the stack emits, all of them
when there are fewer, and reports the unused length or minus the number of ids
left over. -/
theorem to_window_buf_emitted (h : Heap) (rc : Bool) :
    ∀ (fuel : Nat) (st : Stack), nested_within h fuel st = true → ∀ len : Nat,
      to_window_buf fuel h st len rc =
        some ((emitted_windows fuel h st rc).take len,
          remain_len_of len (emitted_windows fuel h st rc).length) := by
  intro fuel
  induction fuel with
  | zero => intro st hn; simp [nested_within] at hn
  | succ n ih =>
    intro st hn len
    rw [nested_within_succ] at hn
    obtain ⟨lf, hlf⟩ := layers_to_window_buf_after (to_window_buf n h)
      (fun s => emitted_windows n h s rc) h rc len st
      (fun l p hp m hm k => ih _ (hn l p hp m hm) k) all_layers 0 []
    have hinit : ({ len := (len : Int), buf := [], missing := 0, real_clients := rc, layer := 0 }
        : s2wb) = s2wb_after len rc 0 [] := by
      simp [s2wb_after]
    have hE : all_layers.flatMap (fun l => (shown_in_layer h st l).flatMap
        (slice_windows (fun s => emitted_windows n h s rc) h rc)) =
        emitted_windows (n + 1) h st rc := by
      simp [all_layers, emitted_windows, shown_slices, List.flatMap_append]
    simp only [to_window_buf, Option.bind_eq_bind, hinit]
    rw [hlf]
    simp only [Option.some_bind, List.nil_append, hE, s2wb_after, remain_len_of]
    generalize emitted_windows (n + 1) h st rc = W
    by_cases hle : W.length ≤ len
    · have h0 : ((W.length - len : Nat) : Int) = 0 := by omega
      simp only [h0, ↓reduceIte, hle, Option.some.injEq, Prod.mk.injEq, true_and]
      omega
    · have h0 : ¬ ((W.length - len : Nat) : Int) = 0 := by omega
      simp only [h0, ↓reduceIte, hle, Option.some.injEq, Prod.mk.injEq, true_and]
      omega

theorem window_count_emitted (h : Heap) (rc : Bool) (fuel : Nat) (st : Stack)
    (hn : nested_within h fuel st = true) :
    window_count fuel h st rc = some ((emitted_windows fuel h st rc).length : Int) := by
  have h0 := to_window_buf_emitted h rc fuel st hn 0
  simp only [Nat.cast_zero, remain_len_of] at h0
  rw [window_count_eq_map, h0]
  simp only [Option.map_some', Option.some.injEq]
  split <;> omega

/-- C25: let the monitor slices of the stack be nested within the fuel, and
let `N` be the number of window ids the stack emits for the flag. On a buffer
of length `len >= 0`, `to_window_buf` writes the first `min(len, N)` of these
ids, never more than `len`, and reports `len - N` when `N <= len` and
`-(N - len)` otherwise; `window_count` is `N`; and `restack` on a dirty stack,
which passes a buffer of length `window_count(false)`, hands to
`XRestackWindows` exactly the ids emitted, with `remain_len` 0 and no entry
of the buffer left as allocated. -/
theorem to_window_buf_bounded (fuel : Nat) (h : Heap) (st : Stack) (rc : Bool) (len : Nat)
    (hn : nested_within h fuel st = true) :
    to_window_buf fuel h st len rc =
      some ((emitted_windows fuel h st rc).take len,
        if (emitted_windows fuel h st rc).length ≤ len
        then (len : Int) - (emitted_windows fuel h st rc).length
        else -(((emitted_windows fuel h st rc).length : Int) - len)) ∧
    ((emitted_windows fuel h st rc).take len).length =
      min len (emitted_windows fuel h st rc).length ∧
    ((emitted_windows fuel h st rc).take len).length ≤ len ∧
    window_count fuel h st rc = some ((emitted_windows fuel h st rc).length : Int) ∧
    to_window_buf fuel h st ((emitted_windows fuel h st false).length : Int) false =
      some (emitted_windows fuel h st false, 0) ∧
    (st.dirty = true →
      restack fuel h st = some ({ st with dirty := false },
        [Effect.XRestackWindows (emitted_windows fuel h st false)
            ((emitted_windows fuel h st false).length : Int),
          Effect.ewmh_update_client_list_stacking])) := by
  have hfull := to_window_buf_emitted h false fuel st hn (emitted_windows fuel h st false).length
  simp only [List.take_length, remain_len_of, le_refl, ↓reduceIte, sub_self] at hfull
  refine ⟨to_window_buf_emitted h rc fuel st hn len, List.length_take _ _,
    List.length_take_le _ _, window_count_emitted h rc fuel st hn, hfull, ?_⟩
  intro hd
  simp [restack, hd, window_count_emitted h false fuel st hn, hfull]

/-- Witness of `to_window_buf_bounded`: the stack of the monitor slice 3 and
the client slice 4, the tag of the monitor holding the clients 5 and 6, emits
the four ids 999, 205, 206, 204; a buffer of length 3 gets the first three and
`remain_len` is -1. -/
theorem to_window_buf_bounded_witness :
    to_window_buf 2 example_heap { normal := [3, 4] } 3 false = some ([999, 205, 206], -1) ∧
    window_count 2 example_heap { normal := [3, 4] } false = some 4 ∧
    restack 2 example_heap { normal := [3, 4], dirty := true } =
      some ({ normal := [3, 4], dirty := false },
        [Effect.XRestackWindows [999, 205, 206, 204] 4,
          Effect.ewmh_update_client_list_stacking]) :=
  ⟨(to_window_buf_bounded 2 example_heap { normal := [3, 4] } false 3 (by decide)).1.trans
      (by decide),
   (to_window_buf_bounded 2 example_heap { normal := [3, 4] } false 3
      (by decide)).2.2.2.1.trans (by decide),
   ((to_window_buf_bounded 2 example_heap { normal := [3, 4], dirty := true } false 3
      (by decide)).2.2.2.2.2 rfl).trans (by decide)⟩

/-! ### C23: resize_tiling of a pseudotiled client -/

theorem focus_changed_hooks_append (a b : List Event) :
    focus_changed_hooks (a ++ b) = focus_changed_hooks a ++ focus_changed_hooks b := by
  simp [focus_changed_hooks]

theorem focus_changed_hooks_stack (es : List Effect) :
    focus_changed_hooks (es.map Event.stack) = [] := by
  unfold focus_changed_hooks
  rw [List.filter_eq_nil_iff]
  intro e he
  obtain ⟨x, -, rfl⟩ := List.mem_map.mp he
  simp [is_focus_changed]

theorem can_raise_of_heap (fuel : Nat) (w w1 : World) (c : ClientPtr)
    (hh : w1.heap = w.heap) (h : can_raise fuel w c) : can_raise fuel w1 c := by
  unfold can_raise World.client at h ⊢
  rw [hh]
  exact h

theorem quiet_refl (fuel : Nat) (c : ClientPtr) (w : World) : quiet fuel c w w :=
  ⟨⟨[], by simp, rfl⟩, rfl, rfl, rfl, id⟩

theorem quiet_trans (fuel : Nat) (c : ClientPtr) (w w1 w2 : World)
    (h1 : quiet fuel c w w1) (h2 : quiet fuel c w1 w2) : quiet fuel c w w2 := by
  obtain ⟨⟨e1, ht1, hq1⟩, hl1, hw1, hti1, hr1⟩ := h1
  obtain ⟨⟨e2, ht2, hq2⟩, hl2, hw2, hti2, hr2⟩ := h2
  refine ⟨⟨e1 ++ e2, ?_, ?_⟩, hl2.trans hl1, hw2.trans hw1, hti2.trans hti1, fun h => hr2 (hr1 h)⟩
  · rw [ht2, ht1, List.append_assoc]
  · rw [focus_changed_hooks_append, hq1, hq2]
    rfl

theorem quiet_emit (fuel : Nat) (c : ClientPtr) (w : World) (e : Event)
    (he : is_focus_changed e = false) : quiet fuel c w (w.emit e) :=
  ⟨⟨[e], rfl, by simp [focus_changed_hooks, he]⟩, rfl, rfl, rfl,
    can_raise_of_heap fuel w _ c rfl⟩

theorem focus_request_eq (ext : Externals) (w : World) (c : ClientPtr) :
    focus_request ext w c = { w with trace := w.trace ++ focus_request_events ext w c } := by
  unfold focus_request focus_request_events sendevent
  by_cases hn : (w.client c).neverfocus = true
  · by_cases hp : ext.XGetWMProtocols w (w.client c).window .WMTakeFocus = true
    · simp [hn, hp, World.emit]
    · simp [hn, hp]
  · simp [hn, World.emit]

theorem focus_request_events_quiet (ext : Externals) (w : World) (c : ClientPtr) :
    focus_changed_hooks (focus_request_events ext w c) = [] := by
  unfold focus_request_events
  split
  · split <;> rfl
  · rfl

/-- Nesting within the fuel carries over to a heap whose stacks hold no
entries that the stacks of the first heap do not hold. -/
theorem nested_within_subset (h h1 : Heap) (hs : h1.slices = h.slices)
    (hm : h1.monitors = h.monitors) (ht : h1.tags = h.tags)
    (hsub : ∀ sp l p, p ∈ (h1.tagstacks sp).top l → p ∈ (h.tagstacks sp).top l) :
    ∀ (n : Nat) (st st1 : Stack), (∀ l p, p ∈ st1.top l → p ∈ st.top l) →
      nested_within h n st = true → nested_within h1 n st1 = true := by
  intro n
  induction n with
  | zero => intro st st1 _ hn; simp [nested_within] at hn
  | succ n ih =>
    intro st st1 hst hn
    rw [nested_within_succ] at hn ⊢
    intro l p hp m hd
    rw [hs] at hd
    have h0 := hn l p (hst l p hp) m hd
    refine ih (h.monitor_stack m) (h1.monitor_stack m) ?_ h0
    intro l1 p1 hp1
    unfold Heap.monitor_stack at hp1 ⊢
    rw [hm, ht] at hp1
    exact hsub _ l1 p1 hp1

theorem raise_spec (fuel : Nat) (w : World) (c : ClientPtr) (hr : can_raise fuel w c) :
    ∃ w1, raise fuel w c = some w1 ∧ quiet fuel c w w1 ∧ can_raise fuel w1 c := by
  obtain ⟨t, s, htag, hslice, hmem, hn⟩ := hr
  obtain ⟨e, he⟩ := raise_slide_eq fuel w.heap (w.heap.tagstacks (w.heap.tags t).stack) s hmem hn
  have hsub : ∀ l p, p ∈ Stack.top
      { raised (w.heap.slices s).layers (w.heap.tagstacks (w.heap.tags t).stack) s
        with dirty := false } l → p ∈ (w.heap.tagstacks (w.heap.tags t).stack).top l := by
    intro l p hp
    rw [top_raised] at hp
    split at hp
    · rename_i hl
      rcases List.mem_cons.mp hp with rfl | hp2
      · exact hmem l hl
      · exact List.mem_of_mem_erase hp2
    · exact hp
  have hhead : ∀ l, (w.heap.slices s).layers.count l = true → s ∈ Stack.top
      { raised (w.heap.slices s).layers (w.heap.tagstacks (w.heap.tags t).stack) s
        with dirty := false } l := by
    intro l hl
    rw [top_raised, if_pos hl]
    exact List.mem_cons_self _ _
  generalize ({ raised (w.heap.slices s).layers (w.heap.tagstacks (w.heap.tags t).stack) s
    with dirty := false } : Stack) = st1 at he hsub hhead
  have hcr : can_raise fuel
      { w.set_stack (w.heap.tags t).stack st1 with trace := w.trace ++ e.map Event.stack } c := by
    refine ⟨t, s, htag, hslice, ?_, ?_⟩
    · intro l hl
      show s ∈ Stack.top (if (w.heap.tags t).stack = (w.heap.tags t).stack then st1 else _) l
      rw [if_pos rfl]
      exact hhead l hl
    · show nested_within (w.set_stack (w.heap.tags t).stack st1).heap fuel
        (if (w.heap.tags t).stack = (w.heap.tags t).stack then st1 else _) = true
      rw [if_pos rfl]
      refine nested_within_subset w.heap (w.set_stack (w.heap.tags t).stack st1).heap rfl rfl rfl
        ?_ fuel (w.heap.tagstacks (w.heap.tags t).stack) st1 hsub hn
      intro sp l p hp
      by_cases hsp : sp = (w.heap.tags t).stack
      · subst hsp
        have hp1 : p ∈ st1.top l := by simpa [World.set_stack] using hp
        exact hsub l p hp1
      · simpa [World.set_stack, hsp] using hp
  refine ⟨{ w.set_stack (w.heap.tags t).stack st1 with trace := w.trace ++ e.map Event.stack },
    ?_, ⟨⟨e.map Event.stack, rfl, focus_changed_hooks_stack e⟩, rfl, rfl, rfl, fun _ => hcr⟩, hcr⟩
  unfold raise
  simp only [htag, hslice, Option.bind_eq_bind, Option.some_bind, he]

theorem can_raise_set_client (fuel : Nat) (w : World) (c : ClientPtr) (v : HSClient)
    (ht : v.tag_ = (w.client c).tag_) (hs : v.slice = (w.client c).slice)
    (hr : can_raise fuel w c) : can_raise fuel (w.set_client c v) c := by
  obtain ⟨t, s, htag, hslice, hmem, hn⟩ := hr
  refine ⟨t, s, ?_, ?_, hmem, ?_⟩
  · simp [ht, htag]
  · simp [hs, hslice]
  · exact nested_within_subset w.heap (w.set_client c v).heap rfl rfl rfl
      (fun _ _ _ hp => hp) fuel _ _ (fun _ _ hp => hp) hn

theorem quiet_set_client (fuel : Nat) (w : World) (c : ClientPtr) (v : HSClient)
    (ht : v.tag_ = (w.client c).tag_) (hs : v.slice = (w.client c).slice)
    (hw : v.window = (w.client c).window) (hti : v.title = (w.client c).title) :
    quiet fuel c w (w.set_client c v) :=
  ⟨⟨[], by simp [World.set_client], rfl⟩, rfl, by simp [hw], by simp [hti],
    can_raise_set_client fuel w c v ht hs⟩

theorem client_get_scheme_triple_idx_some (ext : Externals) (w : World) (c : ClientPtr)
    (t : TagPtr) (htag : (w.client c).tag_ = some t)
    (hf : (ext.find_frame_with_client w (w.client c).tag_ c).isSome = true) :
    ∃ idx, client_get_scheme_triple_idx ext w c = some idx := by
  rw [htag] at hf
  obtain ⟨f, hf1⟩ := Option.isSome_iff_exists.mp hf
  unfold client_get_scheme_triple_idx needs_minimal_dec
  simp only [is_client_floated, htag, hf1, Option.map_some', Option.bind_eq_bind,
    Option.some_bind]
  repeat (first | exact ⟨_, rfl⟩ | split)

theorem set_urgent_force_steps (ext : Externals) (w : World) (c : ClientPtr) (state : Bool) :
    set_urgent_force ext w c state = urgent_publish ext (urgent_assign w c state) c state := rfl

theorem urgent_publish_spec (fuel : Nat) (ext : Externals) (w : World) (c : ClientPtr)
    (t : TagPtr) (state : Bool) (htag : (w.client c).tag_ = some t)
    (hf : (ext.find_frame_with_client w (w.client c).tag_ c).isSome = true) :
    ∃ w1, urgent_publish ext w c state = some w1 ∧ (w1.client c).urgent = (w.client c).urgent ∧
      quiet fuel c w w1 := by
  obtain ⟨idx, hidx⟩ := client_get_scheme_triple_idx_some ext w c t htag hf
  have hb : ∃ m, setup_border ext w c (decide (w.current_client = some c)) =
      some (w.emit (.decoration_change_scheme c { triple := idx, member := m })) := by
    unfold setup_border
    simp only [hidx, Option.bind_eq_bind, Option.some_bind]
    split
    · exact ⟨_, rfl⟩
    · split <;> exact ⟨_, rfl⟩
  obtain ⟨m, hm⟩ := hb
  unfold urgent_publish
  simp only [hm, Option.bind_eq_bind, Option.some_bind, World.client_emit]
  have hq3 := quiet_emit fuel c w (.decoration_change_scheme c { triple := idx, member := m }) rfl
  split
  · exact ⟨_, rfl, rfl, hq3⟩
  · refine ⟨_, rfl, rfl, ?_⟩
    exact quiet_trans fuel c _ _ _ (quiet_trans fuel c _ _ _ hq3
      (quiet_emit fuel c _ (.XSetWMHints (w.client c).window state) rfl))
      (quiet_emit fuel c _ .tag_set_flags_dirty rfl)

theorem set_urgent_false_spec (fuel : Nat) (ext : Externals) (w : World) (c : ClientPtr)
    (t : TagPtr) (htag : (w.client c).tag_ = some t)
    (hframe : ∀ w1, (ext.find_frame_with_client w1 (w1.client c).tag_ c).isSome = true) :
    ∃ w1, set_urgent ext w c false = some w1 ∧ (w1.client c).urgent = false ∧
      quiet fuel c w w1 := by
  unfold set_urgent
  by_cases hu : (w.client c).urgent = false
  · rw [if_pos hu]
    exact ⟨w, rfl, hu, quiet_refl fuel c w⟩
  · rw [if_neg hu, set_urgent_force_steps]
    have hq : quiet fuel c w (urgent_assign w c false) :=
      quiet_trans fuel c _ _ _
        (quiet_emit fuel c w (.hook_emit_list ["urgent", if false = true then "on" else "off",
          hex_str (w.client c).window]) rfl)
        (quiet_set_client fuel _ c { w.client c with urgent := false } rfl rfl rfl rfl)
    have hu1 : ((urgent_assign w c false).client c).urgent = false := by
      simp [urgent_assign]
    have ht1 : ((urgent_assign w c false).client c).tag_ = some t := by
      simp [urgent_assign, htag]
    obtain ⟨w1, h1, h2, h3⟩ := urgent_publish_spec fuel ext (urgent_assign w c false) c t false
      ht1 (hframe _)
    exact ⟨w1, h1, h2.trans hu1, quiet_trans fuel c _ _ _ hq h3⟩

theorem focus_change_same (ext : Externals) (w : World) (c : ClientPtr)
    (hl : w.lastfocus = some c) : focus_change ext w c = w := by
  unfold focus_change
  simp [hl]

theorem focus_change_other (fuel : Nat) (ext : Externals) (w : World) (c : ClientPtr)
    (heach : focus_frame fuel c ext.tag_update_each_focus_layer)
    (hl : w.lastfocus ≠ some c) :
    ∃ mid, (focus_change ext w c).trace = w.trace ++ mid ++
        [.hook_emit_list ["focus_changed", hex_str ((w.client c).window % 2 ^ 32),
          (w.client c).title]] ∧
      focus_changed_hooks mid = [] ∧
      Event.ewmh_update_active_window (w.client c).window ∈ mid ∧
      (focus_change ext w c).lastfocus = w.lastfocus ∧
      (can_raise fuel w c → can_raise fuel (focus_change ext w c) c) := by
  have hpre : ∃ pre, quiet fuel c w
      (((match w.lastfocus with
          | some last => window_unfocus w last
          | none => w).emit (.hsobject_link c "focus")).emit
        (.ewmh_update_active_window (w.client c).window)) ∧
      (((match w.lastfocus with
          | some last => window_unfocus w last
          | none => w).emit (.hsobject_link c "focus")).emit
        (.ewmh_update_active_window (w.client c).window)).trace = w.trace ++ pre ∧
      focus_changed_hooks pre = [] ∧
      Event.ewmh_update_active_window (w.client c).window ∈ pre := by
    cases w.lastfocus with
    | none =>
      refine ⟨[.hsobject_link c "focus", .ewmh_update_active_window (w.client c).window],
        ?_, ?_, rfl, by simp⟩
      · exact quiet_trans fuel c _ _ _ (quiet_emit fuel c w (.hsobject_link c "focus") rfl)
          (quiet_emit fuel c _ (.ewmh_update_active_window (w.client c).window) rfl)
      · simp [World.emit]
    | some last =>
      refine ⟨[.grab_client_buttons last false, .hsobject_link c "focus",
        .ewmh_update_active_window (w.client c).window], ?_, ?_, rfl, by simp⟩
      · exact quiet_trans fuel c _ _ _ (quiet_trans fuel c _ _ _
          (quiet_emit fuel c w (.grab_client_buttons last false) rfl)
          (quiet_emit fuel c _ (.hsobject_link c "focus") rfl))
          (quiet_emit fuel c _ (.ewmh_update_active_window (w.client c).window) rfl)
      · simp [World.emit, window_unfocus]
  obtain ⟨pre, hq1, htr1, hpq, hmem⟩ := hpre
  have hstep : focus_change ext w c =
      (ext.tag_update_each_focus_layer
        (((match w.lastfocus with
          | some last => window_unfocus w last
          | none => w).emit (.hsobject_link c "focus")).emit
        (.ewmh_update_active_window (w.client c).window))).emit
        (.hook_emit_list ["focus_changed",
          hex_str (((ext.tag_update_each_focus_layer
            (((match w.lastfocus with
              | some last => window_unfocus w last
              | none => w).emit (.hsobject_link c "focus")).emit
            (.ewmh_update_active_window (w.client c).window))).client c).window % 2 ^ 32),
          ((ext.tag_update_each_focus_layer
            (((match w.lastfocus with
              | some last => window_unfocus w last
              | none => w).emit (.hsobject_link c "focus")).emit
            (.ewmh_update_active_window (w.client c).window))).client c).title]) := by
    unfold focus_change
    rw [if_pos hl]
    cases w.lastfocus <;> rfl
  generalize ((match w.lastfocus with
      | some last => window_unfocus w last
      | none => w).emit (.hsobject_link c "focus")).emit
    (.ewmh_update_active_window (w.client c).window) = W1 at hq1 htr1 hstep
  obtain ⟨⟨es, hte, hqe⟩, hle, hwe, htie, hre⟩ := heach W1
  obtain ⟨-, hl1, hw1, hti1, hr1⟩ := hq1
  rw [hwe, htie, hw1, hti1] at hstep
  rw [hstep]
  refine ⟨pre ++ es, ?_, ?_, ?_, ?_, ?_⟩
  · show (ext.tag_update_each_focus_layer W1).trace ++ [_] = _
    rw [hte, htr1]
    simp only [List.append_assoc]
  · rw [focus_changed_hooks_append, hpq, hqe]
    rfl
  · exact List.mem_append_left _ hmem
  · show (ext.tag_update_each_focus_layer W1).lastfocus = _
    rw [hle, hl1]
  · intro h
    exact can_raise_of_heap fuel _ _ c rfl (hre (hr1 h))

theorem focus_raise_spec (fuel : Nat) (ext : Externals) (w : World) (c : ClientPtr)
    (hr : can_raise fuel w c) :
    ∃ w1, focus_raise fuel ext w c = some w1 ∧ w1.lastfocus = some c ∧
      (∃ es, w1.trace = w.trace ++ es ∧ focus_changed_hooks es = []) ∧
      can_raise fuel w1 c := by
  have hr0 : can_raise fuel { w with lastfocus := some c } c :=
    can_raise_of_heap fuel w _ c rfl hr
  unfold focus_raise
  simp only
  split
  · obtain ⟨w1, h1, ⟨h2, h3, -, -, -⟩, h4⟩ := raise_spec fuel { w with lastfocus := some c } c hr0
    exact ⟨w1, h1, h3, h2, h4⟩
  · exact ⟨_, rfl, rfl, ⟨[], by simp, rfl⟩, hr0⟩

theorem focus_finish_spec (fuel : Nat) (ext : Externals) (w : World) (c : ClientPtr)
    (hr : can_raise fuel w c)
    (hlayer : ∀ t, focus_frame fuel c (ext.tag_update_focus_layer t))
    (hframe : ∀ w1, (ext.find_frame_with_client w1 (w1.client c).tag_ c).isSome = true) :
    ∃ w1, focus_finish ext w c = some w1 ∧ (w1.client c).urgent = false ∧
      quiet fuel c w w1 := by
  have hq1 := hlayer (some (w.heap.monitors w.current_monitor).tag) w
  have hq : quiet fuel c w
      (((ext.tag_update_focus_layer (some (w.heap.monitors w.current_monitor).tag) w).emit
        (.grab_client_buttons c true)).emit
        (.key_set_keymask
          ((ext.tag_update_focus_layer (some (w.heap.monitors w.current_monitor).tag) w).client
            c).tag_ c)) :=
    quiet_trans fuel c _ _ _
      (quiet_trans fuel c _ _ _ hq1 (quiet_emit fuel c _ (.grab_client_buttons c true) rfl))
      (quiet_emit fuel c _ (.key_set_keymask _ c) rfl)
  unfold focus_finish
  simp only [World.client_emit]
  generalize ((ext.tag_update_focus_layer (some (w.heap.monitors w.current_monitor).tag) w).emit
        (.grab_client_buttons c true)).emit
        (.key_set_keymask
          ((ext.tag_update_focus_layer (some (w.heap.monitors w.current_monitor).tag) w).client
            c).tag_ c) = W at hq ⊢
  obtain ⟨t, s, htag, -⟩ := hq.2.2.2.2 hr
  obtain ⟨w1, h1, h2, h3⟩ := set_urgent_false_spec fuel ext W c t htag hframe
  exact ⟨w1, h1, h2, quiet_trans fuel c _ _ _ hq h3⟩

/-- What one call of `window_focus` does for a client that can be raised,
when the functions of tag.cpp are quiet and the client is found in a frame. -/
theorem window_focus_spec (fuel : Nat) (ext : Externals) (w : World) (c : ClientPtr)
    (hr : can_raise fuel w c)
    (heach : focus_frame fuel c ext.tag_update_each_focus_layer)
    (hlayer : ∀ t, focus_frame fuel c (ext.tag_update_focus_layer t))
    (hframe : ∀ w1, (ext.find_frame_with_client w1 (w1.client c).tag_ c).isSome = true) :
    ∃ w1, window_focus fuel ext w c = some w1 ∧ w1.lastfocus = some c ∧
      (w1.client c).urgent = false ∧ can_raise fuel w1 c ∧
      ∃ post, focus_changed_hooks post = [] ∧
        (w.lastfocus = some c →
          w1.trace = w.trace ++ focus_request_events ext w c ++ post) ∧
        (w.lastfocus ≠ some c → ∃ mid, focus_changed_hooks mid = [] ∧
          Event.ewmh_update_active_window (w.client c).window ∈ mid ∧
          w1.trace = w.trace ++ focus_request_events ext w c ++ mid ++
            [.hook_emit_list ["focus_changed", hex_str ((w.client c).window % 2 ^ 32),
              (w.client c).title]] ++ post) := by
  have hchange : can_raise fuel (focus_change ext (focus_request ext w c) c) c ∧
      (w.lastfocus = some c → (focus_change ext (focus_request ext w c) c).trace =
        w.trace ++ focus_request_events ext w c) ∧
      (w.lastfocus ≠ some c → ∃ mid, focus_changed_hooks mid = [] ∧
        Event.ewmh_update_active_window (w.client c).window ∈ mid ∧
        (focus_change ext (focus_request ext w c) c).trace =
          w.trace ++ focus_request_events ext w c ++ mid ++
            [.hook_emit_list ["focus_changed", hex_str ((w.client c).window % 2 ^ 32),
              (w.client c).title]]) := by
    rw [focus_request_eq]
    have hr0 : can_raise fuel { w with trace := w.trace ++ focus_request_events ext w c } c :=
      can_raise_of_heap fuel w _ c rfl hr
    by_cases hl : w.lastfocus = some c
    · have hl0 : ({ w with trace := w.trace ++ focus_request_events ext w c } : World).lastfocus
          = some c := hl
      rw [focus_change_same ext _ c hl0]
      exact ⟨hr0, fun _ => rfl, fun h => absurd hl h⟩
    · obtain ⟨mid, h1, h2, h3, -, h5⟩ := focus_change_other fuel ext
        { w with trace := w.trace ++ focus_request_events ext w c } c heach hl
      exact ⟨h5 hr0, fun h => absurd h hl, fun _ => ⟨mid, h2, h3, h1⟩⟩
  obtain ⟨hrc, hsame, hother⟩ := hchange
  unfold window_focus
  generalize focus_change ext (focus_request ext w c) c = Wc at hrc hsame hother ⊢
  obtain ⟨W3, h31, h32, ⟨es3, h33, h34⟩, h35⟩ := focus_raise_spec fuel ext Wc c hrc
  obtain ⟨w1, h41, h42, ⟨⟨es4, h43, h44⟩, h45, -, -, h46⟩⟩ :=
    focus_finish_spec fuel ext W3 c h35 hlayer hframe
  refine ⟨w1, ?_, h45.trans h32, h42, h46 h35, es3 ++ es4, ?_, ?_, ?_⟩
  · simp only [h31, Option.bind_eq_bind, Option.some_bind, h41]
  · rw [focus_changed_hooks_append, h34, h44]
    rfl
  · intro hl
    rw [h43, h33, hsame hl]
    simp only [List.append_assoc]
  · intro hl
    obtain ⟨mid, hm1, hm2, hm3⟩ := hother hl
    refine ⟨mid, hm1, hm2, ?_⟩
    rw [h43, h33, hm3]
    simp only [List.append_assoc]

/-- C21: let the client `c` be one that `raise()` can raise (a tag, its slice
in the sequences of its layers, monitor slices nested within the fuel) and
that is found in a frame, and let the two focus-layer updates of tag.cpp be
quiet for `c`. Then `window_focus` returns; afterwards `lastfocus` is `c` and
`c.urgent` is false. When `c` was `lastfocus` before, no `focus_changed` hook
is among the events of the call. When it was not, exactly one is: it carries
the window id of `c` as `"0x%x"` prints it and the title of `c`, and it comes
after the events of the focus request (`XSetInputFocus` on the window when
`neverfocus` is off) and after `ewmh_update_active_window` for the window. A
second `window_focus` right after the first returns and adds no `focus_changed`
hook. -/
theorem window_focus_hook (fuel : Nat) (ext : Externals) (w : World) (c : ClientPtr)
    (hr : can_raise fuel w c)
    (heach : focus_frame fuel c ext.tag_update_each_focus_layer)
    (hlayer : ∀ t, focus_frame fuel c (ext.tag_update_focus_layer t))
    (hframe : ∀ w1, (ext.find_frame_with_client w1 (w1.client c).tag_ c).isSome = true) :
    ∃ w1, window_focus fuel ext w c = some w1 ∧ w1.lastfocus = some c ∧
      (w1.client c).urgent = false ∧
      ((w.client c).neverfocus = false →
        focus_request_events ext w c = [.XSetInputFocus (w.client c).window]) ∧
      (∃ post, focus_changed_hooks (focus_request_events ext w c ++ post) = [] ∧
        (w.lastfocus = some c →
          w1.trace = w.trace ++ focus_request_events ext w c ++ post) ∧
        (w.lastfocus ≠ some c → ∃ mid, focus_changed_hooks mid = [] ∧
          Event.ewmh_update_active_window (w.client c).window ∈ mid ∧
          w1.trace = w.trace ++ focus_request_events ext w c ++ mid ++
            [.hook_emit_list ["focus_changed", hex_str ((w.client c).window % 2 ^ 32),
              (w.client c).title]] ++ post)) ∧
      ∃ w2 es, window_focus fuel ext w1 c = some w2 ∧ w2.trace = w1.trace ++ es ∧
        focus_changed_hooks es = [] := by
  obtain ⟨w1, h1, h2, h3, h4, post, h5, h6, h7⟩ :=
    window_focus_spec fuel ext w c hr heach hlayer hframe
  obtain ⟨w2, g1, -, -, -, post2, g5, g6, -⟩ :=
    window_focus_spec fuel ext w1 c h4 heach hlayer hframe
  refine ⟨w1, h1, h2, h3, ?_, ⟨post, ?_, h6, h7⟩,
    w2, focus_request_events ext w1 c ++ post2, g1, ?_, ?_⟩
  · intro hn
    simp [focus_request_events, hn]
  · rw [focus_changed_hooks_append, focus_request_events_quiet, h5]
    rfl
  · rw [g6 h2, List.append_assoc]
  · rw [focus_changed_hooks_append, focus_request_events_quiet, g5]
    rfl

theorem quiet_refl_frame (fuel : Nat) (c : ClientPtr) : focus_frame fuel c (fun w => w) :=
  fun w => quiet_refl fuel c w

/-- Witness of `window_focus_hook`: client 4 of the example world, urgent and
with the title "xterm", is focused after client 1, with `raise_on_focus` on. -/
theorem window_focus_hook_witness :
    ∃ w1, window_focus 1 example_ext focus_world 4 = some w1 ∧ w1.lastfocus = some 4 ∧
      (w1.client 4).urgent = false ∧
      ((focus_world.client 4).neverfocus = false →
        focus_request_events example_ext focus_world 4 =
          [.XSetInputFocus (focus_world.client 4).window]) ∧
      (∃ post, focus_changed_hooks (focus_request_events example_ext focus_world 4 ++ post) = [] ∧
        (focus_world.lastfocus = some 4 →
          w1.trace = focus_world.trace ++ focus_request_events example_ext focus_world 4 ++ post) ∧
        (focus_world.lastfocus ≠ some 4 → ∃ mid, focus_changed_hooks mid = [] ∧
          Event.ewmh_update_active_window (focus_world.client 4).window ∈ mid ∧
          w1.trace = focus_world.trace ++ focus_request_events example_ext focus_world 4 ++ mid ++
            [.hook_emit_list ["focus_changed",
              hex_str ((focus_world.client 4).window % 2 ^ 32),
              (focus_world.client 4).title]] ++ post)) ∧
      ∃ w2 es, window_focus 1 example_ext w1 4 = some w2 ∧ w2.trace = w1.trace ++ es ∧
        focus_changed_hooks es = [] :=
  window_focus_hook 1 example_ext focus_world 4 ⟨0, 4, rfl, rfl, by decide, by decide⟩
    (quiet_refl_frame 1 4) (fun _ => quiet_refl_frame 1 4) (fun _ => rfl)

/-! ### C18: manage_client, the adopted client -/

theorem update_title_fullscreen (ext : Externals) (w : World) (c c1 : ClientPtr) :
    ((update_title ext w c).client c1).fullscreen = (w.client c1).fullscreen := by
  unfold update_title
  simp only
  split
  · simp only [World.client_emit, World.client_set_client]
    split
    · rename_i h; subst h; rfl
    · rfl
  · simp only [World.client_set_client]
    split
    · rename_i h; subst h; rfl
    · rfl

theorem adopt_init_fullscreen (ext : Externals) (w : World) (win : Window) :
    ((adopt_init ext w win).client (ext.new_client w)).fullscreen = false := by
  unfold adopt_init
  simp only [World.client_set_client, ↓reduceIte]
  rw [update_title_fullscreen]
  simp

theorem adopt_choose_tag_fullscreen (ext : Externals) (w : World) (c : ClientPtr)
    (ch : HSClientChanges)
    (hset : ∀ mon t w1,
      ((ext.monitor_set_tag mon t w1).client c).fullscreen = (w1.client c).fullscreen) :
    ((adopt_choose_tag ext w c ch).client c).fullscreen = (w.client c).fullscreen := by
  unfold adopt_choose_tag
  have hs : ∀ w1 tg, ((setTag w1 c tg).client c).fullscreen = (w1.client c).fullscreen := by
    intro w1 tg
    simp [setTag]
  cases htn : ch.tag_name with
  | none =>
    simp only
    cases hmn : ch.monitor_name with
    | none => rfl
    | some mname =>
      simp only
      cases hm : ext.string_to_monitor mname with
      | none => rfl
      | some mon =>
        simp only
        split
        · exact hs _ _
        · split
          · exact hset _ _ _
          · rfl
  | some tname =>
    simp only
    cases hmn : ch.monitor_name with
    | none => exact hs _ _
    | some mname =>
      simp only
      cases hm : ext.string_to_monitor mname with
      | none => exact hs _ _
      | some mon =>
        simp only
        split
        · rw [hs, hs]
        · split
          · rw [hset, hs]
          · exact hs _ _

theorem adopt_insert_fullscreen (ext : Externals) (w w1 : World) (win : Window)
    (c : ClientPtr) (ch : HSClientChanges) (m : MonitorPtr)
    (h : adopt_insert ext w win c ch m = some (.adopted c ch m w1)) :
    (w1.client c).fullscreen = (w.client c).fullscreen := by
  unfold adopt_insert at h
  simp only at h
  cases ht : ((adopt_slice ext (adopt_default_tag (adopt_register ext w win c) c m) c).client
      c).tag_ with
  | none => rw [ht] at h; simp at h
  | some t =>
    rw [ht] at h
    simp only [Option.map_some', Option.some.injEq, Adoption.adopted.injEq, true_and] at h
    rw [← h]
    simp only [World.client_set_stack]
    have h1 : ((adopt_slice ext (adopt_default_tag (adopt_register ext w win c) c m) c).client
        c).fullscreen = ((adopt_default_tag (adopt_register ext w win c) c m).client
        c).fullscreen := by
      simp only [adopt_slice, World.client_set_client, ↓reduceIte]
    have h2 : ((adopt_default_tag (adopt_register ext w win c) c m).client c).fullscreen
        = ((adopt_register ext w win c).client c).fullscreen := by
      unfold adopt_default_tag
      split
      · simp [setTag]
      · rfl
    have h3 : ((adopt_register ext w win c).client c).fullscreen = (w.client c).fullscreen := by
      simp only [adopt_register, World.client_emit, World.client_set_client, ↓reduceIte]
      show ((fuzzy_fix_initial_position ext ((w.emit (.decoration_setup_frame c)).set_client c
        { w.client c with decwin := ext.decoration_setup_frame_decwin w c }) c).client
        c).fullscreen = _
      simp [fuzzy_fix_initial_position]
    rw [h1, h2, h3]


theorem manage_client_adopt_fullscreen (ext : Externals) (w w1 : World) (win : Window)
    (c : ClientPtr) (ch : HSClientChanges) (m : MonitorPtr)
    (hset : ∀ mon t w2, ((ext.monitor_set_tag mon t w2).client (ext.new_client w)).fullscreen
      = (w2.client (ext.new_client w)).fullscreen)
    (h : manage_client_adopt ext w win = some (.adopted c ch m w1)) :
    c = ext.new_client w ∧ (w1.client c).fullscreen = false := by
  unfold manage_client_adopt at h
  split at h
  · simp at h
  · split at h
    · simp at h
    · simp only at h
      split at h
      · simp at h
      · have hc : c = ext.new_client w := by
          unfold adopt_insert at h
          simp only at h
          cases ht : ((adopt_slice ext (adopt_default_tag (adopt_register ext
            ((adopt_choose_tag ext (adopt_init ext w win) (ext.new_client w)
              (ext.rules_apply (adopt_init ext w win) (ext.new_client w))).set_client
              (ext.new_client w)
              { (adopt_choose_tag ext (adopt_init ext w win) (ext.new_client w)
                  (ext.rules_apply (adopt_init ext w win) (ext.new_client w))).client
                  (ext.new_client w) with
                keymask := (ext.rules_apply (adopt_init ext w win) (ext.new_client w)).keymask })
            win (ext.new_client w)) (ext.new_client w) w.current_monitor)
            (ext.new_client w)).client (ext.new_client w)).tag_ with
          | none => rw [ht] at h; simp at h
          | some t =>
            rw [ht] at h
            simp only [Option.map_some', Option.some.injEq, Adoption.adopted.injEq] at h
            exact h.1.symm
        subst hc
        refine ⟨rfl, ?_⟩
        have hch : ch = ext.rules_apply (adopt_init ext w win) (ext.new_client w) ∧
            m = w.current_monitor := by
          unfold adopt_insert at h
          simp only at h
          cases ht : ((adopt_slice ext (adopt_default_tag (adopt_register ext
            ((adopt_choose_tag ext (adopt_init ext w win) (ext.new_client w)
              (ext.rules_apply (adopt_init ext w win) (ext.new_client w))).set_client
              (ext.new_client w)
              { (adopt_choose_tag ext (adopt_init ext w win) (ext.new_client w)
                  (ext.rules_apply (adopt_init ext w win) (ext.new_client w))).client
                  (ext.new_client w) with
                keymask := (ext.rules_apply (adopt_init ext w win) (ext.new_client w)).keymask })
            win (ext.new_client w)) (ext.new_client w) w.current_monitor)
            (ext.new_client w)).client (ext.new_client w)).tag_ with
          | none => rw [ht] at h; simp at h
          | some t =>
            rw [ht] at h
            simp only [Option.map_some', Option.some.injEq, Adoption.adopted.injEq] at h
            exact ⟨h.2.1.symm, h.2.2.1.symm⟩
        obtain ⟨hch1, hm1⟩ := hch
        rw [← hch1, ← hm1] at h
        rw [adopt_insert_fullscreen ext _ w1 win _ ch m h]
        simp only [World.client_set_client, ↓reduceIte]
        rw [adopt_choose_tag_fullscreen ext _ _ _ hset]
        exact adopt_init_fullscreen ext w win




theorem is_adopted_of (w w1 : World) (win : Window) (c : ClientPtr) (t : TagPtr)
    (h : is_adopted w win c t)
    (htag : (w1.client c).tag_ = (w.client c).tag_)
    (hslice : (w1.client c).slice = (w.client c).slice)
    (htab : ∀ kv, kv ∈ w.g_clients → kv ∈ w1.g_clients)
    (hst : (w1.heap.tags t).stack = (w.heap.tags t).stack)
    (hn : ∀ s, s ∈ (w.heap.tagstacks (w.heap.tags t).stack).normal →
      s ∈ (w1.heap.tagstacks (w.heap.tags t).stack).normal) :
    is_adopted w1 win c t := by
  obtain ⟨h1, h2, s, h3, h4⟩ := h
  refine ⟨htag.trans h1, htab _ h2, s, hslice.trans h3, ?_⟩
  rw [hst]
  exact hn s h4

theorem is_adopted_emit (w : World) (e : Event) (win : Window) (c : ClientPtr) (t : TagPtr)
    (h : is_adopted w win c t) : is_adopted (w.emit e) win c t :=
  is_adopted_of w _ win c t h rfl rfl (fun _ hk => hk) rfl (fun _ hs => hs)

theorem is_adopted_set_client (w : World) (v : HSClient) (win : Window) (c : ClientPtr)
    (t : TagPtr) (h : is_adopted w win c t) (htag : v.tag_ = (w.client c).tag_)
    (hslice : v.slice = (w.client c).slice) : is_adopted (w.set_client c v) win c t :=
  is_adopted_of w _ win c t h (by simp [htag]) (by simp [hslice]) (fun _ hk => hk) rfl
    (fun _ hs => hs)

theorem is_adopted_keeps (f : World → World) (w : World) (win : Window) (c : ClientPtr)
    (t : TagPtr) (hf : keeps_client c f) (h : is_adopted w win c t) :
    is_adopted (f w) win c t := by
  obtain ⟨h1, h2, -, h4, h5, h6⟩ := hf w
  exact is_adopted_of w _ win c t h h1 h2 h4 (h5 t) (fun s hs => h6 _ s hs)

theorem setup_border_some (ext : Externals) (w : World) (c : ClientPtr) (t : TagPtr)
    (focused : Bool) (htag : (w.client c).tag_ = some t)
    (hf : (ext.find_frame_with_client w (w.client c).tag_ c).isSome = true) :
    ∃ s, setup_border ext w c focused = some (w.emit (.decoration_change_scheme c s)) := by
  obtain ⟨idx, hidx⟩ := client_get_scheme_triple_idx_some ext w c t htag hf
  unfold setup_border
  simp only [hidx, Option.bind_eq_bind, Option.some_bind]
  split
  · exact ⟨_, rfl⟩
  · split <;> exact ⟨_, rfl⟩

/-- The method `update_wm_hints` returns for an adopted client that is found
in a frame; the client stays adopted and keeps its `fullscreen` flag. -/
theorem update_wm_hints_spec (ext : Externals) (w : World) (win : Window) (c : ClientPtr)
    (t : TagPtr) (h : is_adopted w win c t)
    (hframe : ∀ w1, is_adopted w1 win c t →
      (ext.find_frame_with_client w1 (w1.client c).tag_ c).isSome = true) :
    ∃ w1, update_wm_hints ext w c = some w1 ∧ is_adopted w1 win c t ∧
      (w1.client c).fullscreen = (w.client c).fullscreen := by
  unfold update_wm_hints
  by_cases hh : ext.XGetWMHints w (w.client c).window = true
  · simp only [hh, Bool.not_true, Bool.false_eq_true, ↓reduceIte]
    have hmid : ∃ w2, (if (decide (w.current_client = some c) &&
          (ext.XGetWMHints_hints w (w.client c).window).XUrgencyHint) = true then
          some (w.emit (.XSetWMHints (w.client c).window false))
        else
          if (ext.XGetWMHints_hints w (w.client c).window).XUrgencyHint ≠ (w.client c).urgent
          then do
            let w2 ← setup_border ext
              (w.set_client c { w.client c with
                urgent := (ext.XGetWMHints_hints w (w.client c).window).XUrgencyHint }) c
              (decide (w.current_client = some c))
            some ((w2.emit (.hook_emit_list
              ["urgent", if (w2.client c).urgent then "on" else "off",
                hex_str ((w.set_client c { w.client c with
                  urgent := (ext.XGetWMHints_hints w (w.client c).window).XUrgencyHint }).client
                  c).window])).emit .tag_set_flags_dirty)
          else some w) = some w2 ∧ is_adopted w2 win c t ∧
        (w2.client c).fullscreen = (w.client c).fullscreen := by
      split
      · exact ⟨_, rfl, is_adopted_emit w _ win c t h, rfl⟩
      · split
        · have ha : is_adopted (w.set_client c { w.client c with
              urgent := (ext.XGetWMHints_hints w (w.client c).window).XUrgencyHint }) win c t :=
            is_adopted_set_client w _ win c t h rfl rfl
          obtain ⟨s, hs⟩ := setup_border_some ext _ c t (decide (w.current_client = some c))
            ha.1 (hframe _ ha)
          rw [hs]
          refine ⟨_, rfl, ?_, ?_⟩
          · exact is_adopted_emit _ _ win c t (is_adopted_emit _ _ win c t
              (is_adopted_emit _ _ win c t ha))
          · simp
        · exact ⟨w, rfl, h, rfl⟩
    obtain ⟨w2, h1, h2, h3⟩ := hmid
    refine ⟨w2.set_client c { w2.client c with
      neverfocus := if (ext.XGetWMHints_hints w (w.client c).window).InputHint then
        !(ext.XGetWMHints_hints w (w.client c).window).input else false }, ?_,
      is_adopted_set_client w2 _ win c t h2 rfl rfl, ?_⟩
    · simp only [Option.bind_eq_bind] at h1 ⊢
      rw [h1]
      rfl
    · simp [h3]
  · simp only [hh, Bool.not_false, ↓reduceIte]
    exact ⟨w, rfl, h, rfl⟩

theorem updatesizehints_spec (ext : Externals) (w : World) (win : Window) (c : ClientPtr)
    (t : TagPtr) (h : is_adopted w win c t) :
    is_adopted (updatesizehints ext w c) win c t ∧
      ((updatesizehints ext w c).client c).fullscreen = (w.client c).fullscreen := by
  unfold updatesizehints
  exact ⟨is_adopted_set_client w _ win c t h rfl rfl, by simp⟩

/-- Lines 301 to 310 of `manage_client` return for an adopted client; the
client stays adopted and keeps its `fullscreen` flag. -/
theorem adopt_frame_spec (ext : Externals) (w : World) (win : Window) (c : ClientPtr)
    (t : TagPtr) (ch : HSClientChanges) (h : is_adopted w win c t)
    (hins : ∀ f, keeps_client c (ext.frame_insert_client f c))
    (hfoc : ∀ tg, keeps_client c (ext.frame_focus_client tg c))
    (hframe : ∀ w1, is_adopted w1 win c t →
      (ext.find_frame_with_client w1 (w1.client c).tag_ c).isSome = true) :
    ∃ w1, adopt_frame ext w c ch = some w1 ∧ is_adopted w1 win c t ∧
      (w1.client c).fullscreen = (w.client c).fullscreen := by
  unfold adopt_frame
  simp only [h.1, Option.bind_eq_bind, Option.some_bind]
  have h1 := is_adopted_keeps _ w win c t (hins (ext.lookup_frame w t ch.tree_index)) h
  have f1 := (hins (ext.lookup_frame w t ch.tree_index) w).2.2.1
  generalize ext.frame_insert_client (ext.lookup_frame w t ch.tree_index) c w = wa at h1 f1 ⊢
  obtain ⟨wb, hb, h2, f2⟩ := update_wm_hints_spec ext wa win c t h1 hframe
  rw [hb]
  simp only [Option.some_bind]
  obtain ⟨h3, f3⟩ := updatesizehints_spec ext wb win c t h2
  generalize updatesizehints ext wb c = wc at h3 f3 ⊢
  split
  · simp only [h3.1, Option.some_bind]
    exact ⟨_, rfl, is_adopted_keeps _ wc win c t (hfoc t) h3,
      ((hfoc t wc).2.2.1).trans (f3.trans (f2.trans f1))⟩
  · exact ⟨_, rfl, h3, f3.trans (f2.trans f1)⟩

/-- The method `set_fullscreen` returns for an adopted client that is not
fullscreen, and the client stays adopted. -/
theorem set_fullscreen_adopted (ext : Externals) (w : World) (win : Window) (c : ClientPtr)
    (t : TagPtr) (b : Bool) (h : is_adopted w win c t) (hfs : (w.client c).fullscreen = false)
    (hlayer : ∀ tg, keeps_client c (ext.tag_update_focus_layer tg))
    (hlayout : ∀ m, keeps_client c (ext.monitor_apply_layout m)) :
    ∃ w1, set_fullscreen ext w c b = some w1 ∧ is_adopted w1 win c t := by
  rw [set_fullscreen_steps]
  cases b
  · rw [if_pos hfs]
    exact ⟨w, rfl, h⟩
  · rw [if_neg (by rw [hfs]; decide)]
    obtain ⟨h1, h2, s, h3, h4⟩ := h
    have ha : is_adopted (fullscreen_assign w c true) win c t :=
      is_adopted_set_client w _ win c t ⟨h1, h2, s, h3, h4⟩ rfl rfl
    obtain ⟨g1, g2, s1, g3, g4⟩ := ha
    simp only [g1, g3, Option.some_bind, fullscreen_layer, ↓reduceIte]
    refine ⟨_, rfl, ?_⟩
    unfold fullscreen_publish
    apply is_adopted_emit
    apply is_adopted_emit
    apply is_adopted_keeps _ _ win c t (hlayout _)
    apply is_adopted_keeps _ _ win c t (hlayer _)
    generalize fullscreen_assign w c true = wa at g1 g2 g3 g4 ⊢
    refine ⟨?_, g2, s1, ?_, ?_⟩
    · rw [← g1]
      unfold slice_add_layer
      split <;> rfl
    · rw [← g3]
      unfold slice_add_layer
      split <;> rfl
    · unfold slice_add_layer
      split
      · simp only [World.set_stack, ↓reduceIte]
        exact g4
      · simp only [World.set_stack, Heap.set_layers, ↓reduceIte]
        exact g4

/-- Lines 312 to 352 of `manage_client` return for an adopted client that is
not fullscreen, and the client stays adopted. -/
theorem adopt_publish_spec (ext : Externals) (w : World) (win : Window) (c : ClientPtr)
    (t : TagPtr) (ch : HSClientChanges) (h : is_adopted w win c t)
    (hfs : (w.client c).fullscreen = false)
    (hlayer : ∀ tg, keeps_client c (ext.tag_update_focus_layer tg))
    (hlayout : ∀ m, keeps_client c (ext.monitor_apply_layout m)) :
    ∃ w1, adopt_publish ext w win c ch = some w1 ∧ is_adopted w1 win c t := by
  unfold adopt_publish
  simp only [World.client_emit, Option.bind_eq_bind]
  have h1 : is_adopted (((w.emit (.hsobject_set_attributes c)).emit
      (.ewmh_window_update_tag (w.client c).window (w.client c).tag_)).emit
      .tag_set_flags_dirty) win c t :=
    is_adopted_emit _ _ win c t (is_adopted_emit _ _ win c t (is_adopted_emit _ _ win c t h))
  obtain ⟨wa, ha, h2⟩ := set_fullscreen_adopted ext _ win c t ch.fullscreen h1 hfs hlayer hlayout
  rw [ha]
  simp only [Option.some_bind]
  refine ⟨_, rfl, ?_⟩
  apply is_adopted_emit
  apply is_adopted_emit
  split
  · refine is_adopted_set_client _ _ win c t ?_ ?_ ?_
    · exact is_adopted_emit _ _ win c t (is_adopted_emit _ _ win c t
        (is_adopted_emit _ _ win c t (is_adopted_emit _ _ win c t
          (is_adopted_emit _ _ win c t h2))))
    · rfl
    · rfl
  · exact is_adopted_emit _ _ win c t (is_adopted_emit _ _ win c t
      (is_adopted_emit _ _ win c t (is_adopted_emit _ _ win c t
        (is_adopted_emit _ _ win c t h2))))

theorem set_visible_adopted (w : World) (win : Window) (c : ClientPtr) (t : TagPtr) (b : Bool)
    (h : is_adopted w win c t) : is_adopted (set_visible w c b) win c t := by
  unfold set_visible
  split
  · exact h
  · simp only
    refine is_adopted_set_client _ _ win c t ?_ ?_ ?_
    · split
      · exact is_adopted_emit _ _ win c t (is_adopted_emit _ _ win c t
          (is_adopted_emit _ _ win c t (is_adopted_emit _ _ win c t
            (is_adopted_emit _ _ win c t h))))
      · refine is_adopted_set_client _ _ win c t ?_ ?_ ?_
        · exact is_adopted_emit _ _ win c t (is_adopted_emit _ _ win c t
            (is_adopted_emit _ _ win c t h))
        · rfl
        · rfl
    · rfl
    · rfl

/-- Lines 354 to 373 of `manage_client` keep the client adopted. -/
theorem adopt_show_spec (ext : Externals) (w : World) (win : Window) (c : ClientPtr)
    (t : TagPtr) (ch : HSClientChanges) (h : is_adopted w win c t)
    (hlayout : ∀ m, keeps_client c (ext.monitor_apply_layout m))
    (hset : ∀ m tg, keeps_client c (ext.monitor_set_tag m tg)) :
    is_adopted (adopt_show ext w c ch) win c t := by
  unfold adopt_show
  simp only
  apply is_adopted_emit
  unfold send_configure
  apply is_adopted_emit
  split
  · apply set_visible_adopted
    apply is_adopted_keeps _ _ win c t (hlayout _)
    split
    · exact is_adopted_keeps _ _ win c t (hset _ _) h
    · exact h
  · split
    · apply set_visible_adopted
      exact is_adopted_keeps _ _ win c t (hset _ _) h
    · exact h




/-- C18: when the window is neither known nor one of the manager, the rules
return `manage = true`, the client once adopted is found in a frame, and the
functions of layout.cpp, monitor.cpp and tag.cpp that are called keep the
client (`keeps_client`), `manage_client` returns the new client, and in the
world it leaves the client has the tag found for
`tag_name`, else the tag of the monitor found for `monitor_name`, else the tag
of the current monitor (`adoption_tag`); the client table holds the client
under its window, and the slice of the client is in the Normal sequence of the
stack of that tag. -/
theorem manage_client_tag (ext : Externals) (w : World) (win : Window)
    (hown : ext.is_herbstluft_window w win = false)
    (hnew : get_client_from_window w win = none)
    (hmanage : (ext.rules_apply (adopt_init ext w win) (ext.new_client w)).manage = true)
    (hins : ∀ f, keeps_client (ext.new_client w) (ext.frame_insert_client f (ext.new_client w)))
    (hfoc : ∀ t, keeps_client (ext.new_client w) (ext.frame_focus_client t (ext.new_client w)))
    (hlayer : ∀ t, keeps_client (ext.new_client w) (ext.tag_update_focus_layer t))
    (hlayout : ∀ m, keeps_client (ext.new_client w) (ext.monitor_apply_layout m))
    (hset : ∀ m t, keeps_client (ext.new_client w) (ext.monitor_set_tag m t))
    (hframe : ∀ w1, is_adopted w1 win (ext.new_client w) (adoption_tag ext w
        (ext.rules_apply (adopt_init ext w win) (ext.new_client w))) →
      (ext.find_frame_with_client w1 (w1.client (ext.new_client w)).tag_
        (ext.new_client w)).isSome = true) :
    ∃ w2, manage_client ext w win = some (some (ext.new_client w), w2) ∧
      (w2.client (ext.new_client w)).tag_ = some (adoption_tag ext w
        (ext.rules_apply (adopt_init ext w win) (ext.new_client w))) ∧
      (win, ext.new_client w) ∈ w2.g_clients ∧
      ∃ s, (w2.client (ext.new_client w)).slice = some s ∧
        s ∈ (w2.heap.tagstacks (w2.heap.tags (adoption_tag ext w
          (ext.rules_apply (adopt_init ext w win) (ext.new_client w)))).stack).normal := by
  obtain ⟨w1, h1, h2, h3, s, h4, h5⟩ := manage_client_adopt_spec ext w win hown hnew hmanage
    (fun mon t w1 => (hset mon t w1).1)
  obtain ⟨-, hfs⟩ := manage_client_adopt_fullscreen ext w w1 win _ _ _
    (fun mon t w2 => (hset mon t w2).2.2.1) h1
  have ha : is_adopted w1 win (ext.new_client w) (adoption_tag ext w
      (ext.rules_apply (adopt_init ext w win) (ext.new_client w))) :=
    ⟨h2, h3, s, h4, List.mem_of_mem_head? h5⟩
  unfold manage_client
  rw [h1]
  simp only [Option.bind_eq_bind]
  generalize ext.rules_apply (adopt_init ext w win) (ext.new_client w) = ch at *
  obtain ⟨wa, e1, a1, f1⟩ := adopt_frame_spec ext w1 win _ _ ch ha hins hfoc hframe
  obtain ⟨wb, e2, a2⟩ := adopt_publish_spec ext wa win _ _ ch a1 (f1.trans hfs) hlayer hlayout
  have a3 := adopt_show_spec ext wb win _ _ ch a2 hlayout hset
  rw [e1]
  simp only [Option.some_bind]
  rw [e2]
  exact ⟨_, rfl, a3⟩

theorem keeps_client_id (c : ClientPtr) : keeps_client c (fun w => w) :=
  fun _ => ⟨rfl, rfl, rfl, fun _ h => h, fun _ => rfl, fun _ _ h => h⟩

/-- Witness of `manage_client_tag`: the unknown window 300 in the example
world; the rules name neither a tag nor a monitor. -/
theorem manage_client_tag_witness :
    ∃ w2, manage_client example_ext example_world 300 =
        some (some (example_ext.new_client example_world), w2) ∧
      (w2.client (example_ext.new_client example_world)).tag_ =
        some (adoption_tag example_ext example_world
          (example_ext.rules_apply (adopt_init example_ext example_world 300)
            (example_ext.new_client example_world))) ∧
      (300, example_ext.new_client example_world) ∈ w2.g_clients ∧
      ∃ s, (w2.client (example_ext.new_client example_world)).slice = some s ∧
        s ∈ (w2.heap.tagstacks (w2.heap.tags (adoption_tag example_ext example_world
          (example_ext.rules_apply (adopt_init example_ext example_world 300)
            (example_ext.new_client example_world)))).stack).normal :=
  manage_client_tag example_ext example_world 300 (by decide) (by decide) (by decide)
    (fun _ => keeps_client_id _) (fun _ => keeps_client_id _) (fun _ => keeps_client_id _)
    (fun _ => keeps_client_id _) (fun _ _ => keeps_client_id _) (fun _ _ => rfl)

end Herbstluft
